import Mathlib

/-!
A shallow embedding of the query planner / optimizer repository
(`query_engine.py`, `prepare_optimized.py`, `prepare_ultra_fast.py`).

Modelling conventions:
 - a polars `DataFrame` is a `Frame`: a list of column names plus rows,
   each row an association list from column name to `Value`;
 - numeric columns (`bid_price`, `total_price`, aggregate outputs) are
   modelled over `ℚ` instead of IEEE doubles; ids and counts are `Int`;
 - `Date` / `Datetime` typed columns carry `Value.date` holding the ISO
   string; comparing two dates equals comparing their ISO strings
   lexicographically; `pl.lit(s).str.to_date()` is modelled as
   re-tagging the string as a date;
 - fallible polars operations (selecting or grouping by a missing
   column, strict rename, malformed `between` values) return
   `Except String`;
 - `DataFrame.sort` is modelled as a stable sort (`List.insertionSort`);
 - the partitioned store is a list of `Event`s; the partition file
   `type=T/day=D.parquet` holds exactly the events with that type and
   day, files enumerated in sorted day order (`sorted(glob(...))`);
 - the pre-computed aggregate files under `aggregates/` hold the output
   of the rollup builders of `prepare_optimized.py`, recomputed from the
   same store; a rollup file exists iff its builder had at least one
   input partition.
-/

/-- A cell value of a column, as stored by polars. -/
inductive Value where
  | null
  | int (n : Int)
  | num (q : ℚ)
  | str (s : String)
  | date (d : String)
deriving DecidableEq, Repr

/-- Rank used to order values of distinct runtime types; within one
column all values share a rank, so only the same-rank cases matter. -/
def Value.rank : Value → Nat
  | .null => 0
  | .int _ => 1
  | .num _ => 2
  | .str _ => 3
  | .date _ => 4

/-- Lexicographic comparison of char lists (string comparison; for
ISO-formatted dates it coincides with date order). -/
def charListLE : List Char → List Char → Bool
  | [], _ => true
  | _ :: _, [] => false
  | a :: as, b :: bs => if a = b then charListLE as bs else decide (a < b)

/-- String comparison on the underlying char lists. -/
def strLE (s t : String) : Bool := charListLE s.data t.data

/-- Total comparison on values, used to model `DataFrame.sort`. -/
def valueLE (a b : Value) : Bool :=
  match a, b with
  | .int m, .int n => m ≤ n
  | .num p, .num q => p ≤ q
  | .str s, .str t => strLE s t
  | .date s, .date t => strLE s t
  | _, _ => a.rank ≤ b.rank

/-- A row: an association list from column name to value. -/
abbrev Row := List (String × Value)

/-- Reading a cell of a row (a missing column reads as null; the
operations below only read columns they have checked to be present). -/
def getCol (r : Row) (c : String) : Value :=
  (r.lookup c).getD .null

/-- A polars DataFrame: column names plus rows. -/
structure Frame where
  cols : List String
  rows : List Row
deriving DecidableEq, Repr

/-- Engine results compare decidably, so concrete runs evaluate. -/
instance : DecidableEq (Except String Frame) := fun a b =>
  match a, b with
  | .error x, .error y =>
      if h : x = y then .isTrue (by rw [h])
      else .isFalse fun hc => h (Except.error.inj hc)
  | .error _, .ok _ => .isFalse fun hc => Except.noConfusion hc
  | .ok _, .error _ => .isFalse fun hc => Except.noConfusion hc
  | .ok x, .ok y =>
      if h : x = y then .isTrue (by rw [h])
      else .isFalse fun hc => h (Except.ok.inj hc)

/-- `df.filter(...)`: keep the rows satisfying a predicate. -/
def Frame.filterRows (df : Frame) (p : Row → Bool) : Frame :=
  ⟨df.cols, df.rows.filter p⟩

/-- Projection of a row onto a list of columns, in that order. -/
def projectRow (cs : List String) (r : Row) : Row :=
  cs.map (fun c => (c, getCol r c))

/-- `df.select([...])`: project onto the named columns, in order.
Selecting a missing column or a duplicated name raises. -/
def Frame.select (df : Frame) (cs : List String) : Except String Frame :=
  if (∀ c ∈ cs, c ∈ df.cols) ∧ cs.Nodup then
    .ok ⟨cs, df.rows.map (projectRow cs)⟩
  else .error "select: column not found or duplicated"

/-- Renaming one key of a row. -/
def renameKey (old new : String) (r : Row) : Row :=
  r.map (fun p => (if p.1 = old then new else p.1, p.2))

/-- `df.rename({old: new})`; strict, so a missing source column raises. -/
def Frame.rename (df : Frame) (old new : String) : Except String Frame :=
  if old ∈ df.cols then
    .ok ⟨df.cols.map (fun c => if c = old then new else c),
         df.rows.map (renameKey old new)⟩
  else .error "rename: column not found"

/-- Row comparison by one column, optionally descending. -/
def rowLE (c : String) (desc : Bool) (a b : Row) : Bool :=
  if desc then valueLE (getCol b c) (getCol a c)
  else valueLE (getCol a c) (getCol b c)

/-- `df.sort(c, descending=desc)`, computed as an insertion sort.  The
source leaves `maintain_order` at its default `False`, so polars promises
a key-sorted reordering but nothing about rows tying on the key; this
function picks one admissible outcome (the stable one) so the engine
stays executable.  Properties of the tie order are therefore stated
against `sortContract` below, never against this choice. -/
def sortByCol (df : Frame) (c : String) (desc : Bool) : Frame :=
  ⟨df.cols, List.insertionSort (fun a b => rowLE c desc a b = true) df.rows⟩

/-- What the source's `df.sort(c, descending=desc)` call guarantees
(`maintain_order=False`, the default): the columns are unchanged and the
rows are some permutation of the input that is sorted on the key.  The
relative order of rows tying on the key is unspecified. -/
def sortContract (df : Frame) (c : String) (desc : Bool) (out : Frame) : Prop :=
  out.cols = df.cols ∧ out.rows.Perm df.rows ∧
  List.Sorted (fun a b => rowLE c desc a b = true) out.rows

/-- Numeric view of a value (aggregation input). -/
def toQ : Value → Option ℚ
  | .num q => some q
  | .int n => some (n : ℚ)
  | _ => none

def isNull : Value → Bool
  | .null => true
  | _ => false

/-- One aggregate expression inside `.agg([...])`, with its output name. -/
inductive AggExpr where
  | sum (col outName : String)
  | mean (col outName : String)
  | count (col outName : String)
  | len (outName : String)
deriving DecidableEq, Repr

def AggExpr.outName : AggExpr → String
  | .sum _ a => a
  | .mean _ a => a
  | .count _ a => a
  | .len a => a

def AggExpr.colNeeded : AggExpr → Option String
  | .sum c _ => some c
  | .mean c _ => some c
  | .count c _ => some c
  | .len _ => none

/-- Evaluating one aggregate over the rows of one group.  `sum` ignores
nulls and is `0` on an empty input, `mean` of no non-null values is
null, `count` counts non-null values, `len` counts rows. -/
def aggEval (rows : List Row) : AggExpr → Value
  | .sum c _ => .num (rows.filterMap (fun r => toQ (getCol r c))).sum
  | .mean c _ =>
      let qs := rows.filterMap (fun r => toQ (getCol r c))
      if qs.isEmpty then .null else .num (qs.sum / qs.length)
  | .count c _ => .int (rows.countP (fun r => !(isNull (getCol r c))))
  | .len _ => .int rows.length

/-- The group key of a row for a list of group columns. -/
def keyOf (g : List String) (r : Row) : List Value :=
  g.map (getCol r)

/-- First-occurrence deduplication (auxiliary, with a seen accumulator
so that the recursion is structural). -/
def dedupFirstAux {α : Type} [DecidableEq α] (seen : List α) : List α → List α
  | [] => []
  | a :: l => if a ∈ seen then dedupFirstAux seen l else a :: dedupFirstAux (a :: seen) l

/-- First-occurrence deduplication of a list. -/
def dedupFirst {α : Type} [DecidableEq α] (l : List α) : List α :=
  dedupFirstAux [] l

/-- `df.group_by(g).agg(aggs)`.  Raises when a group or aggregate column
is missing or an output name is duplicated.  The row order of the output
is unspecified in polars; the model lists groups in first-occurrence
order of their keys. -/
def groupByAgg (df : Frame) (g : List String) (aggs : List AggExpr) : Except String Frame :=
  let names := g ++ aggs.map AggExpr.outName
  if (∀ c ∈ g, c ∈ df.cols) ∧
     (∀ a ∈ aggs, ∀ c ∈ a.colNeeded.toList, c ∈ df.cols) ∧ names.Nodup then
    .ok ⟨names,
      (dedupFirst (df.rows.map (keyOf g))).map (fun k =>
        g.zip k ++ aggs.map (fun a =>
          (a.outName, aggEval (df.rows.filter (fun r => keyOf g r == k)) a)))⟩
  else .error "group_by: column not found or duplicated"

/-! ### The query document -/

/-- A `select` entry: a bare column name, or a single-entry mapping from
aggregate function name to column (`{"SUM": "bid_price"}`). -/
inductive SelectItem where
  | col (name : String)
  | agg (func : String) (arg : String)
deriving DecidableEq, Repr

/-- A `where` value: a scalar or a list (for `in` / `between`). -/
inductive PredVal where
  | s (v : Value)
  | list (vs : List Value)
deriving DecidableEq, Repr

/-- A `where` predicate `{col, op, val}`. -/
structure WherePred where
  col : String
  op : String
  val : PredVal
deriving DecidableEq, Repr

/-- An `order_by` entry `{col, dir}`; a missing `dir` defaults to asc. -/
structure OrderKey where
  col : String
  dir : Option String
deriving DecidableEq, Repr

/-- A query document. -/
structure Query where
  select : List SelectItem
  where_ : List WherePred
  group_by : List String
  order_by : List OrderKey
deriving DecidableEq, Repr

/-! ### The partitioned store -/

/-- One event row of the partitioned store, after ingest has derived
`day`, `week`, `hour`, `minute` from `ts`.  `day` and `week` are Date
columns, `hour` a Datetime column (all carried as ISO strings here),
`minute` a plain string `YYYY-MM-DD HH:MM`. -/
structure Event where
  ts : Int
  type : String
  auction_id : String
  advertiser_id : Int
  publisher_id : Int
  bid_price : Option ℚ
  user_id : Int
  total_price : Option ℚ
  country : String
  day : String
  week : String
  hour : String
  minute : String
deriving DecidableEq, Repr

def optVal : Option ℚ → Value
  | some q => .num q
  | none => .null

/-- The column set of every partition file. -/
def eventCols : List String :=
  ["ts", "type", "auction_id", "advertiser_id", "publisher_id", "bid_price",
   "user_id", "total_price", "country", "day", "week", "hour", "minute"]

/-- The row stored for an event. -/
def Event.row (e : Event) : Row :=
  [("ts", .int e.ts), ("type", .str e.type), ("auction_id", .str e.auction_id),
   ("advertiser_id", .int e.advertiser_id), ("publisher_id", .int e.publisher_id),
   ("bid_price", optVal e.bid_price), ("user_id", .int e.user_id),
   ("total_price", optVal e.total_price), ("country", .str e.country),
   ("day", .date e.day), ("week", .date e.week), ("hour", .date e.hour),
   ("minute", .str e.minute)]

/-- The sorted list of days for which a `type=T` partition file exists
(`sorted(type_dir.glob("day=*.parquet"))`). -/
def partitionDays (store : List Event) (T : String) : List String :=
  List.insertionSort (fun a b => strLE a b = true)
    (dedupFirst (store.filterMap (fun e => if e.type = T then some e.day else none)))

/-- The rows of partition file `type=T/day=D`, in store order. -/
def partitionRows (store : List Event) (T D : String) : List Event :=
  store.filter (fun e => e.type == T && e.day == D)

/-- All rows under a type directory, in sorted file order. -/
def typeRows (store : List Event) (T : String) : List Event :=
  (partitionDays store T).flatMap (partitionRows store T)

/-! ### Pattern matchers (`query_engine.py`, `_matches_*`) -/

/-- `any(w.col == "type" and w.op == "eq" and w.val == v for w in where)`. -/
def typeEqFilter (v : String) (ws : List WherePred) : Bool :=
  ws.any (fun w => w.col == "type" && w.op == "eq" && w.val == .s (.str v))

/-- `_matches_daily_revenue`. -/
def matches_daily_revenue (select : List SelectItem) (ws : List WherePred)
    (g : List String) : Bool :=
  g == ["day"] &&
  (select.contains (.col "day") &&
   select.any (fun i => i == .agg "SUM" "bid_price") &&
   select.length == 2) &&
  (typeEqFilter "impression" ws && ws.length == 1)

/-- `_matches_publisher_day_revenue`.  Note: it puts no condition on the
remaining `where` entries and no length condition on `select`. -/
def matches_publisher_day_revenue (select : List SelectItem) (ws : List WherePred)
    (g : List String) : Bool :=
  g.contains "publisher_id" &&
  select.contains (.col "publisher_id") &&
  select.any (fun i => i == .agg "SUM" "bid_price") &&
  typeEqFilter "impression" ws

/-- `_matches_country_purchases`. -/
def matches_country_purchases (select : List SelectItem) (ws : List WherePred)
    (g : List String) : Bool :=
  g == ["country"] &&
  select.contains (.col "country") &&
  select.any (fun i => i == .agg "AVG" "total_price") &&
  typeEqFilter "purchase" ws && ws.length == 1

/-- `_matches_advertiser_type` (`set(group_by) == {"advertiser_id", "type"}`). -/
def matches_advertiser_type (select : List SelectItem) (ws : List WherePred)
    (g : List String) : Bool :=
  (g.all (fun c => c == "advertiser_id" || c == "type") &&
   g.contains "advertiser_id" && g.contains "type") &&
  select.contains (.col "advertiser_id") &&
  select.contains (.col "type") &&
  select.any (fun i => i == .agg "COUNT" "*") &&
  ws.length == 0

/-- `_matches_minute_revenue`. -/
def matches_minute_revenue (select : List SelectItem) (ws : List WherePred)
    (g : List String) : Bool :=
  g == ["minute"] &&
  select.contains (.col "minute") &&
  select.any (fun i => i == .agg "SUM" "bid_price") &&
  typeEqFilter "impression" ws

/-- Which branch of `_try_precomputed` fires first, if any. -/
inductive Shape where
  | daily
  | publisher
  | countryPurchases
  | advertiserType
  | minuteRevenue
deriving DecidableEq, Repr

/-- The routing decision of `_try_precomputed`: the first matching
pattern, in source order, or `none` for the scan fallback. -/
def matched_shape (select : List SelectItem) (ws : List WherePred)
    (g : List String) : Option Shape :=
  if matches_daily_revenue select ws g then some .daily
  else if matches_publisher_day_revenue select ws g then some .publisher
  else if matches_country_purchases select ws g then some .countryPurchases
  else if matches_advertiser_type select ws g then some .advertiserType
  else if matches_minute_revenue select ws g then some .minuteRevenue
  else none

/-- Routing of a whole query document. -/
def route (q : Query) : Option Shape :=
  matched_shape q.select q.where_ q.group_by

/-! ### Rollup builders (`prepare_optimized.py`, `compute_aggregates_parallel`)

Each builder scans the relevant final partitions in sorted file order
(the same enumeration the scan executor uses), projects the columns it
needs, and groups.  A rollup file exists iff `dfs` was non-empty, i.e.
iff the store holds at least one row of the relevant type. -/

def impression_rows (store : List Event) : List Event := typeRows store "impression"

def purchase_rows (store : List Event) : List Event := typeRows store "purchase"

/-- All rows, in the type order of the builder loop. -/
def all_type_rows (store : List Event) : List Event :=
  ["serve", "impression", "click", "purchase"].flatMap (typeRows store)

/-- The lazy frame scanned by a builder: the given events projected to
the given columns. -/
def builderFrame (evs : List Event) (cs : List String) : Frame :=
  ⟨cs, evs.map (fun e => projectRow cs e.row)⟩

/-- `aggregates/daily_revenue.parquet`: grouped by `day` over
impressions, summed and counted, sorted ascending by `day`. -/
def daily_revenue_agg (store : List Event) : Except String Frame := do
  let f ← groupByAgg (builderFrame (impression_rows store) ["day", "bid_price"]) ["day"]
            [.sum "bid_price" "sum_bid_price", .count "bid_price" "count_impressions"]
  .ok (sortByCol f "day" false)

/-- `aggregates/publisher_day_country_revenue.parquet`. -/
def publisher_day_country_revenue_agg (store : List Event) : Except String Frame :=
  groupByAgg
    (builderFrame (impression_rows store) ["publisher_id", "day", "country", "bid_price"])
    ["publisher_id", "day", "country"] [.sum "bid_price" "sum_bid_price"]

/-- `aggregates/country_purchases.parquet`. -/
def country_purchases_agg (store : List Event) : Except String Frame :=
  groupByAgg (builderFrame (purchase_rows store) ["country", "total_price"]) ["country"]
    [.sum "total_price" "sum_total_price", .mean "total_price" "avg_total_price",
     .count "total_price" "count_purchases"]

/-- `aggregates/advertiser_type_counts.parquet`. -/
def advertiser_type_counts_agg (store : List Event) : Except String Frame :=
  groupByAgg (builderFrame (all_type_rows store) ["advertiser_id", "type"])
    ["advertiser_id", "type"] [.len "count"]

/-- `aggregates/minute_revenue.parquet`. -/
def minute_revenue_agg (store : List Event) : Except String Frame :=
  groupByAgg (builderFrame (impression_rows store) ["day", "minute", "bid_price"])
    ["day", "minute"] [.sum "bid_price" "sum_bid_price"]

/-- `_load_aggregate`: reading a rollup file; the read raises when the
builder wrote no file (no input partitions existed for it). -/
def load_aggregate (store : List Event) (sh : Shape) : Except String Frame :=
  match sh with
  | .daily =>
      if (impression_rows store).isEmpty then .error "aggregate file not found"
      else daily_revenue_agg store
  | .publisher =>
      if (impression_rows store).isEmpty then .error "aggregate file not found"
      else publisher_day_country_revenue_agg store
  | .countryPurchases =>
      if (purchase_rows store).isEmpty then .error "aggregate file not found"
      else country_purchases_agg store
  | .advertiserType =>
      if (all_type_rows store).isEmpty then .error "aggregate file not found"
      else advertiser_type_counts_agg store
  | .minuteRevenue =>
      if (impression_rows store).isEmpty then .error "aggregate file not found"
      else minute_revenue_agg store

/-! ### Filter / sort / select primitives of the engine -/

/-- `df[col].dtype in [pl.Date, pl.Datetime]`: the model reads the type
off the first row (a column has one dtype; on an empty frame the flag is
irrelevant as no row is compared). -/
def colIsDateLike (df : Frame) (c : String) : Bool :=
  match df.rows with
  | [] => false
  | r :: _ => match getCol r c with | .date _ => true | _ => false

/-- `pl.lit(s).str.to_date()` (the engine only converts values it has
checked with `isinstance(val, str)`). -/
def toDateIfStr : Value → Value
  | .str s => .date s
  | v => v

def Value.isStr : Value → Bool
  | .str _ => true
  | _ => false

/-- Polars `==` on a column: null on either side compares false (the row
is dropped). -/
def cmpEqV (x v : Value) : Bool :=
  !(isNull x) && !(isNull v) && x == v

def cmpNeV (x v : Value) : Bool :=
  !(isNull x) && !(isNull v) && x != v

/-- Polars `<=` on a column: only same-typed non-null values compare. -/
def cmpLeV (x y : Value) : Bool :=
  match x, y with
  | .int m, .int n => m ≤ n
  | .num p, .num q => p ≤ q
  | .str s, .str t => strLE s t
  | .date s, .date t => strLE s t
  | _, _ => false

/-- One step of `_apply_filters`: a predicate whose column is absent is
skipped, recognized ops filter, an unrecognized op falls through. -/
def applyFilterOne (df : Frame) (w : WherePred) : Except String Frame :=
  if w.col ∉ df.cols then .ok df
  else
    let isDate := colIsDateLike df w.col
    if w.op == "eq" then
      match w.val with
      | .s v =>
          let v := if isDate && v.isStr then toDateIfStr v else v
          .ok (df.filterRows (fun r => cmpEqV (getCol r w.col) v))
      | .list _ => .error "eq: invalid comparison value"
    else if w.op == "neq" then
      match w.val with
      | .s v =>
          let v := if isDate && v.isStr then toDateIfStr v else v
          .ok (df.filterRows (fun r => cmpNeV (getCol r w.col) v))
      | .list _ => .error "neq: invalid comparison value"
    else if w.op == "in" then
      match w.val with
      | .list vs => .ok (df.filterRows (fun r =>
          !(isNull (getCol r w.col)) && vs.contains (getCol r w.col)))
      | .s _ => .error "is_in: expected a list"
    else if w.op == "between" then
      match w.val with
      | .list [lo, hi] =>
          let lo' := if isDate && lo.isStr then toDateIfStr lo else lo
          let hi' := if isDate && lo.isStr then toDateIfStr hi else hi
          .ok (df.filterRows (fun r =>
            cmpLeV lo' (getCol r w.col) && cmpLeV (getCol r w.col) hi'))
      | _ => .error "between: expected low and high"
    else .ok df

/-- `_apply_filters`: fold the predicates in list order. -/
def applyFilters (df : Frame) (ws : List WherePred) : Except String Frame :=
  match ws with
  | [] => .ok df
  | w :: rest =>
      match applyFilterOne df w with
      | .ok df' => applyFilters df' rest
      | .error e => .error e

/-- `str.lower()`, modelled on the char list (ASCII case folding; the
column names of this engine are ASCII). -/
def strLower (s : String) : String :=
  ⟨s.data.map Char.toLower⟩

/-- One step of `_apply_order_by`: sort by the column if present, else by
the first column equal up to case, else leave the frame unchanged.  A
missing `dir` defaults to ascending. -/
def applyOrderKey (df : Frame) (k : OrderKey) : Frame :=
  let desc := strLower (k.dir.getD "asc") == "desc"
  if k.col ∈ df.cols then sortByCol df k.col desc
  else
    match df.cols.find? (fun c => strLower c == strLower k.col) with
    | some c => sortByCol df c desc
    | none => df

/-- `_apply_order_by`: the sort keys applied one after another in list
order. -/
def applyOrderBy (df : Frame) (ks : List OrderKey) : Frame :=
  ks.foldl applyOrderKey df

/-- The aggregate expressions `_apply_select` builds from the select
list (entries with an unrecognized function produce no expression). -/
def aggExprsOf (select : List SelectItem) : List AggExpr :=
  select.filterMap (fun i =>
    match i with
    | .col _ => none
    | .agg f c =>
        if f == "SUM" then some (.sum c ("sum(" ++ c ++ ")"))
        else if f == "AVG" then some (.mean c ("avg(" ++ c ++ ")"))
        else if f == "COUNT" then
          if c == "*" then some (.len "count(*)")
          else some (.count c ("count(" ++ c ++ ")"))
        else none)

/-- The output column list `_apply_select` builds from the select list:
bare names, and `"<func>(<col>)"` in lower case for aggregates. -/
def selectColsOf (select : List SelectItem) : List String :=
  select.map (fun i =>
    match i with
    | .col s => s
    | .agg f c => strLower f ++ "(" ++ c ++ ")")

/-- `_apply_select`: grouped aggregation then projection in select
order, or a plain projection onto the bare columns when `group_by` is
empty (aggregates are then ignored; an empty projection list leaves the
frame unchanged). -/
def applySelect (df : Frame) (select : List SelectItem) (g : List String) :
    Except String Frame :=
  if g.isEmpty then
    let cs := select.filterMap (fun i =>
      match i with | .col s => some s | .agg _ _ => none)
    if cs.isEmpty then .ok df else df.select cs
  else do
    let grouped ← groupByAgg df g (aggExprsOf select)
    grouped.select (selectColsOf select)

/-! ### Scan planning (`_determine_partitions`, `_determine_columns`,
`_load_partitions`) -/

/-- `type in L`: the source assigns the raw value to `types_to_scan`; a
scalar there is malformed input (Python would then iterate the scalar),
modelled as the one-element list. -/
def PredVal.asTypeList : PredVal → List PredVal
  | .list vs => vs.map .s
  | .s v => [.s v]

/-- `_determine_partitions`: fold over `where`.  `type eq` and `type in`
restrict the type axis, `day eq` restricts the day axis, every other
form (`day between` included, its branch is `pass`) changes nothing. -/
def determinePartitions (ws : List WherePred) : List PredVal × Option (List PredVal) :=
  ws.foldl (fun acc w =>
    if w.col == "type" && w.op == "eq" then ([w.val], acc.2)
    else if w.col == "type" && w.op == "in" then (w.val.asTypeList, acc.2)
    else if w.col == "day" && w.op == "eq" then (acc.1, some [w.val])
    else acc)
    ([.s (.str "serve"), .s (.str "impression"), .s (.str "click"), .s (.str "purchase")],
     none)

/-- `_determine_columns`: the union of columns referenced by select
(aggregate arguments except `*` included), where, group_by and order_by
(names containing `(` excluded).  The source returns `list(set)`, whose
order is unspecified; the model fixes first-occurrence order. -/
def determineColumns (select : List SelectItem) (ws : List WherePred)
    (g : List String) (ob : List OrderKey) : List String :=
  dedupFirst
    ((select.flatMap (fun i =>
        match i with
        | .col s => [s]
        | .agg _ c => if c == "*" then [] else [c])) ++
     ws.map WherePred.col ++ g ++
     ob.filterMap (fun k => if k.col.contains '(' then none else some k.col))

/-- The events contributed by the type directories of the scan, in
directory order then sorted file order (a missing directory contributes
nothing; a non-string type value names no existing directory). -/
def loadedEvents (store : List Event) (types : List PredVal) : List Event :=
  types.flatMap (fun tv =>
    match tv with
    | .s (.str T) => typeRows store T
    | _ => [])

/-- `_load_partitions`.  Mirrors the source: the `days` argument is
accepted but never used; with no partition files at all the result is
`pl.DataFrame()` — an empty frame with NO columns; a file is projected
onto the requested columns present in its schema, or left whole when
that intersection is empty. -/
def loadPartitions (store : List Event) (types : List PredVal)
    (_days : Option (List PredVal)) (columns : List String) : Frame :=
  let evs := loadedEvents store types
  if evs.isEmpty then ⟨[], []⟩
  else
    let avail := columns.filter (fun c => c ∈ eventCols)
    if avail.isEmpty then ⟨eventCols, evs.map Event.row⟩
    else ⟨avail, evs.map (fun e => projectRow avail e.row)⟩

/-- `_execute_scan`. -/
def executeScan (store : List Event) (q : Query) : Except String Frame := do
  let parts := determinePartitions q.where_
  let columns := determineColumns q.select q.where_ q.group_by q.order_by
  let df := loadPartitions store parts.1 parts.2 columns
  let df ← applyFilters df q.where_
  let df ← applySelect df q.select q.group_by
  .ok (if q.order_by.isEmpty then df else applyOrderBy df q.order_by)

/-! ### Rollup-routed execution (`_query_*`) -/

/-- `_query_daily_revenue`: note that both `where` and `order_by` are
received and ignored. -/
def query_daily_revenue (store : List Event) (_ws : List WherePred)
    (_ob : List OrderKey) : Except String Frame := do
  let df ← load_aggregate store .daily
  let df ← df.rename "sum_bid_price" "sum(bid_price)"
  df.select ["day", "sum(bid_price)"]

/-- The filter loop of `_query_publisher_day_revenue`: `type` filters are
skipped, `country eq` / `day between` / `day eq` are applied, anything
else is silently ignored. -/
def publisherFilterStep (df : Frame) (w : WherePred) : Except String Frame :=
  if w.col == "type" then .ok df
  else if w.col == "country" && w.op == "eq" then
    match w.val with
    | .s v => .ok (df.filterRows (fun r => cmpEqV (getCol r "country") v))
    | .list _ => .error "eq: invalid comparison value"
  else if w.col == "day" && w.op == "between" then
    match w.val with
    | .list [.str lo, .str hi] =>
        .ok (df.filterRows (fun r =>
          cmpLeV (.date lo) (getCol r "day") && cmpLeV (getCol r "day") (.date hi)))
    | _ => .error "to_date: expected a string pair"
  else if w.col == "day" && w.op == "eq" then
    match w.val with
    | .s (.str d) => .ok (df.filterRows (fun r => cmpEqV (getCol r "day") (.date d)))
    | _ => .error "to_date: expected a string"
  else .ok df

/-- `_query_publisher_day_revenue`: filter the rollup, re-group by the
query's `group_by`, rename, select; `order_by` is received and ignored. -/
def query_publisher_day_revenue (store : List Event) (ws : List WherePred)
    (g : List String) (_ob : List OrderKey) : Except String Frame := do
  let df ← load_aggregate store .publisher
  let df ← ws.foldlM publisherFilterStep df
  let df ← groupByAgg df g [.sum "sum_bid_price" "sum_bid_price"]
  let df ← df.rename "sum_bid_price" "sum(bid_price)"
  df.select (g ++ ["sum(bid_price)"])

/-- `_query_country_purchases`. -/
def query_country_purchases (store : List Event) (ob : List OrderKey) :
    Except String Frame := do
  let df ← load_aggregate store .countryPurchases
  let df ← df.rename "avg_total_price" "avg(total_price)"
  let df ← df.select ["country", "avg(total_price)"]
  .ok (if ob.isEmpty then df else applyOrderBy df ob)

/-- `_query_advertiser_type`. -/
def query_advertiser_type (store : List Event) (ob : List OrderKey) :
    Except String Frame := do
  let df ← load_aggregate store .advertiserType
  let df ← df.rename "count" "count(*)"
  let df ← df.select ["advertiser_id", "type", "count(*)"]
  .ok (if ob.isEmpty then df else applyOrderBy df ob)

/-- The filter loop of `_query_minute_revenue`: only `day eq` applies. -/
def minuteFilterStep (df : Frame) (w : WherePred) : Except String Frame :=
  if w.col == "day" && w.op == "eq" then
    match w.val with
    | .s (.str d) => .ok (df.filterRows (fun r => cmpEqV (getCol r "day") (.date d)))
    | _ => .error "to_date: expected a string"
  else .ok df

/-- `_query_minute_revenue`. -/
def query_minute_revenue (store : List Event) (ws : List WherePred)
    (ob : List OrderKey) : Except String Frame := do
  let df ← load_aggregate store .minuteRevenue
  let df ← ws.foldlM minuteFilterStep df
  let df ← df.rename "sum_bid_price" "sum(bid_price)"
  let df ← df.select ["minute", "sum(bid_price)"]
  .ok (if ob.isEmpty then df else applyOrderBy df ob)

/-- `_try_precomputed` followed by the scan fallback: the result a call
of `execute_query` computes (cache aside). -/
def executeQueryResult (store : List Event) (q : Query) : Except String Frame :=
  match route q with
  | some .daily => query_daily_revenue store q.where_ q.order_by
  | some .publisher => query_publisher_day_revenue store q.where_ q.group_by q.order_by
  | some .countryPurchases => query_country_purchases store q.order_by
  | some .advertiserType => query_advertiser_type store q.order_by
  | some .minuteRevenue => query_minute_revenue store q.where_ q.order_by
  | none => executeScan store q

/-! ### Worker-count defaults of the prepare variants -/

/-- `prepare_optimized.py`: `min(6, max(1, int(cpu_count() * 0.75)))`
(`int` truncates toward zero, i.e. floor on a non-negative float). -/
def optimized_num_workers (cpuCount : ℕ) : ℕ :=
  min 6 (max 1 (Nat.floor ((0.75 : ℚ) * cpuCount)))

/-- `prepare_ultra_fast.py`: `min(10, max(1, cpu_count()))`. -/
def ultra_fast_num_workers (cpuCount : ℕ) : ℕ :=
  min 10 (max 1 cpuCount)

/-! ### The result cache (`execute_query`)

Object identity matters for the cache-transparency claim, so the engine
state carries an explicit heap of allocated `DataFrame` objects; a
caller receives a heap index.  `.clone()` allocates a fresh object with
the same contents; mutating one object (`heapSet`) cannot affect any
other.  The cache key models `md5(json.dumps(query, sort_keys=True))`:
deterministic in the document, so the document itself serves as key. -/

structure EngineState where
  heap : List Frame
  cache : List (Query × Nat)
  enableQueryCache : Bool
deriving Repr

def heapGet (s : EngineState) (i : Nat) : Frame :=
  s.heap.getD i ⟨[], []⟩

def heapAlloc (s : EngineState) (f : Frame) : Nat × EngineState :=
  (s.heap.length, ⟨s.heap ++ [f], s.cache, s.enableQueryCache⟩)

def heapSet (s : EngineState) (i : Nat) (f : Frame) : EngineState :=
  ⟨s.heap.set i f, s.cache, s.enableQueryCache⟩

/-- `execute_query` with the cache: on a hit return a clone of the
cached object; on a miss compute, return the computed object and store a
clone of it under the query's key. -/
def execute_query (store : List Event) (q : Query) (s : EngineState) :
    Except String (Nat × EngineState) :=
  if s.enableQueryCache then
    match s.cache.lookup q with
    | some i => .ok (heapAlloc s (heapGet s i))
    | none => do
        let f ← executeQueryResult store q
        let (r, s1) := heapAlloc s f
        let (c, s2) := heapAlloc s1 f
        .ok (r, ⟨s2.heap, (q, c) :: s2.cache, s2.enableQueryCache⟩)
  else do
    let f ← executeQueryResult store q
    .ok (heapAlloc s f)

/-! ### Canonical rollup-shape forms (for the routing-equivalence claim)

The routing-equivalence claim fails for queries whose filters, select
order or group columns fall outside what both execution paths treat
alike (see the counterexample); the amended claim quantifies over the
canonical form of each shape. -/

/-- The filter `type eq impression`. -/
def typeEqImp : WherePred := ⟨"type", "eq", .s (.str "impression")⟩

/-- The filter `type eq purchase`. -/
def typeEqPurchase : WherePred := ⟨"type", "eq", .s (.str "purchase")⟩

/-- The filters the PublisherRevenue rollup path recognizes. -/
def pubRecognizedB (w : WherePred) : Bool :=
  w == typeEqImp ||
  (w.col == "country" && w.op == "eq" &&
    (match w.val with | .s (.str _) => true | _ => false)) ||
  (w.col == "day" && w.op == "eq" &&
    (match w.val with | .s (.str _) => true | _ => false)) ||
  (w.col == "day" && w.op == "between" &&
    (match w.val with | .list [.str _, .str _] => true | _ => false))

/-- The filter forms whose scan-side behavior the equivalence proof
interprets: `type eq`, `country eq`, `day eq` and `day between`, with
string-typed comparison values. -/
def scanRecognizedB (w : WherePred) : Bool :=
  (w.col == "type" && w.op == "eq" &&
    (match w.val with | .s (.str _) => true | _ => false)) ||
  (w.col == "country" && w.op == "eq" &&
    (match w.val with | .s (.str _) => true | _ => false)) ||
  (w.col == "day" && w.op == "eq" &&
    (match w.val with | .s (.str _) => true | _ => false)) ||
  (w.col == "day" && w.op == "between" &&
    (match w.val with | .list [.str _, .str _] => true | _ => false))

/-- The filters the MinuteRevenue rollup path recognizes. -/
def minuteRecognizedB (w : WherePred) : Bool :=
  w == typeEqImp ||
  (w.col == "day" && w.op == "eq" &&
    (match w.val with | .s (.str _) => true | _ => false))

/-- Row-level meaning of a recognized filter on event data (junk `true`
on unrecognized filters, which the canonical forms exclude). -/
def canonPredSem (w : WherePred) (e : Event) : Bool :=
  if w.col == "type" then
    match w.val with
    | .s (.str v) => e.type == v
    | _ => true
  else if w.col == "country" && w.op == "eq" then
    match w.val with
    | .s (.str c) => e.country == c
    | _ => true
  else if w.col == "day" && w.op == "eq" then
    match w.val with
    | .s (.str d) => e.day == d
    | _ => true
  else if w.col == "day" && w.op == "between" then
    match w.val with
    | .list [.str lo, .str hi] => strLE lo e.day && strLE e.day hi
    | _ => true
  else true

/-- Meaning of one `_query_publisher_day_revenue` filter step on a
rollup row. -/
def pubStepSem (w : WherePred) (r : Row) : Bool :=
  if w.col == "type" then true
  else if w.col == "country" && w.op == "eq" then
    match w.val with
    | .s v => cmpEqV (getCol r "country") v
    | _ => true
  else if w.col == "day" && w.op == "between" then
    match w.val with
    | .list [.str lo, .str hi] =>
        cmpLeV (.date lo) (getCol r "day") && cmpLeV (getCol r "day") (.date hi)
    | _ => true
  else if w.col == "day" && w.op == "eq" then
    match w.val with
    | .s (.str d) => cmpEqV (getCol r "day") (.date d)
    | _ => true
  else true

/-- Meaning of one `_query_minute_revenue` filter step on a rollup row. -/
def minuteStepSem (w : WherePred) (r : Row) : Bool :=
  if w.col == "day" && w.op == "eq" then
    match w.val with
    | .s (.str d) => cmpEqV (getCol r "day") (.date d)
    | _ => true
  else true

/-- Canonical DailyRevenue shape (plus: the rollup file exists). -/
def CanonicalDaily (store : List Event) (q : Query) : Prop :=
  q.select = [.col "day", .agg "SUM" "bid_price"] ∧
  q.where_ = [typeEqImp] ∧
  q.group_by = ["day"] ∧
  impression_rows store ≠ []

/-- Canonical PublisherRevenue shape: group columns within the rollup
key, select = the group columns then `SUM(bid_price)`, filters within
the recognized set. -/
def CanonicalPublisher (store : List Event) (q : Query) : Prop :=
  q.select = q.group_by.map SelectItem.col ++ [.agg "SUM" "bid_price"] ∧
  "publisher_id" ∈ q.group_by ∧
  q.group_by.Nodup ∧
  (∀ c ∈ q.group_by, c ∈ (["publisher_id", "day", "country"] : List String)) ∧
  typeEqImp ∈ q.where_ ∧
  (∀ w ∈ q.where_, pubRecognizedB w = true) ∧
  impression_rows store ≠ []

/-- Canonical CountryPurchases shape. -/
def CanonicalCountry (store : List Event) (q : Query) : Prop :=
  q.select = [.col "country", .agg "AVG" "total_price"] ∧
  q.where_ = [typeEqPurchase] ∧
  q.group_by = ["country"] ∧
  purchase_rows store ≠ []

/-- Canonical AdvertiserType shape. -/
def CanonicalAdvertiser (store : List Event) (q : Query) : Prop :=
  q.select = [.col "advertiser_id", .col "type", .agg "COUNT" "*"] ∧
  q.where_ = [] ∧
  q.group_by = ["advertiser_id", "type"] ∧
  all_type_rows store ≠ []

/-- Canonical MinuteRevenue shape. -/
def CanonicalMinute (store : List Event) (q : Query) : Prop :=
  q.select = [.col "minute", .agg "SUM" "bid_price"] ∧
  q.group_by = ["minute"] ∧
  typeEqImp ∈ q.where_ ∧
  (∀ w ∈ q.where_, minuteRecognizedB w = true) ∧
  impression_rows store ≠ []

/-- Ingest invariant: `day` is the date prefix of `minute` (both are
derived from the same `ts`; `minute` is `YYYY-MM-DD HH:MM`). -/
def WellFormedStore (store : List Event) : Prop :=
  ∀ e ∈ store, e.day = String.mk (e.minute.data.take 10)

/-- Result equality modulo row order. -/
def FrameEquiv (f1 f2 : Frame) : Prop :=
  f1.cols = f2.cols ∧ f1.rows.Perm f2.rows

/-! ### Basic lemmas on values and sorting -/

theorem charListLE_refl (l : List Char) : charListLE l l = true := by
  induction l with
  | nil => rfl
  | cons a l ih => simp [charListLE, ih]

theorem charListLE_total (l m : List Char) :
    charListLE l m = true ∨ charListLE m l = true := by
  induction l generalizing m with
  | nil => exact Or.inl rfl
  | cons a l ih =>
      cases m with
      | nil => exact Or.inr rfl
      | cons b m =>
          by_cases hab : a = b
          · subst hab
            simpa [charListLE] using ih m
          · rcases lt_or_gt_of_ne hab with h | h
            · exact Or.inl (by simp [charListLE, hab, h])
            · exact Or.inr (by simp [charListLE, Ne.symm hab, h])

theorem charListLE_trans : ∀ {l m n : List Char}, charListLE l m = true →
    charListLE m n = true → charListLE l n = true
  | [], _, _, _, _ => rfl
  | a :: l, [], n, h1, _ => by cases h1
  | a :: l, b :: m, [], _, h2 => by cases h2
  | a :: l, b :: m, c :: n, h1, h2 => by
      by_cases hab : a = b <;> by_cases hbc : b = c
      · subst hab; subst hbc
        simp only [charListLE, if_pos rfl] at h1 h2 ⊢
        exact charListLE_trans h1 h2
      · subst hab
        simp only [charListLE, if_pos rfl, if_neg hbc] at h1 h2 ⊢
        exact h2
      · subst hbc
        simp only [charListLE, if_pos rfl, if_neg hab] at h1 h2 ⊢
        exact h1
      · simp only [charListLE, if_neg hab, if_neg hbc, decide_eq_true_eq] at h1 h2
        have hac : a < c := lt_trans h1 h2
        simp [charListLE, ne_of_lt hac, hac]

theorem strLE_refl (s : String) : strLE s s = true := charListLE_refl s.data

theorem strLE_total (s t : String) : strLE s t = true ∨ strLE t s = true :=
  charListLE_total s.data t.data

theorem strLE_trans {s t u : String} (h1 : strLE s t = true)
    (h2 : strLE t u = true) : strLE s u = true :=
  charListLE_trans h1 h2

theorem valueLE_refl (a : Value) : valueLE a a = true := by
  cases a <;> simp [valueLE, strLE_refl]

theorem valueLE_total (a b : Value) : valueLE a b = true ∨ valueLE b a = true := by
  cases a <;> cases b <;> simp [valueLE, Value.rank] <;>
    first
      | omega
      | exact Int.le_total _ _
      | exact le_total _ _
      | exact strLE_total _ _

theorem valueLE_trans {a b c : Value} (h1 : valueLE a b = true)
    (h2 : valueLE b c = true) : valueLE a c = true := by
  cases a <;> cases b <;> cases c <;>
    simp_all [valueLE, Value.rank] <;>
    first
      | omega
      | exact le_trans h1 h2
      | exact strLE_trans h1 h2

theorem rowLE_refl (c : String) (d : Bool) (a : Row) : rowLE c d a a = true := by
  simp [rowLE, valueLE_refl]

/-- A stable sort does not move elements that tie on the sort key: the
subsequence satisfying any tie-compatible predicate is untouched. -/
theorem insertionSort_filter_eq {α : Type} (r : α → α → Prop) [DecidableRel r]
    (l : List α) (p : α → Bool)
    (hp : ∀ x ∈ l, ∀ y ∈ l, p x = true → p y = true → r x y) :
    (List.insertionSort r l).filter p = l.filter p := by
  have hsub : (l.filter p).Sublist (List.insertionSort r l) := by
    apply List.sublist_insertionSort
    · apply List.pairwise_of_forall_mem_list
      intro x hx y hy
      exact hp x (List.mem_of_mem_filter hx) y (List.mem_of_mem_filter hy)
        (List.of_mem_filter hx) (List.of_mem_filter hy)
    · exact List.filter_sublist l
  have hperm : ((List.insertionSort r l).filter p).Perm (l.filter p) :=
    (List.perm_insertionSort r l).filter p
  have h2 : (l.filter p).Sublist ((List.insertionSort r l).filter p) := by
    have h3 := hsub.filter p
    rwa [List.filter_filter, show (fun a => p a && p a) = p from funext (fun a => Bool.and_self _)] at h3
  exact (h2.eq_of_length hperm.length_eq.symm).symm

theorem sortByCol_rows_perm (df : Frame) (c : String) (d : Bool) :
    (sortByCol df c d).rows.Perm df.rows :=
  List.perm_insertionSort _ _

theorem sortByCol_cols (df : Frame) (c : String) (d : Bool) :
    (sortByCol df c d).cols = df.cols := rfl

theorem sortByCol_filter_key (df : Frame) (c : String) (d : Bool) (v : Value) :
    ((sortByCol df c d).rows.filter (fun r => getCol r c == v)) =
      df.rows.filter (fun r => getCol r c == v) := by
  apply insertionSort_filter_eq
  intro x _ y _ hx hy
  have hx' : getCol x c = v := by simpa using hx
  have hy' : getCol y c = v := by simpa using hy
  simp [rowLE, hx', hy', valueLE_refl]

theorem rowLE_total (c : String) (d : Bool) (a b : Row) :
    rowLE c d a b = true ∨ rowLE c d b a = true := by
  rcases valueLE_total (getCol a c) (getCol b c) with h | h <;>
    cases d <;> simp [rowLE, h]

theorem rowLE_trans (c : String) (d : Bool) {a b e : Row}
    (h1 : rowLE c d a b = true) (h2 : rowLE c d b e = true) :
    rowLE c d a e = true := by
  cases d
  · exact valueLE_trans h1 h2
  · exact valueLE_trans h2 h1

theorem sortByCol_sorted (df : Frame) (c : String) (d : Bool) :
    List.Sorted (fun a b => rowLE c d a b = true) (sortByCol df c d).rows := by
  haveI : IsTotal Row (fun a b => rowLE c d a b = true) :=
    ⟨fun a b => rowLE_total c d a b⟩
  haveI : IsTrans Row (fun a b => rowLE c d a b = true) :=
    ⟨fun a b e h1 h2 => rowLE_trans c d h1 h2⟩
  exact List.sorted_insertionSort _ _

/-- The engine's sort is one admissible outcome of the source's sort
call. -/
theorem sortByCol_contract (df : Frame) (c : String) (d : Bool) :
    sortContract df c d (sortByCol df c d) :=
  ⟨rfl, sortByCol_rows_perm df c d, sortByCol_sorted df c d⟩

theorem applyOrderKey_cols (df : Frame) (k : OrderKey) :
    (applyOrderKey df k).cols = df.cols := by
  unfold applyOrderKey
  split
  · rfl
  · split <;> rfl

theorem applyOrderKey_rows_perm (df : Frame) (k : OrderKey) :
    (applyOrderKey df k).rows.Perm df.rows := by
  unfold applyOrderKey
  split
  · exact sortByCol_rows_perm _ _ _
  · split
    · exact sortByCol_rows_perm _ _ _
    · exact List.Perm.refl _

theorem applyOrderBy_cols (df : Frame) (ks : List OrderKey) :
    (applyOrderBy df ks).cols = df.cols := by
  induction ks generalizing df with
  | nil => rfl
  | cons k ks ih =>
      calc (applyOrderBy df (k :: ks)).cols
          = (applyOrderBy (applyOrderKey df k) ks).cols := rfl
        _ = (applyOrderKey df k).cols := ih _
        _ = df.cols := applyOrderKey_cols df k

theorem applyOrderBy_rows_perm (df : Frame) (ks : List OrderKey) :
    (applyOrderBy df ks).rows.Perm df.rows := by
  induction ks generalizing df with
  | nil => exact List.Perm.refl _
  | cons k ks ih =>
      exact (ih (applyOrderKey df k)).trans (applyOrderKey_rows_perm df k)

/-! ### Lemmas on first-occurrence deduplication -/

theorem mem_dedupFirstAux {α : Type} [DecidableEq α] (seen l : List α) (x : α) :
    x ∈ dedupFirstAux seen l ↔ x ∈ l ∧ x ∉ seen := by
  induction l generalizing seen with
  | nil => simp [dedupFirstAux]
  | cons a l ih =>
      by_cases ha : a ∈ seen
      · simp only [dedupFirstAux, if_pos ha, ih, List.mem_cons]
        constructor
        · rintro ⟨h1, h2⟩; exact ⟨Or.inr h1, h2⟩
        · rintro ⟨h1 | h1, h2⟩
          · exact absurd ha (h1 ▸ h2)
          · exact ⟨h1, h2⟩
      · simp only [dedupFirstAux, if_neg ha, List.mem_cons, ih]
        constructor
        · rintro (rfl | ⟨h1, h2⟩)
          · exact ⟨Or.inl rfl, ha⟩
          · refine ⟨Or.inr h1, fun hx => h2 (Or.inr hx)⟩
        · rintro ⟨rfl | h1, h2⟩
          · exact Or.inl rfl
          · by_cases hxa : x = a
            · exact Or.inl hxa
            · exact Or.inr ⟨h1, by simp [hxa, h2]⟩

theorem mem_dedupFirst {α : Type} [DecidableEq α] (l : List α) (x : α) :
    x ∈ dedupFirst l ↔ x ∈ l := by
  simp [dedupFirst, mem_dedupFirstAux]

theorem nodup_dedupFirstAux {α : Type} [DecidableEq α] (seen l : List α) :
    (dedupFirstAux seen l).Nodup := by
  induction l generalizing seen with
  | nil => simp [dedupFirstAux]
  | cons a l ih =>
      by_cases ha : a ∈ seen
      · simpa [dedupFirstAux, if_pos ha] using ih seen
      · simp only [dedupFirstAux, if_neg ha, List.nodup_cons]
        refine ⟨fun hmem => ?_, ih _⟩
        exact ((mem_dedupFirstAux _ _ _).mp hmem).2 (List.mem_cons_self _ _)

theorem nodup_dedupFirst {α : Type} [DecidableEq α] (l : List α) :
    (dedupFirst l).Nodup := nodup_dedupFirstAux [] l

theorem dedupFirstAux_congr {α : Type} [DecidableEq α] {seen1 seen2 l : List α}
    (h : ∀ x ∈ l, x ∈ seen1 ↔ x ∈ seen2) :
    dedupFirstAux seen1 l = dedupFirstAux seen2 l := by
  induction l generalizing seen1 seen2 with
  | nil => rfl
  | cons a l ih =>
      have ha := h a (List.mem_cons_self _ _)
      by_cases h1 : a ∈ seen1
      · rw [dedupFirstAux, if_pos h1, dedupFirstAux, if_pos (ha.mp h1)]
        exact ih fun x hx => h x (List.mem_cons_of_mem _ hx)
      · rw [dedupFirstAux, if_neg h1, dedupFirstAux, if_neg (fun h2 => h1 (ha.mpr h2))]
        refine congrArg _ (ih fun x hx => ?_)
        simp only [List.mem_cons]
        exact or_congr Iff.rfl (h x (List.mem_cons_of_mem _ hx))

theorem dedupFirstAux_filter {α : Type} [DecidableEq α] (p : α → Bool)
    (seen l : List α) :
    (dedupFirstAux seen l).filter p = dedupFirstAux seen (l.filter p) := by
  induction l generalizing seen with
  | nil => rfl
  | cons a l ih =>
      by_cases ha : a ∈ seen
      · by_cases hp : p a
        · simp only [dedupFirstAux, if_pos ha, List.filter_cons, hp, if_pos ha, ih]
        · simp only [dedupFirstAux, if_pos ha, List.filter_cons, hp]
          simp only [Bool.false_eq_true, if_false, ih]
      · by_cases hp : p a
        · simp only [dedupFirstAux, if_neg ha, List.filter_cons, hp, List.filter_cons]
          simp only [if_true, List.filter, hp, dedupFirstAux, if_neg ha, ih]
        · simp only [dedupFirstAux, if_neg ha, List.filter_cons, hp]
          simp only [Bool.false_eq_true, if_false, List.filter, hp, ih]
          refine dedupFirstAux_congr fun x hx => ?_
          have hxa : x ≠ a := by
            rintro rfl
            exact absurd (List.of_mem_filter hx) (by simp [hp])
          simp [List.mem_cons, hxa]

theorem dedupFirst_filter {α : Type} [DecidableEq α] (p : α → Bool) (l : List α) :
    (dedupFirst l).filter p = dedupFirst (l.filter p) :=
  dedupFirstAux_filter p [] l

theorem dedupFirstAux_map {α β : Type} [DecidableEq α] [DecidableEq β]
    {f : α → β} (hf : Function.Injective f) (seen l : List α) :
    dedupFirstAux (seen.map f) (l.map f) = (dedupFirstAux seen l).map f := by
  induction l generalizing seen with
  | nil => rfl
  | cons a l ih =>
      have hmem : f a ∈ seen.map f ↔ a ∈ seen := by
        constructor
        · intro h
          obtain ⟨x, hx, hfx⟩ := List.mem_map.mp h
          exact (hf hfx) ▸ hx
        · intro h; exact List.mem_map_of_mem f h
      by_cases ha : a ∈ seen
      · simp only [List.map_cons, dedupFirstAux, if_pos (hmem.mpr ha), if_pos ha, ih]
      · simp only [List.map_cons, dedupFirstAux, if_pos, if_neg ha,
          if_neg (fun h => ha (hmem.mp h))]
        rw [show (f a :: seen.map f) = (a :: seen).map f from rfl, ih]

theorem dedupFirst_map {α β : Type} [DecidableEq α] [DecidableEq β]
    {f : α → β} (hf : Function.Injective f) (l : List α) :
    dedupFirst (l.map f) = (dedupFirst l).map f :=
  dedupFirstAux_map hf [] l

theorem dedupFirstAux_map_dedupFirstAux {α β : Type} [DecidableEq α] [DecidableEq β]
    (C : α → β) (seenK : List α) (seenC : List β) (l : List α)
    (h : ∀ k ∈ seenK, C k ∈ seenC) :
    dedupFirstAux seenC ((dedupFirstAux seenK l).map C) =
      dedupFirstAux seenC (l.map C) := by
  induction l generalizing seenK seenC with
  | nil => rfl
  | cons a l ih =>
      by_cases ha : a ∈ seenK
      · rw [dedupFirstAux, if_pos ha, List.map_cons, dedupFirstAux,
          if_pos (h a ha), ih _ _ h]
      · rw [dedupFirstAux, if_neg ha, List.map_cons, List.map_cons]
        by_cases hc : C a ∈ seenC
        · rw [dedupFirstAux, if_pos hc, dedupFirstAux, if_pos hc]
          refine ih _ _ fun k hk => ?_
          rcases List.mem_cons.mp hk with rfl | hk
          · exact hc
          · exact h k hk
        · rw [dedupFirstAux, if_neg hc, dedupFirstAux, if_neg hc]
          refine congrArg _ (ih _ _ fun k hk => ?_)
          rcases List.mem_cons.mp hk with rfl | hk
          · exact List.mem_cons_self _ _
          · exact List.mem_cons_of_mem _ (h k hk)

theorem dedupFirst_map_dedupFirst {α β : Type} [DecidableEq α] [DecidableEq β]
    (C : α → β) (l : List α) :
    dedupFirst ((dedupFirst l).map C) = dedupFirst (l.map C) :=
  dedupFirstAux_map_dedupFirstAux C [] [] l (by simp)

/-! ### Reading projected rows and event rows -/

theorem getCol_projectRow (cs : List String) (r : Row) (c : String) (h : c ∈ cs) :
    getCol (projectRow cs r) c = getCol r c := by
  induction cs with
  | nil => cases h
  | cons c0 cs ih =>
      rcases List.mem_cons.mp h with rfl | h
      · simp [projectRow, getCol, List.lookup]
      · by_cases hc : c0 = c
        · subst hc; simp [projectRow, getCol, List.lookup]
        · have hbeq : (c == c0) = false := by simp [Ne.symm hc]
          simp only [projectRow, List.map_cons, getCol, List.lookup, hbeq]
          exact ih h

theorem getCol_event_type (e : Event) : getCol e.row "type" = .str e.type := rfl

theorem getCol_event_day (e : Event) : getCol e.row "day" = .date e.day := rfl

theorem getCol_event_country (e : Event) : getCol e.row "country" = .str e.country := rfl

theorem getCol_event_minute (e : Event) : getCol e.row "minute" = .str e.minute := rfl

theorem getCol_event_publisher (e : Event) :
    getCol e.row "publisher_id" = .int e.publisher_id := rfl

theorem getCol_event_advertiser (e : Event) :
    getCol e.row "advertiser_id" = .int e.advertiser_id := rfl

theorem getCol_event_bid (e : Event) : getCol e.row "bid_price" = optVal e.bid_price := rfl

theorem getCol_event_total (e : Event) :
    getCol e.row "total_price" = optVal e.total_price := rfl

/-! ### Claim C5: partition pruning -/

/-- Step form of `_determine_partitions`. -/
theorem determinePartitions_append (ws : List WherePred) (w : WherePred) :
    determinePartitions (ws ++ [w]) =
      (if w.col == "type" && w.op == "eq" then ([w.val], (determinePartitions ws).2)
       else if w.col == "type" && w.op == "in" then
         (w.val.asTypeList, (determinePartitions ws).2)
       else if w.col == "day" && w.op == "eq" then
         ((determinePartitions ws).1, some [w.val])
       else determinePartitions ws) := by
  simp only [determinePartitions, List.foldl_append, List.foldl_cons, List.foldl_nil]

/-- C5.  The scan planner's partition pruning computes exactly the
claimed function of the `where` list: starting from all four types and
an unrestricted day axis, a later `type eq v` filter restricts the type
axis to `[v]`, `type in L` restricts it to `L`, `day eq d` restricts the
day axis to `[d]`, and any other predicate form (`day between`
included) leaves both axes as they were. -/
theorem partition_pruning_exact (ws : List WherePred) (p : WherePred)
    (v : PredVal) (L : List Value) :
    determinePartitions [] =
      ([.s (.str "serve"), .s (.str "impression"), .s (.str "click"), .s (.str "purchase")],
       none) ∧
    determinePartitions (ws ++ [⟨"type", "eq", v⟩]) = ([v], (determinePartitions ws).2) ∧
    determinePartitions (ws ++ [⟨"type", "in", .list L⟩]) =
      (L.map .s, (determinePartitions ws).2) ∧
    determinePartitions (ws ++ [⟨"day", "eq", v⟩]) =
      ((determinePartitions ws).1, some [v]) ∧
    (¬(p.col = "type" ∧ p.op = "eq") → ¬(p.col = "type" ∧ p.op = "in") →
     ¬(p.col = "day" ∧ p.op = "eq") →
      determinePartitions (ws ++ [p]) = determinePartitions ws) := by
  refine ⟨rfl, ?_, ?_, ?_, ?_⟩
  · rw [determinePartitions_append]; rfl
  · rw [determinePartitions_append]; rfl
  · rw [determinePartitions_append]; rfl
  · obtain ⟨c, o, val⟩ := p
    intro h1 h2 h3
    rw [determinePartitions_append]
    have b1 : (c == "type" && o == "eq") = false := by
      simp only [Bool.and_eq_false_iff, beq_eq_false_iff_ne, ne_eq]
      by_cases hc : c = "type"
      · exact Or.inr fun ho => h1 ⟨hc, ho⟩
      · exact Or.inl hc
    have b2 : (c == "type" && o == "in") = false := by
      simp only [Bool.and_eq_false_iff, beq_eq_false_iff_ne, ne_eq]
      by_cases hc : c = "type"
      · exact Or.inr fun ho => h2 ⟨hc, ho⟩
      · exact Or.inl hc
    have b3 : (c == "day" && o == "eq") = false := by
      simp only [Bool.and_eq_false_iff, beq_eq_false_iff_ne, ne_eq]
      by_cases hc : c = "day"
      · exact Or.inr fun ho => h3 ⟨hc, ho⟩
      · exact Or.inl hc
    simp [b1, b2, b3]

/-- Witness for C5 at a concrete `where` list (a `day between` filter
after a `type eq` filter: both axes stay as they were). -/
theorem partition_pruning_exact_witness :
    determinePartitions
        ([⟨"type", "eq", .s (.str "impression")⟩] ++
          [⟨"day", "between", .list [.str "2024-01-01", .str "2024-01-02"]⟩]) =
      determinePartitions [⟨"type", "eq", .s (.str "impression")⟩] :=
  (partition_pruning_exact [⟨"type", "eq", .s (.str "impression")⟩]
    ⟨"day", "between", .list [.str "2024-01-01", .str "2024-01-02"]⟩
    (.s .null) []).2.2.2.2 (by decide) (by decide) (by decide)

/-! ### Claim C6: the DailyRevenue shape -/

/-- Helper: `route` answers daily exactly when the first matcher fires. -/
theorem route_daily_iff_matches (q : Query) :
    route q = some Shape.daily ↔
      matches_daily_revenue q.select q.where_ q.group_by = true := by
  unfold route matched_shape
  split_ifs <;> simp_all

/-- Helper for C6: the select conditions of the daily matcher pin the
select list down to one of the two orders. -/
theorem daily_select_pair (sel : List SelectItem)
    (hday : sel.contains (SelectItem.col "day") = true)
    (hsum : sel.any (fun i => i == SelectItem.agg "SUM" "bid_price") = true)
    (hlen : sel.length = 2) :
    sel = [SelectItem.col "day", SelectItem.agg "SUM" "bid_price"] ∨
      sel = [SelectItem.agg "SUM" "bid_price", SelectItem.col "day"] := by
  obtain ⟨a, b, rfl⟩ := List.length_eq_two.mp hlen
  simp only [List.contains_cons, List.contains_nil, Bool.or_eq_true, Bool.or_false,
    beq_iff_eq] at hday
  simp only [List.any_cons, List.any_nil, Bool.or_eq_true, Bool.or_false,
    beq_iff_eq] at hsum
  rcases hday with h1 | h1 <;> rcases hsum with h2 | h2 <;> simp_all

/-- C6.  A query is routed to the `daily_revenue` rollup iff its
`group_by` is `[day]`, its `select` consists exactly of the bare column
`day` and the aggregate `SUM(bid_price)` (in either order), and its
`where` list is the single filter `type eq impression`. -/
theorem daily_revenue_routing_iff (q : Query) :
    route q = some Shape.daily ↔
      (q.group_by = ["day"] ∧
       (q.select = [SelectItem.col "day", SelectItem.agg "SUM" "bid_price"] ∨
        q.select = [SelectItem.agg "SUM" "bid_price", SelectItem.col "day"]) ∧
       q.where_ = [⟨"type", "eq", PredVal.s (Value.str "impression")⟩]) := by
  rw [route_daily_iff_matches]
  unfold matches_daily_revenue typeEqFilter
  constructor
  · intro h
    simp only [Bool.and_eq_true, beq_iff_eq] at h
    obtain ⟨⟨hg, ⟨hday, hsum⟩, hlen⟩, htf, hwlen⟩ := h
    refine ⟨hg, daily_select_pair q.select hday hsum (by simpa using hlen), ?_⟩
    obtain ⟨w, hw⟩ := List.length_eq_one.mp (by simpa using hwlen)
    rw [hw] at htf ⊢
    simp only [List.any_cons, List.any_nil, Bool.or_false, Bool.and_eq_true,
      beq_iff_eq] at htf
    obtain ⟨c, o, v⟩ := w
    simp_all
  · rintro ⟨hg, hsel | hsel, hw⟩ <;> simp [hg, hsel, hw]

/-- Witness for C6: the S1 query from the spec is routed to the daily
rollup. -/
theorem daily_revenue_routing_iff_witness :
    route ⟨[SelectItem.col "day", SelectItem.agg "SUM" "bid_price"],
           [⟨"type", "eq", PredVal.s (Value.str "impression")⟩], ["day"], []⟩ =
      some Shape.daily :=
  (daily_revenue_routing_iff _).mpr ⟨rfl, Or.inl rfl, rfl⟩

/-! ### Claim C9: default worker counts -/

/-- C9 counterexample.  On a 2-core machine the memory-conservative
variant defaults to `min(6, max(1, int(2 * 0.75))) = 1` worker, while
the claimed formula `min(6, ceil(0.75 * 2))` gives `2`. -/
theorem worker_default_counterexample :
    optimized_num_workers 2 = 1 ∧
    min 6 (Int.toNat ⌈(0.75 : ℚ) * (2 : ℕ)⌉) = 2 ∧ (1 : ℕ) ≠ 2 := by
  refine ⟨?_, ?_, by decide⟩
  · show min 6 (max 1 (Nat.floor ((0.75 : ℚ) * (2 : ℕ)))) = 1
    have h1 : ((0.75 : ℚ) * (2 : ℕ)) = ((3 : ℕ) : ℚ) / ((2 : ℕ) : ℚ) := by norm_num
    rw [h1, Nat.floor_div_nat, Nat.floor_natCast]
    decide
  · have h1 : ((0.75 : ℚ) * (2 : ℕ)) = (3 / 2 : ℚ) := by norm_num
    rw [h1, show ⌈(3 / 2 : ℚ)⌉ = 2 by rw [Int.ceil_eq_iff]; norm_num]
    decide

/-- C9 amended.  With no worker count supplied, the memory-conservative
prepare variant defaults to `min(6, max(1, floor(0.75 * C)))` workers
(not `ceil`), and the speed variant to `min(10, C)` workers, for every
core count `C >= 1`. -/
theorem worker_defaults (C : ℕ) (hC : 1 ≤ C) :
    optimized_num_workers C = min 6 (max 1 (3 * C / 4)) ∧
    ultra_fast_num_workers C = min 10 C := by
  constructor
  · unfold optimized_num_workers
    congr 2
    have h1 : (0.75 : ℚ) * C = ((3 * C : ℕ) : ℚ) / ((4 : ℕ) : ℚ) := by
      push_cast; ring
    rw [h1, Nat.floor_div_nat, Nat.floor_natCast]
  · unfold ultra_fast_num_workers
    rw [max_eq_right hC]

/-- Witness for C9 at `C = 5`: 3 workers and 5 workers. -/
theorem worker_defaults_witness :
    optimized_num_workers 5 = min 6 (max 1 (3 * 5 / 4)) ∧
    ultra_fast_num_workers 5 = min 10 5 :=
  worker_defaults 5 (by decide)

/-! ### Claim C10: unknown filter columns and ops are ignored -/

theorem applyFilterOne_skip (df : Frame) (p : WherePred)
    (h : p.col ∉ df.cols ∨ p.op ∉ (["eq", "neq", "in", "between"] : List String)) :
    applyFilterOne df p = .ok df := by
  rcases h with h | h
  · unfold applyFilterOne
    rw [if_pos h]
  · simp only [List.mem_cons, List.not_mem_nil, or_false, not_or] at h
    obtain ⟨h1, h2, h3, h4⟩ := h
    unfold applyFilterOne
    by_cases hc : p.col ∉ df.cols
    · rw [if_pos hc]
    · rw [if_neg hc]
      simp only [beq_iff_eq, h1, h2, h3, h4, if_false]

theorem applyFilterOne_cols {df df' : Frame} {w : WherePred}
    (h : applyFilterOne df w = .ok df') : df'.cols = df.cols := by
  unfold applyFilterOne at h
  split_ifs at h <;> (try split at h) <;>
    first
      | (injection h with h; subst h; rfl)
      | simp at h

/-- C10.  A `where` predicate whose column is not present in the frame,
or whose op is not one of `eq`, `neq`, `in`, `between`, is silently
dropped by `_apply_filters`: removing it from any position of the
`where` list leaves the outcome (rows and errors alike) unchanged. -/
theorem scan_filter_unknown_ignored (w1 : List WherePred) (df : Frame)
    (p : WherePred) (w2 : List WherePred)
    (h : p.col ∉ df.cols ∨ p.op ∉ (["eq", "neq", "in", "between"] : List String)) :
    applyFilters df (w1 ++ p :: w2) = applyFilters df (w1 ++ w2) := by
  induction w1 generalizing df with
  | nil =>
      show applyFilters df (p :: w2) = applyFilters df w2
      rw [applyFilters, applyFilterOne_skip df p h]
  | cons w w1 ih =>
      show applyFilters df (w :: (w1 ++ p :: w2)) = applyFilters df (w :: (w1 ++ w2))
      rw [applyFilters, applyFilters]
      cases happ : applyFilterOne df w with
      | error e => rfl
      | ok df' =>
          exact ih df' (by rw [applyFilterOne_cols happ]; exact h)

/-- Witness for C10: a `like` op and a filter on a missing column leave
a concrete frame untouched. -/
theorem scan_filter_unknown_ignored_witness :
    applyFilters ⟨["country"], [[("country", Value.str "US")]]⟩
        ([] ++ ⟨"country", "like", PredVal.s (Value.str "U%")⟩ :: []) =
      applyFilters ⟨["country"], [[("country", Value.str "US")]]⟩ ([] ++ []) :=
  scan_filter_unknown_ignored [] ⟨["country"], [[("country", Value.str "US")]]⟩
    ⟨"country", "like", PredVal.s (Value.str "U%")⟩ [] (by decide)

/-! ### Claim C2: what the PublisherRevenue matcher actually checks -/

/-- C2 counterexample.  This query carries the filter
`publisher_id eq 7`, which is outside the recognized set
`type eq impression / country eq / day eq / day between`, yet the
planner still routes it to the publisher rollup instead of forcing a
partition scan. -/
theorem publisher_unrecognized_filter_counterexample :
    route ⟨[SelectItem.col "publisher_id", SelectItem.agg "SUM" "bid_price"],
           [⟨"type", "eq", PredVal.s (Value.str "impression")⟩,
            ⟨"publisher_id", "eq", PredVal.s (Value.int 7)⟩],
           ["publisher_id"], []⟩ = some Shape.publisher := by
  decide

/-- C2 amended.  The publisher matcher checks only that `group_by`
contains `publisher_id`, that `select` contains the bare column
`publisher_id` and the aggregate `SUM(bid_price)`, and that some filter
is `type eq impression`; a query of this form is routed to the publisher
rollup no matter what other filters it carries (they do not force a
scan; the rollup path later applies the `country eq` / `day eq` /
`day between` ones and silently drops the rest). -/
theorem publisher_routing_iff (q : Query) :
    route q = some Shape.publisher ↔
      ("publisher_id" ∈ q.group_by ∧
       SelectItem.col "publisher_id" ∈ q.select ∧
       SelectItem.agg "SUM" "bid_price" ∈ q.select ∧
       (∃ w ∈ q.where_, w = ⟨"type", "eq", PredVal.s (Value.str "impression")⟩)) := by
  have hdaily : ("publisher_id" ∈ q.group_by) → matches_daily_revenue q.select q.where_ q.group_by = false := by
    intro hg
    unfold matches_daily_revenue
    have : q.group_by ≠ ["day"] := by
      rintro h
      rw [h] at hg
      simp at hg
    simp [this]
  have hpub : matches_publisher_day_revenue q.select q.where_ q.group_by = true ↔
      ("publisher_id" ∈ q.group_by ∧
       SelectItem.col "publisher_id" ∈ q.select ∧
       SelectItem.agg "SUM" "bid_price" ∈ q.select ∧
       (∃ w ∈ q.where_, w = ⟨"type", "eq", PredVal.s (Value.str "impression")⟩)) := by
    unfold matches_publisher_day_revenue typeEqFilter
    simp only [Bool.and_eq_true, List.contains_iff_exists_mem_beq, List.any_eq_true,
      beq_iff_eq]
    constructor
    · rintro ⟨⟨⟨⟨g1, g2, g3⟩, ⟨s1, s2, s3⟩⟩, ⟨i1, i2, i3⟩⟩, ⟨w, hw, hwf⟩⟩
      refine ⟨g3 ▸ g2, s3 ▸ s2, i3 ▸ i2, w, hw, ?_⟩
      obtain ⟨c, o, v⟩ := w
      simp only [Bool.and_eq_true, beq_iff_eq] at hwf
      obtain ⟨⟨hc, ho⟩, hv⟩ := hwf
      simp_all
    · rintro ⟨hg, hs, ha, w, hw, rfl⟩
      exact ⟨⟨⟨⟨_, hg, rfl⟩, ⟨_, hs, rfl⟩⟩, ⟨_, ha, rfl⟩⟩,
        ⟨⟨"type", "eq", PredVal.s (Value.str "impression")⟩, hw, by simp⟩⟩
  constructor
  · intro h
    unfold route matched_shape at h
    split_ifs at h with h1 h2 <;> simp_all
  · intro hc
    unfold route matched_shape
    rw [hdaily hc.1]
    simp only [Bool.false_eq_true, if_false]
    rw [hpub.mpr hc]
    simp

/-- Witness for C2 amended: a publisher query with a recognized country
filter is routed to the publisher rollup. -/
theorem publisher_routing_iff_witness :
    route ⟨[SelectItem.col "publisher_id", SelectItem.agg "SUM" "bid_price"],
           [⟨"type", "eq", PredVal.s (Value.str "impression")⟩,
            ⟨"country", "eq", PredVal.s (Value.str "US")⟩],
           ["publisher_id"], []⟩ = some Shape.publisher :=
  (publisher_routing_iff _).mpr
    ⟨by decide, by decide, by decide,
     ⟨⟨"type", "eq", PredVal.s (Value.str "impression")⟩, by decide, rfl⟩⟩

/-! ### Claim C8: a scan over absent type directories -/

/-- C8.  With no matching type directory on disk, `_load_partitions`
returns `pl.DataFrame()` — an empty frame with no columns, despite the
source comment promising a "proper schema" — and the subsequent
`select` of the query's output columns raises `ColumnNotFoundError`
instead of returning an empty result.  Here: an empty store, and a
well-formed scan query (`select country where type eq serve`). -/
theorem missing_partitions_select_raises :
    executeQueryResult []
        ⟨[SelectItem.col "country"], [⟨"type", "eq", PredVal.s (Value.str "serve")⟩],
         [], []⟩ =
      .error "select: column not found or duplicated" := by
  rfl

/-! ### Claim C4: cache transparency -/

theorem getD_append_add (l m : List Frame) (k : ℕ) (d : Frame) :
    (l ++ m).getD (l.length + k) d = m.getD k d := by
  rw [List.getD_append_right _ _ _ _ (by omega)]
  congr 1
  omega

theorem heapGet_heapSet_ne (s : EngineState) (i j : Nat) (g : Frame) (h : i ≠ j) :
    heapGet (heapSet s i g) j = heapGet s j := by
  unfold heapGet heapSet
  simp [List.getD, List.getElem?_set_ne h]

/-- C4.  With the result cache enabled and the engine able to answer the
query, calling `execute_query` twice with the same query document
returns equal tables that live in distinct heap cells, both distinct
from the cached cell: mutating the first result does not change the
second, and mutating either returned result does not change the cached
copy.  (`hwf`: every cache entry points into the heap.) -/
theorem cache_transparency (store : List Event) (q : Query) (f : Frame)
    (s : EngineState) (hen : s.enableQueryCache = true)
    (hwf : ∀ p ∈ s.cache, p.2 < s.heap.length)
    (hans : executeQueryResult store q = .ok f) :
    ∃ r1 s1 r2 s2 c,
      execute_query store q s = .ok (r1, s1) ∧
      execute_query store q s1 = .ok (r2, s2) ∧
      r1 ≠ r2 ∧
      heapGet s2 r1 = heapGet s2 r2 ∧
      s2.cache.lookup q = some c ∧ c ≠ r1 ∧ c ≠ r2 ∧
      (∀ g, heapGet (heapSet s2 r1 g) r2 = heapGet s2 r2) ∧
      (∀ g, heapGet (heapSet s2 r1 g) c = heapGet s2 c) ∧
      (∀ g, heapGet (heapSet s2 r2 g) c = heapGet s2 c) := by
  obtain ⟨heap, cache, en⟩ := s
  simp only at hen
  subst hen
  cases hcl : cache.lookup q with
  | some i =>
      -- pre-existing hit: both calls clone the cached object
      have hi : i < heap.length := by
        obtain ⟨l₁, l₂, hsplit, -⟩ := List.lookup_eq_some_iff.mp hcl
        exact hwf (q, i) (by rw [hsplit]; simp)
      have h1 : execute_query store q ⟨heap, cache, true⟩ =
          .ok (heap.length,
            ⟨heap ++ [heap.getD i ⟨[], []⟩], cache, true⟩) := by
        simp [execute_query, hcl, heapAlloc, heapGet]
      have hveq : (heap ++ [heap.getD i ⟨[], []⟩]).getD i ⟨[], []⟩ =
          heap.getD i ⟨[], []⟩ := List.getD_append _ _ _ _ hi
      have h2 : execute_query store q ⟨heap ++ [heap.getD i ⟨[], []⟩], cache, true⟩ =
          .ok (heap.length + 1,
            ⟨(heap ++ [heap.getD i ⟨[], []⟩]) ++ [heap.getD i ⟨[], []⟩],
             cache, true⟩) := by
        simp only [execute_query, if_pos rfl, hcl, heapAlloc, heapGet, hveq]
        simp
      refine ⟨heap.length, _, heap.length + 1, _, i, h1, h2, by omega, ?_,
        hcl, by omega, by omega, ?_, ?_, ?_⟩
      · show ((heap ++ [heap.getD i ⟨[], []⟩]) ++ [heap.getD i ⟨[], []⟩]).getD
            heap.length ⟨[], []⟩ =
          ((heap ++ [heap.getD i ⟨[], []⟩]) ++ [heap.getD i ⟨[], []⟩]).getD
            (heap.length + 1) ⟨[], []⟩
        rw [List.append_assoc,
          show heap.length + 1 = heap.length + 1 from rfl,
          getD_append_add heap _ 1, show heap.length = heap.length + 0 by omega,
          getD_append_add heap _ 0]
        rfl
      · intro g
        exact heapGet_heapSet_ne _ _ _ g (by omega)
      · intro g
        exact heapGet_heapSet_ne _ _ _ g (by omega)
      · intro g
        exact heapGet_heapSet_ne _ _ _ g (by omega)
  | none =>
      -- miss then hit: compute, cache a clone, clone again on the hit
      have h1 : execute_query store q ⟨heap, cache, true⟩ =
          .ok (heap.length,
            ⟨heap ++ [f] ++ [f], (q, heap.length + 1) :: cache, true⟩) := by
        simp [execute_query, hcl, hans, heapAlloc]
        rfl
      have hlk : ((q, heap.length + 1) :: cache).lookup q = some (heap.length + 1) := by
        simp [List.lookup]
      have hmid : (heap ++ [f] ++ [f]).getD (heap.length + 1) ⟨[], []⟩ = f := by
        rw [List.append_assoc, getD_append_add heap _ 1]
        rfl
      have h2 : execute_query store q
          ⟨heap ++ [f] ++ [f], (q, heap.length + 1) :: cache, true⟩ =
          .ok (heap.length + 2,
            ⟨heap ++ [f] ++ [f] ++ [f], (q, heap.length + 1) :: cache, true⟩) := by
        simp only [execute_query, if_pos rfl, hlk, heapAlloc, heapGet, hmid]
        simp
      refine ⟨heap.length, _, heap.length + 2, _, heap.length + 1,
        h1, h2, by omega, ?_, hlk, by omega, by omega, ?_, ?_, ?_⟩
      · show (heap ++ [f] ++ [f] ++ [f]).getD heap.length ⟨[], []⟩ =
          (heap ++ [f] ++ [f] ++ [f]).getD (heap.length + 2) ⟨[], []⟩
        rw [List.append_assoc, List.append_assoc,
          show heap.length = heap.length + 0 by omega, getD_append_add heap _ 0]
        rw [show heap.length + 0 + 2 = heap.length + 2 by omega,
          getD_append_add heap _ 2]
        rfl
      · intro g
        exact heapGet_heapSet_ne _ _ _ g (by omega)
      · intro g
        exact heapGet_heapSet_ne _ _ _ g (by omega)
      · intro g
        exact heapGet_heapSet_ne _ _ _ g (by omega)

/-- Witness for C4 at a one-event store, an empty-clause query (a scan
that returns the full partition), and a fresh engine state. -/
theorem cache_transparency_witness :
    ∃ r1 s1 r2 s2 c,
      execute_query
          [⟨1704067200000, "impression", "a1", 1, 10, some 1, 100, none, "US",
            "2024-01-01", "2024-01-01", "2024-01-01 00:00:00", "2024-01-01 00:00"⟩]
          ⟨[], [], [], []⟩ ⟨[], [], true⟩ = .ok (r1, s1) ∧
      execute_query
          [⟨1704067200000, "impression", "a1", 1, 10, some 1, 100, none, "US",
            "2024-01-01", "2024-01-01", "2024-01-01 00:00:00", "2024-01-01 00:00"⟩]
          ⟨[], [], [], []⟩ s1 = .ok (r2, s2) ∧
      r1 ≠ r2 ∧
      heapGet s2 r1 = heapGet s2 r2 ∧
      s2.cache.lookup ⟨[], [], [], []⟩ = some c ∧ c ≠ r1 ∧ c ≠ r2 ∧
      (∀ g, heapGet (heapSet s2 r1 g) r2 = heapGet s2 r2) ∧
      (∀ g, heapGet (heapSet s2 r1 g) c = heapGet s2 c) ∧
      (∀ g, heapGet (heapSet s2 r2 g) c = heapGet s2 c) :=
  cache_transparency _ _
    ⟨eventCols,
     [(Event.row ⟨1704067200000, "impression", "a1", 1, 10, some 1, 100, none, "US",
        "2024-01-01", "2024-01-01", "2024-01-01 00:00:00", "2024-01-01 00:00"⟩)]⟩
    ⟨[], [], true⟩ rfl (by simp) (by rfl)

/-! ### Claim C7: order_by semantics -/

/-- C7 counterexample.  `_apply_order_by` calls `df.sort` with polars'
default `maintain_order=False`, which leaves the relative order of rows
tying on the sort key unspecified: on a frame whose two rows are equal
on the key `k` but differ on `id`, the input order and the swapped
order both satisfy the sort call's contract, so "each sort is stable"
is not a property the program guarantees. -/
theorem order_by_stability_counterexample :
    sortContract ⟨["k", "id"], [[("k", Value.int 0), ("id", Value.int 1)],
        [("k", Value.int 0), ("id", Value.int 2)]]⟩ "k" false
      ⟨["k", "id"], [[("k", Value.int 0), ("id", Value.int 1)],
        [("k", Value.int 0), ("id", Value.int 2)]]⟩ ∧
    sortContract ⟨["k", "id"], [[("k", Value.int 0), ("id", Value.int 1)],
        [("k", Value.int 0), ("id", Value.int 2)]]⟩ "k" false
      ⟨["k", "id"], [[("k", Value.int 0), ("id", Value.int 2)],
        [("k", Value.int 0), ("id", Value.int 1)]]⟩ ∧
    (⟨["k", "id"], [[("k", Value.int 0), ("id", Value.int 2)],
        [("k", Value.int 0), ("id", Value.int 1)]]⟩ : Frame).rows ≠
      (⟨["k", "id"], [[("k", Value.int 0), ("id", Value.int 1)],
        [("k", Value.int 0), ("id", Value.int 2)]]⟩ : Frame).rows :=
  ⟨by unfold sortContract; decide, by unfold sortContract; decide, by decide⟩

/-- C7 (amended).  `_apply_order_by` (a) applies the sort keys one
after another in list order, (b) a key with no `dir` sorts ascending,
(c) each single sort meets the sort call's contract — the rows are
reordered into some key-sorted permutation, with the order of rows
tying on the key unspecified (`maintain_order` is left at its default
`False`, so no stability is promised) — and (d) a key naming no column
verbatim falls back to the first column that matches it
case-insensitively (so aggregate output names can be named in any
casing). -/
theorem order_by_key_semantics (df : Frame) (k k1 k2 : OrderKey)
    (ks : List OrderKey) (c c2 : String) :
    (applyOrderBy df (k :: ks) = applyOrderBy (applyOrderKey df k) ks) ∧
    (applyOrderKey df ⟨c, none⟩ = applyOrderKey df ⟨c, some "asc"⟩) ∧
    (k1.col ∈ df.cols →
      sortContract df k1.col (strLower (k1.dir.getD "asc") == "desc")
        (applyOrderKey df k1)) ∧
    (k2.col ∉ df.cols →
      df.cols.find? (fun x => strLower x == strLower k2.col) = some c2 →
      applyOrderKey df k2 = applyOrderKey df ⟨c2, k2.dir⟩) := by
  refine ⟨rfl, rfl, ?_, ?_⟩
  · intro hmem
    unfold applyOrderKey
    rw [if_pos hmem]
    exact sortByCol_contract df k1.col _
  · intro hnot hfind
    have hc2 : c2 ∈ df.cols := List.mem_of_find?_eq_some hfind
    unfold applyOrderKey
    rw [if_neg hnot, hfind, if_pos hc2]

/-- Witness for C7: a two-row frame sorted by `day`; the applied sort
meets the contract, and the key `DAY` matches the column `day`
case-insensitively. -/
theorem order_by_key_semantics_witness :
    (applyOrderBy ⟨["day"], [[("day", Value.date "2024-01-02")],
        [("day", Value.date "2024-01-01")]]⟩ (⟨"day", some "asc"⟩ :: []) =
      applyOrderBy (applyOrderKey ⟨["day"], [[("day", Value.date "2024-01-02")],
        [("day", Value.date "2024-01-01")]]⟩ ⟨"day", some "asc"⟩) []) ∧
    (applyOrderKey ⟨["day"], [[("day", Value.date "2024-01-02")],
        [("day", Value.date "2024-01-01")]]⟩ ⟨"day", none⟩ =
      applyOrderKey ⟨["day"], [[("day", Value.date "2024-01-02")],
        [("day", Value.date "2024-01-01")]]⟩ ⟨"day", some "asc"⟩) ∧
    sortContract ⟨["day"], [[("day", Value.date "2024-01-02")],
        [("day", Value.date "2024-01-01")]]⟩ "day" false
      (applyOrderKey ⟨["day"], [[("day", Value.date "2024-01-02")],
        [("day", Value.date "2024-01-01")]]⟩ ⟨"day", some "asc"⟩) ∧
    (applyOrderKey ⟨["day"], [[("day", Value.date "2024-01-02")],
        [("day", Value.date "2024-01-01")]]⟩ ⟨"DAY", some "desc"⟩ =
      applyOrderKey ⟨["day"], [[("day", Value.date "2024-01-02")],
        [("day", Value.date "2024-01-01")]]⟩ ⟨"day", some "desc"⟩) := by
  refine ⟨(order_by_key_semantics _ ⟨"day", some "asc"⟩ ⟨"day", some "asc"⟩
      ⟨"DAY", some "desc"⟩ [] "day" "day").1,
    (order_by_key_semantics _ ⟨"day", some "asc"⟩ ⟨"day", some "asc"⟩
      ⟨"DAY", some "desc"⟩ [] "day" "day").2.1,
    (order_by_key_semantics _ ⟨"day", some "asc"⟩ ⟨"day", some "asc"⟩
      ⟨"DAY", some "desc"⟩ [] "day" "day").2.2.1
      (by decide),
    (order_by_key_semantics _ ⟨"day", some "asc"⟩ ⟨"day", some "asc"⟩
      ⟨"DAY", some "desc"⟩ [] "day" "day").2.2.2
      (by decide) (by decide)⟩

/-! ### Claim C3: order_by on rollup hits -/

theorem exceptBind_ok {α β : Type} (a : α) (f : α → Except String β) :
    (Except.ok a >>= f) = f a := rfl

theorem exceptBind_error {α β : Type} (e : String) (f : α → Except String β) :
    ((Except.error e : Except String α) >>= f) = .error e := rfl

theorem exceptMap_ok {α β : Type} (a : α) (f : α → β) :
    (Except.ok a : Except String α).map f = .ok (f a) := rfl

theorem exceptMap_error {α β : Type} (e : String) (f : α → β) :
    (Except.error e : Except String α).map f = .error e := rfl

/-- C3 counterexample.  A DailyRevenue-shaped query with
`order_by [day desc]` over a two-day store: the rollup-routed answer
comes back ascending by day (the rollup's storage order) — the planner
never applied `order_by`, and sorting the returned frame as requested
would have produced the other row order. -/
theorem rollup_order_by_counterexample :
    executeQueryResult
        [⟨1704067200000, "impression", "a1", 1, 10, some 1, 100, none, "US",
          "2024-01-01", "2024-01-01", "2024-01-01 00:00:00", "2024-01-01 00:00"⟩,
         ⟨1704153600000, "impression", "a2", 2, 11, some 2, 101, none, "DE",
          "2024-01-02", "2024-01-01", "2024-01-02 00:00:00", "2024-01-02 00:00"⟩]
        ⟨[SelectItem.col "day", SelectItem.agg "SUM" "bid_price"],
         [⟨"type", "eq", PredVal.s (Value.str "impression")⟩], ["day"],
         [⟨"day", some "desc"⟩]⟩ =
      .ok ⟨["day", "sum(bid_price)"],
           [[("day", Value.date "2024-01-01"), ("sum(bid_price)", Value.num 1)],
            [("day", Value.date "2024-01-02"), ("sum(bid_price)", Value.num 2)]]⟩ ∧
    applyOrderBy
        ⟨["day", "sum(bid_price)"],
         [[("day", Value.date "2024-01-01"), ("sum(bid_price)", Value.num 1)],
          [("day", Value.date "2024-01-02"), ("sum(bid_price)", Value.num 2)]]⟩
        [⟨"day", some "desc"⟩] =
      ⟨["day", "sum(bid_price)"],
       [[("day", Value.date "2024-01-02"), ("sum(bid_price)", Value.num 2)],
        [("day", Value.date "2024-01-01"), ("sum(bid_price)", Value.num 1)]]⟩ ∧
    ([[("day", Value.date "2024-01-01"), ("sum(bid_price)", Value.num 1)],
      [("day", Value.date "2024-01-02"), ("sum(bid_price)", Value.num 2)]] : List Row) ≠
      [[("day", Value.date "2024-01-02"), ("sum(bid_price)", Value.num 2)],
       [("day", Value.date "2024-01-01"), ("sum(bid_price)", Value.num 1)]] := by
  refine ⟨by with_unfolding_all rfl, by with_unfolding_all rfl, by decide⟩

/-- C3 amended.  On a rollup hit the planner applies `order_by` only for
the CountryPurchases, AdvertiserType and MinuteRevenue shapes; the
DailyRevenue and PublisherRevenue paths ignore `order_by` entirely (the
answer is identical to the one for the same query without `order_by`). -/
theorem rollup_order_by_behavior (store : List Event) (q : Query)
    (ob : List OrderKey) (hob : ob ≠ []) :
    ((route q = some Shape.daily ∨ route q = some Shape.publisher) →
      executeQueryResult store {q with order_by := ob} =
        executeQueryResult store {q with order_by := []}) ∧
    ((route q = some Shape.countryPurchases ∨ route q = some Shape.advertiserType ∨
      route q = some Shape.minuteRevenue) →
      executeQueryResult store {q with order_by := ob} =
        (executeQueryResult store {q with order_by := []}).map
          (fun f => applyOrderBy f ob)) := by
  have hobe : ob.isEmpty = false := by
    cases ob with
    | nil => exact absurd rfl hob
    | cons a l => rfl
  have hroute : ∀ ob', route {q with order_by := ob'} = route q := fun _ => rfl
  constructor
  · rintro (hd | hp)
    · simp only [executeQueryResult, hroute, hd]
      rfl
    · simp only [executeQueryResult, hroute, hp]
      rfl
  · rintro (hc | ha | hm)
    · simp only [executeQueryResult, hroute, hc]
      show query_country_purchases store ob =
        (query_country_purchases store []).map (fun f => applyOrderBy f ob)
      unfold query_country_purchases
      cases h1 : load_aggregate store .countryPurchases with
      | error e => rfl
      | ok df1 =>
          simp only [exceptBind_ok]
          cases h2 : df1.rename "avg_total_price" "avg(total_price)" with
          | error e => rfl
          | ok df2 =>
              simp only [exceptBind_ok]
              cases h3 : df2.select ["country", "avg(total_price)"] with
              | error e => rfl
              | ok df3 =>
                  simp only [exceptBind_ok, hobe, List.isEmpty_nil, if_true,
                    Bool.false_eq_true, if_false, exceptMap_ok]
    · simp only [executeQueryResult, hroute, ha]
      show query_advertiser_type store ob =
        (query_advertiser_type store []).map (fun f => applyOrderBy f ob)
      unfold query_advertiser_type
      cases h1 : load_aggregate store .advertiserType with
      | error e => rfl
      | ok df1 =>
          simp only [exceptBind_ok]
          cases h2 : df1.rename "count" "count(*)" with
          | error e => rfl
          | ok df2 =>
              simp only [exceptBind_ok]
              cases h3 : df2.select ["advertiser_id", "type", "count(*)"] with
              | error e => rfl
              | ok df3 =>
                  simp only [exceptBind_ok, hobe, List.isEmpty_nil, if_true,
                    Bool.false_eq_true, if_false, exceptMap_ok]
    · simp only [executeQueryResult, hroute, hm]
      show query_minute_revenue store q.where_ ob =
        (query_minute_revenue store q.where_ []).map (fun f => applyOrderBy f ob)
      unfold query_minute_revenue
      cases h1 : load_aggregate store .minuteRevenue with
      | error e => rfl
      | ok df1 =>
          simp only [exceptBind_ok]
          cases h2 : q.where_.foldlM minuteFilterStep df1 with
          | error e => rfl
          | ok df2 =>
              simp only [exceptBind_ok]
              cases h3 : df2.rename "sum_bid_price" "sum(bid_price)" with
              | error e => rfl
              | ok df3 =>
                  simp only [exceptBind_ok]
                  cases h4 : df3.select ["minute", "sum(bid_price)"] with
                  | error e => rfl
                  | ok df4 =>
                      simp only [exceptBind_ok, hobe, List.isEmpty_nil, if_true,
                        Bool.false_eq_true, if_false, exceptMap_ok]

/-- Witness for C3 amended, at the S5 minute query of the spec. -/
theorem rollup_order_by_behavior_witness :
    executeQueryResult
        [⟨1704067200000, "impression", "a1", 1, 10, some 1, 100, none, "US",
          "2024-01-01", "2024-01-01", "2024-01-01 00:00:00", "2024-01-01 00:00"⟩]
        ⟨[SelectItem.col "minute", SelectItem.agg "SUM" "bid_price"],
         [⟨"type", "eq", PredVal.s (Value.str "impression")⟩], ["minute"],
         [⟨"minute", some "asc"⟩]⟩ =
      (executeQueryResult
          [⟨1704067200000, "impression", "a1", 1, 10, some 1, 100, none, "US",
            "2024-01-01", "2024-01-01", "2024-01-01 00:00:00", "2024-01-01 00:00"⟩]
          ⟨[SelectItem.col "minute", SelectItem.agg "SUM" "bid_price"],
           [⟨"type", "eq", PredVal.s (Value.str "impression")⟩], ["minute"], []⟩).map
        (fun f => applyOrderBy f [⟨"minute", some "asc"⟩]) :=
  (rollup_order_by_behavior _
      ⟨[SelectItem.col "minute", SelectItem.agg "SUM" "bid_price"],
       [⟨"type", "eq", PredVal.s (Value.str "impression")⟩], ["minute"], []⟩
      [⟨"minute", some "asc"⟩] (by decide)).2
    (Or.inr (Or.inr (by decide)))

/-! ### Toolkit for the routing-equivalence claim -/

theorem loadedEvents_single (store : List Event) (T : String) :
    loadedEvents store [.s (.str T)] = typeRows store T := by
  simp [loadedEvents]

theorem mem_typeRows {store : List Event} {T : String} {e : Event}
    (h : e ∈ typeRows store T) : e ∈ store ∧ e.type = T := by
  unfold typeRows partitionRows at h
  obtain ⟨D, -, hmem⟩ := List.mem_flatMap.mp h
  have := List.mem_filter.mp hmem
  refine ⟨this.1, ?_⟩
  have h2 := this.2
  simp only [Bool.and_eq_true, beq_iff_eq] at h2
  exact h2.1

theorem keyOf_projectRow (G cols : List String) (r : Row)
    (h : ∀ c ∈ G, c ∈ cols) :
    keyOf G (projectRow cols r) = keyOf G r := by
  unfold keyOf
  exact List.map_congr_left fun c hc => getCol_projectRow cols r c (h c hc)

theorem projectRow_self (cs : List String) (r : Row)
    (h : r.map Prod.fst = cs) (hnd : cs.Nodup) : projectRow cs r = r := by
  induction r generalizing cs with
  | nil => simp_all [projectRow]
  | cons p r ih =>
      obtain ⟨c0, v0⟩ := p
      subst h
      simp only [List.map_cons, List.nodup_cons] at hnd ⊢
      unfold projectRow
      simp only [List.map_cons]
      have hhead : getCol ((c0, v0) :: r) c0 = v0 := by simp [getCol, List.lookup]
      rw [hhead]
      congr 1
      have hrest : projectRow (r.map Prod.fst) r = r := ih _ rfl hnd.2
      rw [show List.map (fun c => (c, getCol ((c0, v0) :: r) c)) (r.map Prod.fst) =
          List.map (fun c => (c, getCol r c)) (r.map Prod.fst) from ?_]
      · exact hrest
      · apply List.map_congr_left
        intro c hc
        have hne : ¬(c == c0) = true := by
          simp only [beq_iff_eq]
          rintro rfl
          exact hnd.1 hc
        simp [getCol, List.lookup, hne]

theorem rows_map_keyOf (evs : List Event) (cols G : List String)
    (h : ∀ c ∈ G, c ∈ cols) :
    (evs.map (fun e => projectRow cols e.row)).map (keyOf G) =
      evs.map (fun e => keyOf G e.row) := by
  rw [List.map_map]
  exact List.map_congr_left fun e _ => keyOf_projectRow G cols e.row h

theorem typeRows_type {store : List Event} {T : String} :
    ∀ e ∈ typeRows store T, e.type = T :=
  fun _ he => (mem_typeRows he).2

theorem cmpEqV_str (a b : String) : cmpEqV (.str a) (.str b) = (a == b) := by
  by_cases h : a = b <;> simp [cmpEqV, isNull, h]

theorem cmpEqV_date (a b : String) : cmpEqV (.date a) (.date b) = (a == b) := by
  by_cases h : a = b <;> simp [cmpEqV, isNull, h]

theorem cmpLeV_date (a b : String) : cmpLeV (.date a) (.date b) = strLE a b := rfl

theorem applyFilterOne_eq_red (df : Frame) (c : String) (v : Value)
    (hmem : c ∈ df.cols) :
    applyFilterOne df ⟨c, "eq", .s v⟩ =
      .ok (df.filterRows (fun r => cmpEqV (getCol r c)
        (if colIsDateLike df c && v.isStr then toDateIfStr v else v))) := by
  unfold applyFilterOne
  rw [if_neg (by simpa using hmem)]
  rfl

theorem applyFilterOne_between_red (df : Frame) (c : String) (lo hi : Value)
    (hmem : c ∈ df.cols) :
    applyFilterOne df ⟨c, "between", .list [lo, hi]⟩ =
      .ok (df.filterRows (fun r =>
        cmpLeV (if colIsDateLike df c && lo.isStr then toDateIfStr lo else lo)
            (getCol r c) &&
        cmpLeV (getCol r c)
          (if colIsDateLike df c && lo.isStr then toDateIfStr hi else hi))) := by
  unfold applyFilterOne
  rw [if_neg (by simpa using hmem)]
  rfl

theorem filterRows_proj (cols : List String) (evs : List Event) (p : Row → Bool)
    (q : Event → Bool) (h : ∀ e : Event, p (projectRow cols e.row) = q e) :
    Frame.filterRows ⟨cols, evs.map (fun e => projectRow cols e.row)⟩ p =
      ⟨cols, (evs.filter q).map (fun e => projectRow cols e.row)⟩ := by
  unfold Frame.filterRows
  congr 1
  rw [List.filter_map]
  congr 1
  exact List.filter_congr fun e _ => h e

theorem colIsDateLike_proj (cols : List String) (e0 : Event) (evs : List Event)
    (c : String) (hc : c ∈ cols) :
    colIsDateLike ⟨cols, (e0 :: evs).map (fun e => projectRow cols e.row)⟩ c =
      (match getCol e0.row c with | .date _ => true | _ => false) := by
  simp only [List.map_cons, colIsDateLike, getCol_projectRow cols e0.row c hc]

theorem applyFilterOne_proj_typeEq (cols : List String) (evs : List Event)
    (v : String) (hc : "type" ∈ cols) :
    applyFilterOne ⟨cols, evs.map (fun e => projectRow cols e.row)⟩
        ⟨"type", "eq", .s (.str v)⟩ =
      .ok ⟨cols, (evs.filter (fun e => e.type == v)).map
        (fun e => projectRow cols e.row)⟩ := by
  rw [applyFilterOne_eq_red _ _ _ hc]
  cases evs with
  | nil => simp [Frame.filterRows]
  | cons e0 es =>
      rw [colIsDateLike_proj cols e0 es "type" hc, getCol_event_type]
      simp only [Bool.false_and, Bool.false_eq_true, if_false]
      rw [filterRows_proj cols (e0 :: es) _ (fun e => e.type == v)
        (fun e => by rw [getCol_projectRow cols e.row "type" hc, getCol_event_type,
          cmpEqV_str])]

theorem applyFilterOne_proj_countryEq (cols : List String) (evs : List Event)
    (v : String) (hc : "country" ∈ cols) :
    applyFilterOne ⟨cols, evs.map (fun e => projectRow cols e.row)⟩
        ⟨"country", "eq", .s (.str v)⟩ =
      .ok ⟨cols, (evs.filter (fun e => e.country == v)).map
        (fun e => projectRow cols e.row)⟩ := by
  rw [applyFilterOne_eq_red _ _ _ hc]
  cases evs with
  | nil => simp [Frame.filterRows]
  | cons e0 es =>
      rw [colIsDateLike_proj cols e0 es "country" hc, getCol_event_country]
      simp only [Bool.false_and, Bool.false_eq_true, if_false]
      rw [filterRows_proj cols (e0 :: es) _ (fun e => e.country == v)
        (fun e => by rw [getCol_projectRow cols e.row "country" hc, getCol_event_country,
          cmpEqV_str])]

theorem applyFilterOne_proj_dayEq (cols : List String) (evs : List Event)
    (v : String) (hc : "day" ∈ cols) :
    applyFilterOne ⟨cols, evs.map (fun e => projectRow cols e.row)⟩
        ⟨"day", "eq", .s (.str v)⟩ =
      .ok ⟨cols, (evs.filter (fun e => e.day == v)).map
        (fun e => projectRow cols e.row)⟩ := by
  rw [applyFilterOne_eq_red _ _ _ hc]
  cases evs with
  | nil => simp [Frame.filterRows]
  | cons e0 es =>
      rw [colIsDateLike_proj cols e0 es "day" hc, getCol_event_day]
      simp only [Bool.true_and, Value.isStr, if_true]
      rw [filterRows_proj cols (e0 :: es) _ (fun e => e.day == v)
        (fun e => by rw [getCol_projectRow cols e.row "day" hc, getCol_event_day]
                     show cmpEqV (Value.date e.day) (toDateIfStr (Value.str v)) = (e.day == v)
                     rw [show toDateIfStr (Value.str v) = Value.date v from rfl, cmpEqV_date])]

theorem applyFilterOne_proj_dayBetween (cols : List String) (evs : List Event)
    (lo hi : String) (hc : "day" ∈ cols) :
    applyFilterOne ⟨cols, evs.map (fun e => projectRow cols e.row)⟩
        ⟨"day", "between", .list [.str lo, .str hi]⟩ =
      .ok ⟨cols, (evs.filter (fun e => strLE lo e.day && strLE e.day hi)).map
        (fun e => projectRow cols e.row)⟩ := by
  rw [applyFilterOne_between_red _ _ _ _ hc]
  cases evs with
  | nil => simp [Frame.filterRows]
  | cons e0 es =>
      rw [colIsDateLike_proj cols e0 es "day" hc, getCol_event_day]
      simp only [Bool.true_and, Value.isStr, if_true]
      rw [filterRows_proj cols (e0 :: es) _ (fun e => strLE lo e.day && strLE e.day hi)
        (fun e => by rw [getCol_projectRow cols e.row "day" hc, getCol_event_day]
                     show (cmpLeV (toDateIfStr (Value.str lo)) (Value.date e.day) &&
                           cmpLeV (Value.date e.day) (toDateIfStr (Value.str hi))) =
                         (strLE lo e.day && strLE e.day hi)
                     rw [show toDateIfStr (Value.str lo) = Value.date lo from rfl,
                       show toDateIfStr (Value.str hi) = Value.date hi from rfl,
                       cmpLeV_date, cmpLeV_date])]

/-- Decomposition of a recognized scan filter into its four forms. -/
theorem scanRecognizedB_cases {w : WherePred} (h : scanRecognizedB w = true) :
    (∃ v, w = ⟨"type", "eq", .s (.str v)⟩) ∨
    (∃ v, w = ⟨"country", "eq", .s (.str v)⟩) ∨
    (∃ v, w = ⟨"day", "eq", .s (.str v)⟩) ∨
    (∃ lo hi, w = ⟨"day", "between", .list [.str lo, .str hi]⟩) := by
  obtain ⟨c, o, val⟩ := w
  simp only [scanRecognizedB, Bool.or_eq_true, Bool.and_eq_true, beq_iff_eq] at h
  rcases h with ((hb | hb) | hb) | hb
  · obtain ⟨⟨h1, h2⟩, h3⟩ := hb
    subst h1; subst h2
    cases val with
    | s v =>
        cases v with
        | str sv => exact Or.inl ⟨sv, rfl⟩
        | null => simp at h3
        | int n => simp at h3
        | num q => simp at h3
        | date d => simp at h3
    | list vs => simp at h3
  · obtain ⟨⟨h1, h2⟩, h3⟩ := hb
    subst h1; subst h2
    cases val with
    | s v =>
        cases v with
        | str sv => exact Or.inr (Or.inl ⟨sv, rfl⟩)
        | null => simp at h3
        | int n => simp at h3
        | num q => simp at h3
        | date d => simp at h3
    | list vs => simp at h3
  · obtain ⟨⟨h1, h2⟩, h3⟩ := hb
    subst h1; subst h2
    cases val with
    | s v =>
        cases v with
        | str sv => exact Or.inr (Or.inr (Or.inl ⟨sv, rfl⟩))
        | null => simp at h3
        | int n => simp at h3
        | num q => simp at h3
        | date d => simp at h3
    | list vs => simp at h3
  · obtain ⟨⟨h1, h2⟩, h3⟩ := hb
    subst h1; subst h2
    cases val with
    | s v => simp at h3
    | list vs =>
        match vs, h3 with
        | [.str sa, .str sb], _ => exact Or.inr (Or.inr (Or.inr ⟨sa, sb, rfl⟩))
        | [], h3 => exact absurd h3 (by simp)
        | [.null], h3 => exact absurd h3 (by simp)
        | [.int _], h3 => exact absurd h3 (by simp)
        | [.num _], h3 => exact absurd h3 (by simp)
        | [.str _], h3 => exact absurd h3 (by simp)
        | [.date _], h3 => exact absurd h3 (by simp)
        | a :: b :: c :: rest, h3 => exact absurd h3 (by simp)
        | [.null, _], h3 => exact absurd h3 (by simp)
        | [.int _, _], h3 => exact absurd h3 (by simp)
        | [.num _, _], h3 => exact absurd h3 (by simp)
        | [.date _, _], h3 => exact absurd h3 (by simp)
        | [.str _, .null], h3 => exact absurd h3 (by simp)
        | [.str _, .int _], h3 => exact absurd h3 (by simp)
        | [.str _, .num _], h3 => exact absurd h3 (by simp)
        | [.str _, .date _], h3 => exact absurd h3 (by simp)

/-- Scan-side meaning of a canonical filter list: one combined row
filter over the loaded events. -/
theorem applyFilters_canon (cols : List String) (ws : List WherePred)
    (evs : List Event)
    (hrec : ∀ w ∈ ws, scanRecognizedB w = true)
    (hcols : ∀ w ∈ ws, w.col ∈ cols) :
    applyFilters ⟨cols, evs.map (fun e => projectRow cols e.row)⟩ ws =
      .ok ⟨cols, (evs.filter (fun e => ws.all (fun w => canonPredSem w e))).map
        (fun e => projectRow cols e.row)⟩ := by
  induction ws generalizing evs with
  | nil => simp [applyFilters]
  | cons w ws ih =>
      have hw := hrec w (List.mem_cons_self _ _)
      have hwc := hcols w (List.mem_cons_self _ _)
      have hrec' : ∀ w' ∈ ws, scanRecognizedB w' = true :=
        fun w' hw' => hrec w' (List.mem_cons_of_mem _ hw')
      have hcols' : ∀ w' ∈ ws, w'.col ∈ cols :=
        fun w' hw' => hcols w' (List.mem_cons_of_mem _ hw')
      have hstep : ∃ q : Event → Bool,
          applyFilterOne ⟨cols, evs.map (fun e => projectRow cols e.row)⟩ w =
            .ok ⟨cols, (evs.filter q).map (fun e => projectRow cols e.row)⟩ ∧
          ∀ e, q e = canonPredSem w e := by
        rcases scanRecognizedB_cases hw with ⟨v, rfl⟩ | ⟨v, rfl⟩ | ⟨v, rfl⟩ | ⟨lo, hi, rfl⟩
        · exact ⟨_, applyFilterOne_proj_typeEq cols evs v hwc, fun e => rfl⟩
        · exact ⟨_, applyFilterOne_proj_countryEq cols evs v hwc, fun e => rfl⟩
        · exact ⟨_, applyFilterOne_proj_dayEq cols evs v hwc, fun e => rfl⟩
        · exact ⟨_, applyFilterOne_proj_dayBetween cols evs lo hi hwc, fun e => rfl⟩
      obtain ⟨qsem, hone, hqsem⟩ := hstep
      rw [applyFilters, hone]
      show applyFilters ⟨cols, (evs.filter qsem).map (fun e => projectRow cols e.row)⟩ ws = _
      rw [ih _ hrec' hcols']
      rw [List.filter_filter]
      congr 2
      apply congrArg
      apply List.filter_congr
      intro e _
      simp only [List.all_cons, hqsem e]
      exact Bool.and_comm _ _

/-- `group_by` over a projected event frame, expressed over the events. -/
theorem groupByAgg_proj (cols : List String) (evs : List Event) (G : List String)
    (aggs : List AggExpr)
    (hvalid : (∀ c ∈ G, c ∈ cols) ∧
      (∀ a ∈ aggs, ∀ c ∈ a.colNeeded.toList, c ∈ cols) ∧
      (G ++ aggs.map AggExpr.outName).Nodup) :
    groupByAgg ⟨cols, evs.map (fun e => projectRow cols e.row)⟩ G aggs =
      .ok ⟨G ++ aggs.map AggExpr.outName,
        (dedupFirst (evs.map (fun e => keyOf G e.row))).map (fun k =>
          G.zip k ++ aggs.map (fun a =>
            (a.outName, aggEval
              ((evs.filter (fun e => keyOf G e.row == k)).map
                (fun e => projectRow cols e.row)) a)))⟩ := by
  unfold groupByAgg
  rw [if_pos hvalid]
  have hkeys : (evs.map (fun e => projectRow cols e.row)).map (keyOf G) =
      evs.map (fun e => keyOf G e.row) := rows_map_keyOf evs cols G hvalid.1
  rw [hkeys]
  congr 2
  apply List.map_congr_left
  intro k _
  congr 1
  apply List.map_congr_left
  intro a _
  congr 1
  show aggEval ((evs.map (fun e => projectRow cols e.row)).filter
      (fun r => keyOf G r == k)) a = _
  rw [List.filter_map]
  have hfun : ((fun r => keyOf G r == k) ∘ fun (e : Event) => projectRow cols e.row) =
      (fun (e : Event) => keyOf G e.row == k) :=
    funext fun (e : Event) => by rw [Function.comp_apply, keyOf_projectRow G cols e.row hvalid.1]
  rw [hfun]

theorem aggEval_sum_proj (cols : List String) (evs : List Event) (c alias2 : String)
    (hc : c ∈ cols) :
    aggEval (evs.map (fun e => projectRow cols e.row)) (.sum c alias2) =
      .num ((evs.filterMap (fun e => toQ (getCol e.row c))).sum) := by
  show Value.num (((evs.map (fun e => projectRow cols e.row)).filterMap
      (fun r => toQ (getCol r c))).sum) = _
  rw [List.filterMap_map]
  have hfun : ((fun r => toQ (getCol r c)) ∘ fun (e : Event) => projectRow cols e.row) =
      (fun (e : Event) => toQ (getCol e.row c)) :=
    funext fun (e : Event) => by rw [Function.comp_apply, getCol_projectRow cols e.row c hc]
  rw [hfun]

theorem aggEval_mean_proj (cols : List String) (evs : List Event) (c alias2 : String)
    (hc : c ∈ cols) :
    aggEval (evs.map (fun e => projectRow cols e.row)) (.mean c alias2) =
      (let qs := evs.filterMap (fun e => toQ (getCol e.row c))
       if qs.isEmpty then .null else .num (qs.sum / qs.length)) := by
  have heq : (evs.map (fun e => projectRow cols e.row)).filterMap
      (fun r => toQ (getCol r c)) = evs.filterMap (fun e => toQ (getCol e.row c)) := by
    rw [List.filterMap_map]
    have hfun : ((fun r => toQ (getCol r c)) ∘ fun (e : Event) => projectRow cols e.row) =
        (fun (e : Event) => toQ (getCol e.row c)) :=
      funext fun (e : Event) => by rw [Function.comp_apply, getCol_projectRow cols e.row c hc]
    rw [hfun]
  simp only [aggEval]
  rw [heq]

theorem aggEval_len_proj (cols : List String) (evs : List Event) (alias2 : String) :
    aggEval (evs.map (fun e => projectRow cols e.row)) (.len alias2) =
      .int evs.length := by
  simp [aggEval]

/-! ### Row-level helper lemmas for the routing-equivalence claim -/

theorem lookup_none_of_keys {β : Type} (l : List (String × β)) (c : String)
    (h : ∀ p ∈ l, p.1 ≠ c) : l.lookup c = none := by
  induction l with
  | nil => rfl
  | cons p t ih =>
      have hdiff : (c == p.1) = false := by
        simp only [beq_eq_false_iff_ne, ne_eq]
        exact fun hc => h p (List.mem_cons_self _ _) hc.symm
      obtain ⟨k, v⟩ := p
      simp only at hdiff
      simp only [List.lookup, hdiff]
      exact ih fun p hp => h p (List.mem_cons_of_mem _ hp)

theorem getCol_append_of_none (r1 r2 : Row) (c : String)
    (h : r1.lookup c = none) : getCol (r1 ++ r2) c = getCol r2 c := by
  induction r1 with
  | nil => rfl
  | cons p t ih =>
      obtain ⟨k, v⟩ := p
      by_cases hk : c == k
      · simp [List.lookup, hk] at h
      · have hk' : (c == k) = false := by simpa using hk
        simp only [List.lookup, hk'] at h
        simp only [getCol, List.cons_append, List.lookup, hk']
        exact ih h

theorem getCol_append_of_some (r1 r2 : Row) (c : String) (v : Value)
    (h : r1.lookup c = some v) : getCol (r1 ++ r2) c = v := by
  induction r1 with
  | nil => exact Option.noConfusion h
  | cons p t ih =>
      obtain ⟨k, w⟩ := p
      by_cases hk : (c == k) = true
      · simp only [List.lookup, hk] at h
        injection h with h
        subst h
        simp [getCol, List.lookup, hk]
      · have hk' : (c == k) = false := by simpa using hk
        simp only [List.lookup, hk'] at h
        simp only [getCol, List.cons_append, List.lookup, hk']
        exact ih h

theorem lookup_projectRow (cs : List String) (r : Row) (c : String) (h : c ∈ cs) :
    (projectRow cs r).lookup c = some (getCol r c) := by
  induction cs with
  | nil => cases h
  | cons c0 cs ih =>
      by_cases hc : (c == c0) = true
      · have hcc : c = c0 := by simpa using hc
        subst hcc
        simp [projectRow, List.lookup]
      · have hc' : (c == c0) = false := by simpa using hc
        simp only [projectRow, List.map_cons, List.lookup, hc']
        rcases List.mem_cons.mp h with rfl | hmem
        · simp at hc'
        · exact ih hmem

theorem zip_keyOf (G : List String) (r : Row) :
    G.zip (keyOf G r) = projectRow G r := by
  unfold keyOf projectRow
  induction G with
  | nil => rfl
  | cons c G ih => simp [List.zip_cons_cons, ih]

theorem keyOf_length (G : List String) (r : Row) :
    (keyOf G r).length = G.length := List.length_map _ _

theorem getCol_zip_key (G : List String) (r : Row) (rest : Row) (c : String)
    (h : c ∈ G) :
    getCol (G.zip (keyOf G r) ++ rest) c = getCol r c := by
  rw [zip_keyOf, getCol_append_of_some _ _ _ _ (lookup_projectRow G r c h)]

theorem getCol_zip_skip (G : List String) (k : List Value) (rest : Row)
    (c : String) (h : c ∉ G) :
    getCol (G.zip k ++ rest) c = getCol rest c := by
  apply getCol_append_of_none
  apply lookup_none_of_keys
  intro p hp rfl0
  exact h (rfl0 ▸ (List.of_mem_zip hp).1)

theorem keyOf_zip_key (g G : List String) (r : Row) (rest : Row)
    (h : ∀ c ∈ g, c ∈ G) :
    keyOf g (G.zip (keyOf G r) ++ rest) = keyOf g r := by
  unfold keyOf
  exact List.map_congr_left fun c hc => getCol_zip_key G r rest c (h c hc)

theorem filterRows_of_true (df : Frame) (p : Row → Bool) (h : ∀ r, p r = true) :
    df.filterRows p = df := by
  unfold Frame.filterRows
  rw [List.filter_eq_self.mpr fun r _ => h r]

theorem renameKey_append_last (old nw : String) (r1 : Row) (v : Value)
    (h : ∀ p ∈ r1, p.1 ≠ old) :
    renameKey old nw (r1 ++ [(old, v)]) = r1 ++ [(nw, v)] := by
  unfold renameKey
  rw [List.map_append]
  congr 1
  · have h1 : List.map (fun (p : String × Value) =>
        (if p.1 = old then nw else p.1, p.2)) r1 = List.map id r1 :=
      List.map_congr_left fun p hp => by rw [if_neg (h p hp)]; rfl
    rw [h1, List.map_id]
  · simp

theorem filterMap_ext {α β : Type} (l : List α) (f g : α → Option β)
    (h : ∀ a ∈ l, f a = g a) : l.filterMap f = l.filterMap g := by
  induction l with
  | nil => rfl
  | cons a l ih =>
      simp only [List.filterMap_cons, h a (List.mem_cons_self _ _)]
      rw [ih fun a ha => h a (List.mem_cons_of_mem _ ha)]

/-- Aggregation only reads the columns it needs, so projecting event rows
before aggregating changes nothing. -/
theorem aggEval_proj_inv (cols : List String) (evs : List Event) (a : AggExpr)
    (h : ∀ c ∈ a.colNeeded.toList, c ∈ cols) :
    aggEval (evs.map (fun e => projectRow cols e.row)) a =
      aggEval (evs.map Event.row) a := by
  cases a with
  | sum c n =>
      have hc : c ∈ cols := h c (by simp [AggExpr.colNeeded])
      show Value.num _ = Value.num _
      rw [List.filterMap_map, List.filterMap_map]
      refine congrArg (fun l => Value.num l.sum) (filterMap_ext evs _ _ fun e he => ?_)
      rw [Function.comp_apply, Function.comp_apply, getCol_projectRow cols e.row c hc]
  | mean c n =>
      have hc : c ∈ cols := h c (by simp [AggExpr.colNeeded])
      have heq : (evs.map (fun e => projectRow cols e.row)).filterMap
          (fun r => toQ (getCol r c)) =
          (evs.map Event.row).filterMap (fun r => toQ (getCol r c)) := by
        rw [List.filterMap_map, List.filterMap_map]
        refine filterMap_ext evs _ _ fun e he => ?_
        rw [Function.comp_apply, Function.comp_apply, getCol_projectRow cols e.row c hc]
      simp only [aggEval]
      rw [heq]
  | count c n =>
      have hc : c ∈ cols := h c (by simp [AggExpr.colNeeded])
      show Value.int _ = Value.int _
      rw [List.countP_map, List.countP_map]
      refine congrArg (fun (n : ℕ) => Value.int (n : Int)) (List.countP_congr fun e he => ?_)
      rw [Function.comp_apply, Function.comp_apply, getCol_projectRow cols e.row c hc]
  | len n =>
      show Value.int _ = Value.int _
      rw [List.length_map, List.length_map]

/-- Aggregation ignores the output name. -/
theorem aggEval_outName_irrel (rows : List Row) (c n1 n2 : String) :
    aggEval rows (.sum c n1) = aggEval rows (.sum c n2) ∧
    aggEval rows (.mean c n1) = aggEval rows (.mean c n2) ∧
    aggEval rows (.count c n1) = aggEval rows (.count c n2) ∧
    aggEval rows (.len n1) = aggEval rows (.len n2) :=
  ⟨rfl, rfl, rfl, rfl⟩

/-- Splitting a sum of optional values along a predicate. -/
theorem sum_filterMap_split {α : Type} (l : List α) (p : α → Bool)
    (f : α → Option ℚ) :
    ((l.filter p).filterMap f).sum +
      ((l.filter (fun a => !(p a))).filterMap f).sum = (l.filterMap f).sum := by
  induction l with
  | nil => simp
  | cons a l ih =>
      by_cases hp : p a = true
      · simp only [List.filter_cons, hp, if_true, Bool.not_true, Bool.false_eq_true,
          if_false, List.filterMap_cons]
        cases f a with
        | none => exact ih
        | some q =>
            simp only [List.sum_cons]
            rw [add_assoc, ih]
      · have hp' : p a = false := by simpa using hp
        simp only [List.filter_cons, hp', Bool.false_eq_true, if_false,
          Bool.not_false, if_true, List.filterMap_cons]
        cases f a with
        | none => exact ih
        | some q =>
            simp only [List.sum_cons]
            rw [add_left_comm, ih]

/-- Summing group-by-group over a duplicate-free key cover equals the
direct sum. -/
theorem sum_over_keys {α β : Type} [BEq β] [LawfulBEq β] (K : α → β)
    (f : α → Option ℚ) :
    ∀ (ks : List β) (l : List α), ks.Nodup → (∀ a ∈ l, K a ∈ ks) →
      (ks.map (fun k => ((l.filter (fun a => K a == k)).filterMap f).sum)).sum =
        (l.filterMap f).sum := by
  intro ks
  induction ks with
  | nil =>
      intro l _ hall
      cases l with
      | nil => rfl
      | cons a l => exact absurd (hall a (List.mem_cons_self _ _)) (List.not_mem_nil _)
  | cons k ks ih =>
      intro l hnd hall
      have hknotin : k ∉ ks := (List.nodup_cons.mp hnd).1
      have hnd' : ks.Nodup := (List.nodup_cons.mp hnd).2
      have hall' : ∀ a ∈ l.filter (fun a => !(K a == k)), K a ∈ ks := by
        intro a ha
        have h1 := List.mem_filter.mp ha
        have h2 := hall a h1.1
        rcases List.mem_cons.mp h2 with h3 | h3
        · exact absurd h3 (by simpa using h1.2)
        · exact h3
      have hsub : ∀ k' ∈ ks,
          (l.filter (fun a => !(K a == k))).filter (fun a => K a == k') =
            l.filter (fun a => K a == k') := by
        intro k' hk'
        rw [List.filter_filter]
        refine List.filter_congr fun a _ => ?_
        by_cases hke : K a = k'
        · have hkk : k' ≠ k := fun hc => hknotin (hc ▸ hk')
          simp [hke, hkk]
        · simp [hke]
      calc ((k :: ks).map (fun k =>
              ((l.filter (fun a => K a == k)).filterMap f).sum)).sum
          = ((l.filter (fun a => K a == k)).filterMap f).sum +
            (ks.map (fun k' =>
              ((l.filter (fun a => K a == k')).filterMap f).sum)).sum := by
            simp
        _ = ((l.filter (fun a => K a == k)).filterMap f).sum +
            (ks.map (fun k' =>
              (((l.filter (fun a => !(K a == k))).filter
                  (fun a => K a == k')).filterMap f).sum)).sum := by
            have hmc : ks.map (fun k' =>
                ((l.filter (fun a => K a == k')).filterMap f).sum) =
                ks.map (fun k' =>
                  (((l.filter (fun a => !(K a == k))).filter
                    (fun a => K a == k')).filterMap f).sum) :=
              List.map_congr_left fun k' hk' => by rw [hsub k' hk']
            rw [hmc]
        _ = ((l.filter (fun a => K a == k)).filterMap f).sum +
            ((l.filter (fun a => !(K a == k))).filterMap f).sum := by
            rw [ih (l.filter (fun a => !(K a == k))) hnd' hall']
        _ = (l.filterMap f).sum := sum_filterMap_split l _ f

/-- First-occurrence deduplication commutes with a map that is injective
on the list's elements. -/
theorem dedupFirstAux_map_on {α β : Type} [DecidableEq α] [DecidableEq β]
    (f : α → β) :
    ∀ (seen l : List α),
      (∀ x ∈ l, ∀ y ∈ seen ++ l, f x = f y → x = y) →
      dedupFirstAux (seen.map f) (l.map f) = (dedupFirstAux seen l).map f := by
  intro seen l
  induction l generalizing seen with
  | nil => intro _; rfl
  | cons a l ih =>
      intro hf
      have hmem : f a ∈ seen.map f ↔ a ∈ seen := by
        constructor
        · intro h
          obtain ⟨x, hx, hfx⟩ := List.mem_map.mp h
          exact (hf a (List.mem_cons_self _ _) x (List.mem_append_left _ hx)
            hfx.symm).symm ▸ hx
        · intro h; exact List.mem_map_of_mem f h
      have hf' : ∀ x ∈ l, ∀ y ∈ (a :: seen) ++ l, f x = f y → x = y := by
        intro x hx y hy hxy
        rcases List.mem_append.mp hy with hy1 | hy1
        · rcases List.mem_cons.mp hy1 with rfl | hy2
          · exact hf x (List.mem_cons_of_mem _ hx) y (List.mem_append_right _
              (List.mem_cons_self _ _)) hxy
          · exact hf x (List.mem_cons_of_mem _ hx) y (List.mem_append_left _ hy2) hxy
        · exact hf x (List.mem_cons_of_mem _ hx) y (List.mem_append_right _
            (List.mem_cons_of_mem _ hy1)) hxy
      have hf'' : ∀ x ∈ l, ∀ y ∈ seen ++ l, f x = f y → x = y := by
        intro x hx y hy hxy
        rcases List.mem_append.mp hy with hy1 | hy1
        · exact hf x (List.mem_cons_of_mem _ hx) y (List.mem_append_left _ hy1) hxy
        · exact hf x (List.mem_cons_of_mem _ hx) y (List.mem_append_right _
            (List.mem_cons_of_mem _ hy1)) hxy
      by_cases ha : a ∈ seen
      · simp only [List.map_cons, dedupFirstAux, if_pos (hmem.mpr ha), if_pos ha]
        exact ih seen hf''
      · simp only [List.map_cons, dedupFirstAux,
          if_neg (fun h => ha (hmem.mp h)), if_neg ha, List.map_cons]
        rw [show (f a :: seen.map f) = (a :: seen).map f from rfl]
        exact congrArg _ (ih (a :: seen) hf')

theorem dedupFirst_map_on {α β : Type} [DecidableEq α] [DecidableEq β]
    (f : α → β) (l : List α)
    (hf : ∀ x ∈ l, ∀ y ∈ l, f x = f y → x = y) :
    dedupFirst (l.map f) = (dedupFirst l).map f :=
  dedupFirstAux_map_on f [] l (by simpa using hf)

/-! ### Column-set and select-list facts used by the scan path -/

theorem mem_determineColumns_group (sel : List SelectItem) (ws : List WherePred)
    (g : List String) (ob : List OrderKey) (c : String) (h : c ∈ g) :
    c ∈ determineColumns sel ws g ob := by
  unfold determineColumns
  rw [mem_dedupFirst]
  simp only [List.mem_append]
  exact Or.inl (Or.inr h)

theorem mem_determineColumns_where (sel : List SelectItem) (ws : List WherePred)
    (g : List String) (ob : List OrderKey) (w : WherePred) (h : w ∈ ws) :
    w.col ∈ determineColumns sel ws g ob := by
  unfold determineColumns
  rw [mem_dedupFirst]
  simp only [List.mem_append]
  exact Or.inl (Or.inl (Or.inr (List.mem_map_of_mem _ h)))

theorem mem_determineColumns_agg (sel : List SelectItem) (ws : List WherePred)
    (g : List String) (ob : List OrderKey) (F A : String)
    (h : SelectItem.agg F A ∈ sel) (hA : A ≠ "*") :
    A ∈ determineColumns sel ws g ob := by
  unfold determineColumns
  rw [mem_dedupFirst]
  simp only [List.mem_append]
  refine Or.inl (Or.inl (Or.inl (List.mem_flatMap.mpr ⟨SelectItem.agg F A, h, ?_⟩)))
  have hA' : (A == "*") = false := by simpa using hA
  simp [hA']

theorem aggExprsOf_cols_append (gs : List String) (rest : List SelectItem) :
    aggExprsOf (gs.map SelectItem.col ++ rest) = aggExprsOf rest := by
  unfold aggExprsOf
  rw [List.filterMap_append, List.filterMap_map]
  have h1 : List.filterMap ((fun i =>
      match i with
      | SelectItem.col _ => none
      | SelectItem.agg f c =>
          if f == "SUM" then some (AggExpr.sum c ("sum(" ++ c ++ ")"))
          else if f == "AVG" then some (AggExpr.mean c ("avg(" ++ c ++ ")"))
          else if f == "COUNT" then
            if c == "*" then some (AggExpr.len "count(*)")
            else some (AggExpr.count c ("count(" ++ c ++ ")"))
          else none) ∘ SelectItem.col) gs = List.filterMap (fun _ => none) gs := by
    refine filterMap_ext gs _ _ fun c hc => rfl
  rw [h1]
  simp

theorem selectColsOf_cols_append (gs : List String) (rest : List SelectItem) :
    selectColsOf (gs.map SelectItem.col ++ rest) = gs ++ selectColsOf rest := by
  unfold selectColsOf
  rw [List.map_append, List.map_map]
  congr 1
  have h1 : ((fun i =>
      match i with
      | SelectItem.col s => s
      | SelectItem.agg f c => strLower f ++ "(" ++ c ++ ")") ∘ SelectItem.col) =
      (fun s : String => s) := funext fun s => rfl
  rw [h1, List.map_id']

theorem aggExprsOf_single_needed {F A : String} {a : AggExpr}
    (ha : aggExprsOf [SelectItem.agg F A] = [a]) :
    ∀ c ∈ a.colNeeded.toList, c = A := by
  unfold aggExprsOf at ha
  simp only [List.filterMap_cons, List.filterMap_nil] at ha
  split_ifs at ha with h1 h2 h3 h4
  · injection ha with ha _
    subst ha
    simp [AggExpr.colNeeded]
  · injection ha with ha _
    subst ha
    simp [AggExpr.colNeeded]
  · injection ha with ha _
    subst ha
    simp [AggExpr.colNeeded]
  · injection ha with ha _
    subst ha
    simp [AggExpr.colNeeded]

/-! ### Partition pruning for canonical filter lists -/

theorem detPart_foldl_types (T : String) :
    ∀ (ws : List WherePred) (acc : List PredVal × Option (List PredVal)),
      (∀ w ∈ ws, w = ⟨"type", "eq", .s (.str T)⟩ ∨ w.col ≠ "type") →
      (ws.foldl (fun acc w =>
        if w.col == "type" && w.op == "eq" then ([w.val], acc.2)
        else if w.col == "type" && w.op == "in" then (w.val.asTypeList, acc.2)
        else if w.col == "day" && w.op == "eq" then (acc.1, some [w.val])
        else acc) acc).1 =
      if (⟨"type", "eq", PredVal.s (Value.str T)⟩ : WherePred) ∈ ws
      then [PredVal.s (Value.str T)] else acc.1 := by
  intro ws
  induction ws with
  | nil => intro acc _; simp
  | cons w ws ih =>
      intro acc hT
      rcases hT w (List.mem_cons_self _ _) with rfl | hw
      · rw [List.foldl_cons,
          ih _ (fun w' hw' => hT w' (List.mem_cons_of_mem _ hw'))]
        by_cases hmem : (⟨"type", "eq", PredVal.s (Value.str T)⟩ : WherePred) ∈ ws
        · simp [hmem]
        · simp [hmem]
      · have hcol : (w.col == "type") = false := by simpa using hw
        rw [List.foldl_cons]
        have hstep : (if w.col == "type" && w.op == "eq" then ([w.val], acc.2)
            else if w.col == "type" && w.op == "in" then (w.val.asTypeList, acc.2)
            else if w.col == "day" && w.op == "eq" then (acc.1, some [w.val])
            else acc).1 = acc.1 := by
          rw [hcol]
          simp only [Bool.false_and, Bool.false_eq_true, if_false]
          by_cases hday : (w.col == "day" && w.op == "eq") = true
          · rw [if_pos hday]
          · rw [if_neg hday]
        have hne : w ≠ ⟨"type", "eq", PredVal.s (Value.str T)⟩ := by
          intro hc
          rw [hc] at hw
          exact hw rfl
        rw [ih _ (fun w' hw' => hT w' (List.mem_cons_of_mem _ hw'))]
        by_cases hmem : (⟨"type", "eq", PredVal.s (Value.str T)⟩ : WherePred) ∈ ws
        · have hmem2 : (⟨"type", "eq", PredVal.s (Value.str T)⟩ : WherePred) ∈ w :: ws :=
            List.mem_cons_of_mem _ hmem
          rw [if_pos hmem, if_pos hmem2]
        · have hnot : (⟨"type", "eq", PredVal.s (Value.str T)⟩ : WherePred) ∉ w :: ws := by
            intro hc
            rcases List.mem_cons.mp hc with hc1 | hc1
            · exact hne hc1.symm
            · exact hmem hc1
          rw [if_neg hmem, if_neg hnot]
          exact hstep

theorem determinePartitions_types (T : String) (ws : List WherePred)
    (hmem : (⟨"type", "eq", .s (.str T)⟩ : WherePred) ∈ ws)
    (hT : ∀ w ∈ ws, w = ⟨"type", "eq", .s (.str T)⟩ ∨ w.col ≠ "type") :
    (determinePartitions ws).1 = [PredVal.s (Value.str T)] := by
  unfold determinePartitions
  rw [detPart_foldl_types T ws _ hT, if_pos hmem]

/-! ### The rollup-side filter chains on canonical filter lists -/

theorem pubRecognizedB_cases {w : WherePred} (h : pubRecognizedB w = true) :
    w = typeEqImp ∨
    (∃ v, w = ⟨"country", "eq", .s (.str v)⟩) ∨
    (∃ d, w = ⟨"day", "eq", .s (.str d)⟩) ∨
    (∃ lo hi, w = ⟨"day", "between", .list [.str lo, .str hi]⟩) := by
  obtain ⟨c, o, val⟩ := w
  simp only [pubRecognizedB, Bool.or_eq_true, Bool.and_eq_true, beq_iff_eq] at h
  rcases h with ((hb | hb) | hb) | hb
  · exact Or.inl hb
  · obtain ⟨⟨h1, h2⟩, h3⟩ := hb
    subst h1; subst h2
    match val, h3 with
    | .s (.str v), _ => exact Or.inr (Or.inl ⟨v, rfl⟩)
  · obtain ⟨⟨h1, h2⟩, h3⟩ := hb
    subst h1; subst h2
    match val, h3 with
    | .s (.str d), _ => exact Or.inr (Or.inr (Or.inl ⟨d, rfl⟩))
  · obtain ⟨⟨h1, h2⟩, h3⟩ := hb
    subst h1; subst h2
    match val, h3 with
    | .list [.str lo, .str hi], _ => exact Or.inr (Or.inr (Or.inr ⟨lo, hi, rfl⟩))

theorem minuteRecognizedB_cases {w : WherePred} (h : minuteRecognizedB w = true) :
    w = typeEqImp ∨ (∃ d, w = ⟨"day", "eq", .s (.str d)⟩) := by
  obtain ⟨c, o, val⟩ := w
  simp only [minuteRecognizedB, Bool.or_eq_true, Bool.and_eq_true, beq_iff_eq] at h
  rcases h with hb | hb
  · exact Or.inl hb
  · obtain ⟨⟨h1, h2⟩, h3⟩ := hb
    subst h1; subst h2
    match val, h3 with
    | .s (.str d), _ => exact Or.inr ⟨d, rfl⟩

theorem pubRecognizedB_scan {w : WherePred} (h : pubRecognizedB w = true) :
    scanRecognizedB w = true := by
  rcases pubRecognizedB_cases h with rfl | ⟨v, rfl⟩ | ⟨d, rfl⟩ | ⟨lo, hi, rfl⟩ <;> rfl

theorem minuteRecognizedB_scan {w : WherePred} (h : minuteRecognizedB w = true) :
    scanRecognizedB w = true := by
  rcases minuteRecognizedB_cases h with rfl | ⟨d, rfl⟩ <;> rfl

theorem pubRecognizedB_col {w : WherePred} (h : pubRecognizedB w = true) :
    w.col ∈ eventCols := by
  rcases pubRecognizedB_cases h with rfl | ⟨v, rfl⟩ | ⟨d, rfl⟩ | ⟨lo, hi, rfl⟩
  · decide
  · show "country" ∈ eventCols
    decide
  · show "day" ∈ eventCols
    decide
  · show "day" ∈ eventCols
    decide

theorem minuteRecognizedB_col {w : WherePred} (h : minuteRecognizedB w = true) :
    w.col ∈ eventCols := by
  rcases minuteRecognizedB_cases h with rfl | ⟨d, rfl⟩
  · decide
  · show "day" ∈ eventCols
    decide

theorem publisherFilterStep_sem (df : Frame) (w : WherePred)
    (h : pubRecognizedB w = true) :
    publisherFilterStep df w = .ok (df.filterRows (fun r => pubStepSem w r)) := by
  rcases pubRecognizedB_cases h with rfl | ⟨v, rfl⟩ | ⟨d, rfl⟩ | ⟨lo, hi, rfl⟩
  · rw [filterRows_of_true df (fun r => pubStepSem typeEqImp r) fun r => rfl]
    rfl
  · rfl
  · rfl
  · rfl

theorem minuteFilterStep_sem (df : Frame) (w : WherePred)
    (h : minuteRecognizedB w = true) :
    minuteFilterStep df w = .ok (df.filterRows (fun r => minuteStepSem w r)) := by
  rcases minuteRecognizedB_cases h with rfl | ⟨d, rfl⟩
  · rw [filterRows_of_true df (fun r => minuteStepSem typeEqImp r) fun r => rfl]
    rfl
  · rfl

theorem filterRows_filterRows (df : Frame) (p q : Row → Bool) :
    (df.filterRows p).filterRows q = df.filterRows (fun r => p r && q r) := by
  unfold Frame.filterRows
  rw [List.filter_filter]
  congr 1
  exact List.filter_congr fun r _ => Bool.and_comm _ _

theorem foldlM_pubFilter (ws : List WherePred) (df : Frame)
    (h : ∀ w ∈ ws, pubRecognizedB w = true) :
    ws.foldlM publisherFilterStep df =
      .ok (df.filterRows (fun r => ws.all (fun w => pubStepSem w r))) := by
  induction ws generalizing df with
  | nil =>
      rw [filterRows_of_true df
        (fun r => List.all [] (fun w => pubStepSem w r)) fun r => rfl]
      rfl
  | cons w ws ih =>
      rw [List.foldlM_cons, publisherFilterStep_sem df w (h w (List.mem_cons_self _ _)),
        exceptBind_ok, ih _ (fun w' hw' => h w' (List.mem_cons_of_mem _ hw')),
        filterRows_filterRows]
      simp [List.all_cons]

theorem foldlM_minuteFilter (ws : List WherePred) (df : Frame)
    (h : ∀ w ∈ ws, minuteRecognizedB w = true) :
    ws.foldlM minuteFilterStep df =
      .ok (df.filterRows (fun r => ws.all (fun w => minuteStepSem w r))) := by
  induction ws generalizing df with
  | nil =>
      rw [filterRows_of_true df
        (fun r => List.all [] (fun w => minuteStepSem w r)) fun r => rfl]
      rfl
  | cons w ws ih =>
      rw [List.foldlM_cons, minuteFilterStep_sem df w (h w (List.mem_cons_self _ _)),
        exceptBind_ok, ih _ (fun w' hw' => h w' (List.mem_cons_of_mem _ hw')),
        filterRows_filterRows]
      simp [List.all_cons]

/-- The scan executor on a canonical aggregate query: one group-by over
the filtered loaded events, projected onto the select columns, then the
requested ordering. -/
theorem executeScan_canonical (store : List Event) (q : Query) (F A : String)
    (a : AggExpr) (evs : List Event) (out : Frame)
    (hsel : q.select = q.group_by.map SelectItem.col ++ [SelectItem.agg F A])
    (ha : aggExprsOf [SelectItem.agg F A] = [a])
    (hname : strLower F ++ "(" ++ A ++ ")" = a.outName)
    (htypes : loadedEvents store (determinePartitions q.where_).1 = evs)
    (hne : evs ≠ [])
    (hgne : q.group_by ≠ [])
    (hgev : ∀ c ∈ q.group_by, c ∈ eventCols)
    (hwev : ∀ w ∈ q.where_, w.col ∈ eventCols)
    (hrec : ∀ w ∈ q.where_, scanRecognizedB w = true)
    (haev : ∀ c ∈ a.colNeeded.toList, c ∈ eventCols)
    (hnodup : (q.group_by ++ [a.outName]).Nodup)
    (hout : out = ⟨q.group_by ++ [a.outName],
      (dedupFirst ((evs.filter (fun e =>
          q.where_.all (fun w => canonPredSem w e))).map
            (fun e => keyOf q.group_by e.row))).map (fun κ =>
        q.group_by.zip κ ++ [(a.outName,
          aggEval (((evs.filter (fun e =>
              q.where_.all (fun w => canonPredSem w e))).filter
            (fun e => keyOf q.group_by e.row == κ)).map Event.row) a)])⟩) :
    executeScan store q =
      .ok (if q.order_by.isEmpty then out else applyOrderBy out q.order_by) := by
  subst hout
  have hsne : evs.isEmpty = false := by
    cases evs with
    | nil => exact absurd rfl hne
    | cons _ _ => rfl
  obtain ⟨c0, g0, hg0⟩ : ∃ c0 g0, q.group_by = c0 :: g0 := by
    cases hgb : q.group_by with
    | nil => exact absurd hgb hgne
    | cons c0 g0 => exact ⟨c0, g0, rfl⟩
  have hc0col : c0 ∈ determineColumns q.select q.where_ q.group_by q.order_by :=
    mem_determineColumns_group _ _ _ _ c0 (by rw [hg0]; exact List.mem_cons_self _ _)
  have hc0av : c0 ∈ (determineColumns q.select q.where_ q.group_by
      q.order_by).filter (fun c => c ∈ eventCols) :=
    List.mem_filter.mpr ⟨hc0col, by
      simpa using hgev c0 (by rw [hg0]; exact List.mem_cons_self _ _)⟩
  have havne : ((determineColumns q.select q.where_ q.group_by
      q.order_by).filter (fun c => c ∈ eventCols)).isEmpty = false := by
    cases hav : (determineColumns q.select q.where_ q.group_by
        q.order_by).filter (fun c => c ∈ eventCols) with
    | nil => rw [hav] at hc0av; cases hc0av
    | cons _ _ => rfl
  have hload : loadPartitions store (determinePartitions q.where_).1
      (determinePartitions q.where_).2
      (determineColumns q.select q.where_ q.group_by q.order_by) =
      ⟨(determineColumns q.select q.where_ q.group_by q.order_by).filter
          (fun c => c ∈ eventCols),
        evs.map (fun e => projectRow ((determineColumns q.select q.where_
          q.group_by q.order_by).filter (fun c => c ∈ eventCols)) e.row)⟩ := by
    show (if (loadedEvents store (determinePartitions q.where_).1).isEmpty = true
      then (⟨[], []⟩ : Frame)
      else if ((determineColumns q.select q.where_ q.group_by q.order_by).filter
          (fun c => c ∈ eventCols)).isEmpty = true
        then ⟨eventCols,
          (loadedEvents store (determinePartitions q.where_).1).map Event.row⟩
        else ⟨(determineColumns q.select q.where_ q.group_by q.order_by).filter
            (fun c => c ∈ eventCols),
          (loadedEvents store (determinePartitions q.where_).1).map
            (fun e => projectRow ((determineColumns q.select q.where_ q.group_by
              q.order_by).filter (fun c => c ∈ eventCols)) e.row)⟩) = _
    rw [htypes, hsne, havne]
    simp
  have hwavail : ∀ w ∈ q.where_, w.col ∈ (determineColumns q.select q.where_
      q.group_by q.order_by).filter (fun c => c ∈ eventCols) := by
    intro w hw
    exact List.mem_filter.mpr ⟨mem_determineColumns_where _ _ _ _ w hw,
      by simpa using hwev w hw⟩
  have hgavail : ∀ c ∈ q.group_by, c ∈ (determineColumns q.select q.where_
      q.group_by q.order_by).filter (fun c => c ∈ eventCols) := by
    intro c hc
    exact List.mem_filter.mpr ⟨mem_determineColumns_group _ _ _ _ c hc,
      by simpa using hgev c hc⟩
  have haavail : ∀ c ∈ a.colNeeded.toList, c ∈ (determineColumns q.select
      q.where_ q.group_by q.order_by).filter (fun c => c ∈ eventCols) := by
    intro c hc
    have hcA : c = A := aggExprsOf_single_needed ha c hc
    have hcev : c ∈ eventCols := haev c hc
    have hAev : A ∈ eventCols := hcA ▸ hcev
    have hAne : A ≠ "*" := by
      intro hA
      rw [hA] at hAev
      exact absurd hAev (by decide)
    have hmem : SelectItem.agg F A ∈ q.select := by
      rw [hsel]
      exact List.mem_append_right _ (List.mem_cons_self _ _)
    subst hcA
    exact List.mem_filter.mpr
      ⟨mem_determineColumns_agg _ _ _ _ F c hmem hAne, by simpa using hcev⟩
  have hgisE : q.group_by.isEmpty = false := by rw [hg0]; rfl
  show (applyFilters (loadPartitions store (determinePartitions q.where_).1
        (determinePartitions q.where_).2
        (determineColumns q.select q.where_ q.group_by q.order_by)) q.where_ >>=
      fun df => applySelect df q.select q.group_by >>= fun df =>
        Except.ok (if q.order_by.isEmpty then df
          else applyOrderBy df q.order_by)) = _
  rw [hload, applyFilters_canon _ q.where_ evs hrec hwavail, exceptBind_ok]
  have hselstep : applySelect ⟨(determineColumns q.select q.where_ q.group_by
        q.order_by).filter (fun c => c ∈ eventCols),
      (evs.filter (fun e => q.where_.all (fun w => canonPredSem w e))).map
        (fun e => projectRow ((determineColumns q.select q.where_ q.group_by
          q.order_by).filter (fun c => c ∈ eventCols)) e.row)⟩
      q.select q.group_by =
      .ok ⟨q.group_by ++ [a.outName],
        (dedupFirst ((evs.filter (fun e =>
            q.where_.all (fun w => canonPredSem w e))).map
              (fun e => keyOf q.group_by e.row))).map (fun κ =>
          q.group_by.zip κ ++ [(a.outName,
            aggEval (((evs.filter (fun e =>
                q.where_.all (fun w => canonPredSem w e))).filter
              (fun e => keyOf q.group_by e.row == κ)).map Event.row) a)])⟩ := by
    show (if q.group_by.isEmpty = true then _ else
      (groupByAgg _ q.group_by (aggExprsOf q.select) >>= fun grouped =>
        grouped.select (selectColsOf q.select))) = _
    rw [hgisE]
    simp only [Bool.false_eq_true, if_false]
    have haggs : aggExprsOf q.select = [a] := by
      rw [hsel, aggExprsOf_cols_append, ha]
    have hcols2 : selectColsOf q.select = q.group_by ++ [a.outName] := by
      rw [hsel, selectColsOf_cols_append]
      congr 1
      show [strLower F ++ "(" ++ A ++ ")"] = [a.outName]
      rw [hname]
    rw [haggs, hcols2]
    rw [groupByAgg_proj _ _ q.group_by [a]
      ⟨hgavail, fun a' ha' c hc => by
        rcases List.mem_singleton.mp ha' with rfl
        exact haavail c hc, by simpa using hnodup⟩]
    rw [exceptBind_ok]
    show Frame.select _ (q.group_by ++ [a.outName]) = _
    unfold Frame.select
    rw [if_pos ⟨fun c hc => by simpa using hc, hnodup⟩]
    congr 1
    rw [List.map_map]
    refine congrArg (Frame.mk (q.group_by ++ [a.outName]))
      (List.map_congr_left fun κ hκ => ?_)
    obtain ⟨e0, he0, hκe⟩ := List.mem_map.mp ((mem_dedupFirst _ _).mp hκ)
    rw [Function.comp_apply]
    simp only [List.map_cons, List.map_nil]
    have hlen : κ.length = q.group_by.length := by
      rw [← hκe, keyOf_length]
    have hfst : (q.group_by.zip κ ++ [(a.outName,
        aggEval (((evs.filter (fun e => q.where_.all (fun w => canonPredSem w e))).filter
          (fun e => keyOf q.group_by e.row == κ)).map
            (fun e => projectRow ((determineColumns q.select q.where_ q.group_by
              q.order_by).filter (fun c => c ∈ eventCols)) e.row)) a)]).map
        Prod.fst = q.group_by ++ [a.outName] := by
      rw [List.map_append, List.map_fst_zip _ _ (by rw [hlen])]
      rfl
    rw [projectRow_self _ _ hfst hnodup, aggEval_proj_inv _ _ a haavail]
  rw [hselstep, exceptBind_ok]

/-- A rollup builder's group-by, with the projection pushed away. -/
theorem groupByAgg_builder (cols : List String) (evs : List Event)
    (G : List String) (aggs : List AggExpr)
    (hvalid : (∀ c ∈ G, c ∈ cols) ∧
      (∀ a ∈ aggs, ∀ c ∈ a.colNeeded.toList, c ∈ cols) ∧
      (G ++ aggs.map AggExpr.outName).Nodup) :
    groupByAgg (builderFrame evs cols) G aggs =
      .ok ⟨G ++ aggs.map AggExpr.outName,
        (dedupFirst (evs.map (fun e => keyOf G e.row))).map (fun k =>
          G.zip k ++ aggs.map (fun a =>
            (a.outName, aggEval ((evs.filter
              (fun e => keyOf G e.row == k)).map Event.row) a)))⟩ := by
  show groupByAgg ⟨cols, evs.map (fun e => projectRow cols e.row)⟩ G aggs = _
  rw [groupByAgg_proj cols evs G aggs hvalid]
  refine congrArg Except.ok (congrArg (Frame.mk _)
    (List.map_congr_left fun k hk => ?_))
  refine congrArg (fun L => G.zip k ++ L) (List.map_congr_left fun a' ha' => ?_)
  rw [aggEval_proj_inv cols _ a' (hvalid.2.1 a' ha')]

/-- A lone canonical `type eq T` filter drops nothing from `type=T`
partitions. -/
theorem filter_typeEq_self (store : List Event) (T : String) :
    (typeRows store T).filter (fun e =>
      ([(⟨"type", "eq", PredVal.s (Value.str T)⟩ : WherePred)] :
        List WherePred).all (fun w => canonPredSem w e)) = typeRows store T := by
  refine List.filter_eq_self.mpr fun e he => ?_
  have ht := typeRows_type e he
  simp [canonPredSem, ht]

/-- The empty filter list drops nothing. -/
theorem filter_canon_nil (evs : List Event) :
    evs.filter (fun e =>
      ([] : List WherePred).all (fun w => canonPredSem w e)) = evs :=
  List.filter_eq_self.mpr fun e _ => rfl



/-- `rename` on an explicit frame. -/
theorem rename_mk (cols : List String) (rows : List Row) (old nw : String)
    (h : old ∈ cols) :
    Frame.rename ⟨cols, rows⟩ old nw =
      .ok ⟨cols.map (fun c => if c = old then nw else c),
        rows.map (renameKey old nw)⟩ := by
  show (if old ∈ cols then _ else _) = _
  rw [if_pos h]

/-- `select` on an explicit frame. -/
theorem select_mk (cols : List String) (rows : List Row) (cs : List String)
    (h1 : ∀ c ∈ cs, c ∈ cols) (h2 : cs.Nodup) :
    Frame.select ⟨cols, rows⟩ cs = .ok ⟨cs, rows.map (projectRow cs)⟩ := by
  show (if (∀ c ∈ cs, c ∈ cols) ∧ cs.Nodup then _ else _) = _
  rw [if_pos ⟨h1, h2⟩]

/-- Routing equivalence for the canonical CountryPurchases shape: the
two paths return identical frames. -/
theorem equiv_country (store : List Event) (q : Query)
    (hc : CanonicalCountry store q) :
    ∃ f g, executeQueryResult store q = .ok f ∧ executeScan store q = .ok g ∧
      FrameEquiv f g := by
  obtain ⟨hsel, hws, hg, hstore⟩ := hc
  obtain ⟨sel, ws, g, ob⟩ := q
  simp only [Query.select] at hsel
  simp only [Query.where_] at hws
  simp only [Query.group_by] at hg
  subst hsel; subst hws; subst hg
  have hisE : (purchase_rows store).isEmpty = false := by
    cases h : purchase_rows store with
    | nil => exact absurd h hstore
    | cons _ _ => rfl
  have hscan := executeScan_canonical store
    ⟨[.col "country", .agg "AVG" "total_price"], [typeEqPurchase], ["country"], ob⟩
    "AVG" "total_price" (AggExpr.mean "total_price" "avg(total_price)")
    (purchase_rows store) _ rfl (by decide) (by decide)
    (by rw [show (determinePartitions [typeEqPurchase]).1 =
          [PredVal.s (Value.str "purchase")] from rfl]
        exact loadedEvents_single store "purchase")
    hstore
    (by show (["country"] : List String) ≠ []
        decide)
    (by show ∀ c ∈ (["country"] : List String), c ∈ eventCols
        decide)
    (by show ∀ w ∈ ([typeEqPurchase] : List WherePred), w.col ∈ eventCols
        decide)
    (by show ∀ w ∈ ([typeEqPurchase] : List WherePred), scanRecognizedB w = true
        decide)
    (by decide)
    (by show ((["country"] : List String) ++ ["avg(total_price)"]).Nodup
        decide)
    rfl
  have hagg := groupByAgg_builder ["country", "total_price"] (purchase_rows store)
    ["country"]
    [.sum "total_price" "sum_total_price", .mean "total_price" "avg_total_price",
     .count "total_price" "count_purchases"]
    ⟨by decide, by decide, by decide⟩
  dsimp only [List.map_cons, List.map_nil, AggExpr.outName, List.cons_append,
    List.nil_append] at hagg hscan
  have hfilt : (purchase_rows store).filter (fun e =>
      ([typeEqPurchase] : List WherePred).all (fun w => canonPredSem w e)) =
      purchase_rows store := filter_typeEq_self store "purchase"
  have hroute : route ⟨[.col "country", .agg "AVG" "total_price"],
      [typeEqPurchase], ["country"], ob⟩ = some Shape.countryPurchases := by
    show matched_shape [.col "country", .agg "AVG" "total_price"]
      [typeEqPurchase] ["country"] = some Shape.countryPurchases
    decide
  have hrows : ∀ k ∈ dedupFirst ((purchase_rows store).map
      (fun e => keyOf ["country"] e.row)),
      projectRow ["country", "avg(total_price)"]
        (renameKey "avg_total_price" "avg(total_price)"
          (["country"].zip k ++
            [("sum_total_price", aggEval (((purchase_rows store).filter
                (fun e => keyOf ["country"] e.row == k)).map Event.row)
              (AggExpr.sum "total_price" "sum_total_price")),
             ("avg_total_price", aggEval (((purchase_rows store).filter
                (fun e => keyOf ["country"] e.row == k)).map Event.row)
              (AggExpr.mean "total_price" "avg_total_price")),
             ("count_purchases", aggEval (((purchase_rows store).filter
                (fun e => keyOf ["country"] e.row == k)).map Event.row)
              (AggExpr.count "total_price" "count_purchases"))])) =
        ["country"].zip k ++
          [("avg(total_price)", aggEval (((purchase_rows store).filter
              (fun e => keyOf ["country"] e.row == k)).map Event.row)
            (AggExpr.mean "total_price" "avg(total_price)"))] := by
    intro k hk
    obtain ⟨e0, he0, hke⟩ := List.mem_map.mp ((mem_dedupFirst _ _).mp hk)
    obtain ⟨v, rfl⟩ : ∃ v, k = [v] :=
      ⟨getCol e0.row "country", by rw [← hke]; rfl⟩
    rw [show aggEval (((purchase_rows store).filter
        (fun e => keyOf ["country"] e.row == [v])).map Event.row)
        (AggExpr.mean "total_price" "avg_total_price") =
      aggEval (((purchase_rows store).filter
        (fun e => keyOf ["country"] e.row == [v])).map Event.row)
        (AggExpr.mean "total_price" "avg(total_price)") from rfl]
    simp [renameKey, projectRow, getCol, List.lookup]
  have hequal : executeQueryResult store
      ⟨[.col "country", .agg "AVG" "total_price"], [typeEqPurchase],
        ["country"], ob⟩ =
      executeScan store ⟨[.col "country", .agg "AVG" "total_price"],
        [typeEqPurchase], ["country"], ob⟩ := by
    rw [hscan]
    simp only [executeQueryResult, hroute]
    show (load_aggregate store .countryPurchases >>= fun df =>
      df.rename "avg_total_price" "avg(total_price)" >>= fun df =>
      df.select ["country", "avg(total_price)"] >>= fun df =>
      Except.ok (if ob.isEmpty then df else applyOrderBy df ob)) = _
    rw [show load_aggregate store Shape.countryPurchases =
        country_purchases_agg store from by
      simp only [load_aggregate, hisE, Bool.false_eq_true, if_false]]
    rw [show country_purchases_agg store = groupByAgg
      (builderFrame (purchase_rows store) ["country", "total_price"]) ["country"]
      [.sum "total_price" "sum_total_price", .mean "total_price" "avg_total_price",
       .count "total_price" "count_purchases"] from rfl]
    rw [hagg, exceptBind_ok, rename_mk, exceptBind_ok]
    rw [show List.map (fun c => if c = "avg_total_price" then "avg(total_price)"
        else c) ["country", "sum_total_price", "avg_total_price",
          "count_purchases"] =
      ["country", "sum_total_price", "avg(total_price)", "count_purchases"]
      from rfl]
    rw [select_mk, exceptBind_ok]
    refine congrArg (fun fr =>
      Except.ok (if ob.isEmpty then fr else applyOrderBy fr ob)) ?_
    rw [hfilt]
    refine congrArg (Frame.mk _) ?_
    rw [List.map_map, List.map_map]
    refine List.map_congr_left fun k hk => ?_
    rw [Function.comp_apply, Function.comp_apply]
    exact hrows k hk
    all_goals decide
  exact ⟨_, _, hequal.trans hscan, hscan, rfl, List.Perm.refl _⟩

/-- Routing equivalence for the canonical AdvertiserType shape: the two
paths return identical frames. -/
theorem equiv_advertiser (store : List Event) (q : Query)
    (hc : CanonicalAdvertiser store q) :
    ∃ f g, executeQueryResult store q = .ok f ∧ executeScan store q = .ok g ∧
      FrameEquiv f g := by
  obtain ⟨hsel, hws, hg, hstore⟩ := hc
  obtain ⟨sel, ws, g, ob⟩ := q
  simp only [Query.select] at hsel
  simp only [Query.where_] at hws
  simp only [Query.group_by] at hg
  subst hsel; subst hws; subst hg
  have hisE : (all_type_rows store).isEmpty = false := by
    cases h : all_type_rows store with
    | nil => exact absurd h hstore
    | cons _ _ => rfl
  have hscan := executeScan_canonical store
    ⟨[.col "advertiser_id", .col "type", .agg "COUNT" "*"], [],
      ["advertiser_id", "type"], ob⟩
    "COUNT" "*" (AggExpr.len "count(*)") (all_type_rows store) _ rfl
    (by decide) (by decide)
    (by show loadedEvents store (determinePartitions []).1 = all_type_rows store
        rfl)
    hstore
    (by show (["advertiser_id", "type"] : List String) ≠ []
        decide)
    (by show ∀ c ∈ (["advertiser_id", "type"] : List String), c ∈ eventCols
        decide)
    (by show ∀ w ∈ ([] : List WherePred), w.col ∈ eventCols
        decide)
    (by show ∀ w ∈ ([] : List WherePred), scanRecognizedB w = true
        decide)
    (by decide)
    (by show ((["advertiser_id", "type"] : List String) ++ ["count(*)"]).Nodup
        decide)
    rfl
  have hagg := groupByAgg_builder ["advertiser_id", "type"] (all_type_rows store)
    ["advertiser_id", "type"] [.len "count"] ⟨by decide, by decide, by decide⟩
  dsimp only [List.map_cons, List.map_nil, AggExpr.outName, List.cons_append,
    List.nil_append] at hagg hscan
  have hfilt : (all_type_rows store).filter (fun e =>
      ([] : List WherePred).all (fun w => canonPredSem w e)) =
      all_type_rows store := filter_canon_nil (all_type_rows store)
  have hroute : route ⟨[.col "advertiser_id", .col "type", .agg "COUNT" "*"],
      [], ["advertiser_id", "type"], ob⟩ = some Shape.advertiserType := by
    show matched_shape [.col "advertiser_id", .col "type", .agg "COUNT" "*"]
      [] ["advertiser_id", "type"] = some Shape.advertiserType
    decide
  have hrows : ∀ k ∈ dedupFirst ((all_type_rows store).map
      (fun e => keyOf ["advertiser_id", "type"] e.row)),
      projectRow ["advertiser_id", "type", "count(*)"]
        (renameKey "count" "count(*)"
          (["advertiser_id", "type"].zip k ++
            [("count", aggEval (((all_type_rows store).filter
                (fun e => keyOf ["advertiser_id", "type"] e.row == k)).map
                  Event.row)
              (AggExpr.len "count"))])) =
        ["advertiser_id", "type"].zip k ++
          [("count(*)", aggEval (((all_type_rows store).filter
              (fun e => keyOf ["advertiser_id", "type"] e.row == k)).map
                Event.row)
            (AggExpr.len "count(*)"))] := by
    intro k hk
    obtain ⟨e0, he0, hke⟩ := List.mem_map.mp ((mem_dedupFirst _ _).mp hk)
    obtain ⟨v1, v2, rfl⟩ : ∃ v1 v2, k = [v1, v2] :=
      ⟨getCol e0.row "advertiser_id", getCol e0.row "type", by rw [← hke]; rfl⟩
    rw [show aggEval (((all_type_rows store).filter
        (fun e => keyOf ["advertiser_id", "type"] e.row == [v1, v2])).map
          Event.row) (AggExpr.len "count") =
      aggEval (((all_type_rows store).filter
        (fun e => keyOf ["advertiser_id", "type"] e.row == [v1, v2])).map
          Event.row) (AggExpr.len "count(*)") from rfl]
    simp [renameKey, projectRow, getCol, List.lookup]
  have hequal : executeQueryResult store
      ⟨[.col "advertiser_id", .col "type", .agg "COUNT" "*"], [],
        ["advertiser_id", "type"], ob⟩ =
      executeScan store ⟨[.col "advertiser_id", .col "type", .agg "COUNT" "*"],
        [], ["advertiser_id", "type"], ob⟩ := by
    rw [hscan]
    simp only [executeQueryResult, hroute]
    show (load_aggregate store .advertiserType >>= fun df =>
      df.rename "count" "count(*)" >>= fun df =>
      df.select ["advertiser_id", "type", "count(*)"] >>= fun df =>
      Except.ok (if ob.isEmpty then df else applyOrderBy df ob)) = _
    rw [show load_aggregate store Shape.advertiserType =
        advertiser_type_counts_agg store from by
      simp only [load_aggregate, hisE, Bool.false_eq_true, if_false]]
    rw [show advertiser_type_counts_agg store = groupByAgg
      (builderFrame (all_type_rows store) ["advertiser_id", "type"])
      ["advertiser_id", "type"] [.len "count"] from rfl]
    rw [hagg, exceptBind_ok, rename_mk, exceptBind_ok]
    rw [show List.map (fun c => if c = "count" then "count(*)" else c)
        ["advertiser_id", "type", "count"] =
      ["advertiser_id", "type", "count(*)"] from rfl]
    rw [select_mk, exceptBind_ok]
    refine congrArg (fun fr =>
      Except.ok (if ob.isEmpty then fr else applyOrderBy fr ob)) ?_
    rw [hfilt]
    refine congrArg (Frame.mk _) ?_
    rw [List.map_map, List.map_map]
    refine List.map_congr_left fun k hk => ?_
    rw [Function.comp_apply, Function.comp_apply]
    exact hrows k hk
    all_goals decide
  exact ⟨_, _, hequal.trans hscan, hscan, rfl, List.Perm.refl _⟩

theorem sortByCol_mk (cols : List String) (rows : List Row) (c : String)
    (d : Bool) :
    sortByCol ⟨cols, rows⟩ c d =
      ⟨cols, List.insertionSort (fun a b => rowLE c d a b = true) rows⟩ := rfl

/-- Routing equivalence for the canonical DailyRevenue shape: identical
frames up to row order (the rollup is stored sorted by day and the
rollup path ignores `order_by`). -/
theorem equiv_daily (store : List Event) (q : Query)
    (hc : CanonicalDaily store q) :
    ∃ f g, executeQueryResult store q = .ok f ∧ executeScan store q = .ok g ∧
      FrameEquiv f g := by
  obtain ⟨hsel, hws, hg, hstore⟩ := hc
  obtain ⟨sel, ws, g, ob⟩ := q
  simp only [Query.select] at hsel
  simp only [Query.where_] at hws
  simp only [Query.group_by] at hg
  subst hsel; subst hws; subst hg
  have hisE : (impression_rows store).isEmpty = false := by
    cases h : impression_rows store with
    | nil => exact absurd h hstore
    | cons _ _ => rfl
  have hscan := executeScan_canonical store
    ⟨[.col "day", .agg "SUM" "bid_price"], [typeEqImp], ["day"], ob⟩
    "SUM" "bid_price" (AggExpr.sum "bid_price" "sum(bid_price)")
    (impression_rows store) _ rfl (by decide) (by decide)
    (by rw [show (determinePartitions [typeEqImp]).1 =
          [PredVal.s (Value.str "impression")] from rfl]
        exact loadedEvents_single store "impression")
    hstore
    (by show (["day"] : List String) ≠ []
        decide)
    (by show ∀ c ∈ (["day"] : List String), c ∈ eventCols
        decide)
    (by show ∀ w ∈ ([typeEqImp] : List WherePred), w.col ∈ eventCols
        decide)
    (by show ∀ w ∈ ([typeEqImp] : List WherePred), scanRecognizedB w = true
        decide)
    (by decide)
    (by show ((["day"] : List String) ++ ["sum(bid_price)"]).Nodup
        decide)
    rfl
  have hagg := groupByAgg_builder ["day", "bid_price"] (impression_rows store)
    ["day"]
    [.sum "bid_price" "sum_bid_price", .count "bid_price" "count_impressions"]
    ⟨by decide, by decide, by decide⟩
  dsimp only [List.map_cons, List.map_nil, AggExpr.outName, List.cons_append,
    List.nil_append] at hagg hscan
  have hfilt : (impression_rows store).filter (fun e =>
      ([typeEqImp] : List WherePred).all (fun w => canonPredSem w e)) =
      impression_rows store := filter_typeEq_self store "impression"
  have hroute : route ⟨[.col "day", .agg "SUM" "bid_price"], [typeEqImp],
      ["day"], ob⟩ = some Shape.daily := by
    show matched_shape [.col "day", .agg "SUM" "bid_price"] [typeEqImp] ["day"] =
      some Shape.daily
    decide
  have hrows : ∀ k ∈ dedupFirst ((impression_rows store).map
      (fun e => keyOf ["day"] e.row)),
      (projectRow ["day", "sum(bid_price)"] ∘
        renameKey "sum_bid_price" "sum(bid_price)")
        (["day"].zip k ++
          [("sum_bid_price", aggEval (((impression_rows store).filter
              (fun e => keyOf ["day"] e.row == k)).map Event.row)
            (AggExpr.sum "bid_price" "sum_bid_price")),
           ("count_impressions", aggEval (((impression_rows store).filter
              (fun e => keyOf ["day"] e.row == k)).map Event.row)
            (AggExpr.count "bid_price" "count_impressions"))]) =
        ["day"].zip k ++
          [("sum(bid_price)", aggEval (((impression_rows store).filter
              (fun e => keyOf ["day"] e.row == k)).map Event.row)
            (AggExpr.sum "bid_price" "sum(bid_price)"))] := by
    intro k hk
    obtain ⟨e0, he0, hke⟩ := List.mem_map.mp ((mem_dedupFirst _ _).mp hk)
    obtain ⟨v, rfl⟩ : ∃ v, k = [v] :=
      ⟨getCol e0.row "day", by rw [← hke]; rfl⟩
    rw [Function.comp_apply]
    rw [show aggEval (((impression_rows store).filter
        (fun e => keyOf ["day"] e.row == [v])).map Event.row)
        (AggExpr.sum "bid_price" "sum_bid_price") =
      aggEval (((impression_rows store).filter
        (fun e => keyOf ["day"] e.row == [v])).map Event.row)
        (AggExpr.sum "bid_price" "sum(bid_price)") from rfl]
    simp [renameKey, projectRow, getCol, List.lookup]
  have hroll : executeQueryResult store
      ⟨[.col "day", .agg "SUM" "bid_price"], [typeEqImp], ["day"], ob⟩ =
      .ok ⟨["day", "sum(bid_price)"],
        List.map (projectRow ["day", "sum(bid_price)"])
          (List.map (renameKey "sum_bid_price" "sum(bid_price)")
            (List.insertionSort (fun a b => rowLE "day" false a b = true)
              ((dedupFirst ((impression_rows store).map
                (fun e => keyOf ["day"] e.row))).map (fun k =>
                ["day"].zip k ++
                  [("sum_bid_price", aggEval (((impression_rows store).filter
                      (fun e => keyOf ["day"] e.row == k)).map Event.row)
                    (AggExpr.sum "bid_price" "sum_bid_price")),
                   ("count_impressions", aggEval (((impression_rows store).filter
                      (fun e => keyOf ["day"] e.row == k)).map Event.row)
                    (AggExpr.count "bid_price" "count_impressions"))]))))⟩ := by
    simp only [executeQueryResult, hroute]
    show (load_aggregate store .daily >>= fun df =>
      df.rename "sum_bid_price" "sum(bid_price)" >>= fun df =>
      df.select ["day", "sum(bid_price)"]) = _
    rw [show load_aggregate store Shape.daily = daily_revenue_agg store from by
      simp only [load_aggregate, hisE, Bool.false_eq_true, if_false]]
    show (groupByAgg (builderFrame (impression_rows store) ["day", "bid_price"])
        ["day"]
        [.sum "bid_price" "sum_bid_price", .count "bid_price" "count_impressions"]
        >>= fun f => Except.ok (sortByCol f "day" false)) >>= (fun df =>
      df.rename "sum_bid_price" "sum(bid_price)" >>= fun df =>
      df.select ["day", "sum(bid_price)"]) = _
    rw [hagg, exceptBind_ok, exceptBind_ok, sortByCol_mk, rename_mk,
      exceptBind_ok]
    rw [show List.map (fun c => if c = "sum_bid_price" then "sum(bid_price)"
        else c) ["day", "sum_bid_price", "count_impressions"] =
      ["day", "sum(bid_price)", "count_impressions"] from rfl]
    rw [select_mk]
    all_goals decide
  have hc : List.map ((projectRow ["day", "sum(bid_price)"] ∘
        renameKey "sum_bid_price" "sum(bid_price)") ∘ (fun k =>
        ["day"].zip k ++
          [("sum_bid_price", aggEval (((impression_rows store).filter
              (fun e => keyOf ["day"] e.row == k)).map Event.row)
            (AggExpr.sum "bid_price" "sum_bid_price")),
           ("count_impressions", aggEval (((impression_rows store).filter
              (fun e => keyOf ["day"] e.row == k)).map Event.row)
            (AggExpr.count "bid_price" "count_impressions"))]))
        (dedupFirst ((impression_rows store).map
          (fun e => keyOf ["day"] e.row))) =
      List.map (fun k => ["day"].zip k ++
          [("sum(bid_price)", aggEval (((impression_rows store).filter
              (fun e => keyOf ["day"] e.row == k)).map Event.row)
            (AggExpr.sum "bid_price" "sum(bid_price)"))])
        (dedupFirst ((impression_rows store).map
          (fun e => keyOf ["day"] e.row))) :=
    List.map_congr_left fun k hk => hrows k hk
  refine ⟨_, _, hroll, hscan, ?_, ?_⟩
  · cases hob : ob.isEmpty with
    | true => rw [if_pos rfl]
    | false => rw [if_neg (by decide), applyOrderBy_cols]
  · rw [hfilt]
    rw [show List.map (projectRow ["day", "sum(bid_price)"])
        (List.map (renameKey "sum_bid_price" "sum(bid_price)")
          (List.insertionSort (fun a b => rowLE "day" false a b = true)
            ((dedupFirst ((impression_rows store).map
              (fun e => keyOf ["day"] e.row))).map (fun k =>
              ["day"].zip k ++
                [("sum_bid_price", aggEval (((impression_rows store).filter
                    (fun e => keyOf ["day"] e.row == k)).map Event.row)
                  (AggExpr.sum "bid_price" "sum_bid_price")),
                 ("count_impressions", aggEval (((impression_rows store).filter
                    (fun e => keyOf ["day"] e.row == k)).map Event.row)
                  (AggExpr.count "bid_price" "count_impressions"))])))) =
      List.map (projectRow ["day", "sum(bid_price)"] ∘
          renameKey "sum_bid_price" "sum(bid_price)")
        (List.insertionSort (fun a b => rowLE "day" false a b = true)
          ((dedupFirst ((impression_rows store).map
            (fun e => keyOf ["day"] e.row))).map (fun k =>
            ["day"].zip k ++
              [("sum_bid_price", aggEval (((impression_rows store).filter
                  (fun e => keyOf ["day"] e.row == k)).map Event.row)
                (AggExpr.sum "bid_price" "sum_bid_price")),
               ("count_impressions", aggEval (((impression_rows store).filter
                  (fun e => keyOf ["day"] e.row == k)).map Event.row)
                (AggExpr.count "bid_price" "count_impressions"))]))) from
      List.map_map _ _ _]
    refine List.Perm.trans (List.Perm.map _ (List.perm_insertionSort _ _)) ?_
    rw [List.map_map, hc]
    cases hob : ob.isEmpty with
    | true =>
        rw [if_pos rfl]
    | false =>
        rw [if_neg (by decide)]
        exact (applyOrderBy_rows_perm ⟨["day", "sum(bid_price)"],
          List.map (fun k => ["day"].zip k ++
            [("sum(bid_price)", aggEval (((impression_rows store).filter
                (fun e => keyOf ["day"] e.row == k)).map Event.row)
              (AggExpr.sum "bid_price" "sum(bid_price)"))])
            (dedupFirst ((impression_rows store).map
              (fun e => keyOf ["day"] e.row)))⟩ ob).symm

theorem filterRows_mk (cols : List String) (rows : List Row) (p : Row → Bool) :
    Frame.filterRows ⟨cols, rows⟩ p = ⟨cols, rows.filter p⟩ := rfl

theorem list_all_congr {α : Type} (xs : List α) (f1 f2 : α → Bool)
    (h : ∀ x ∈ xs, f1 x = f2 x) : xs.all f1 = xs.all f2 := by
  induction xs with
  | nil => rfl
  | cons x xs ih =>
      simp only [List.all_cons, h x (List.mem_cons_self _ _)]
      rw [ih fun x hx => h x (List.mem_cons_of_mem _ hx)]

/-- Routing equivalence for the canonical MinuteRevenue shape: identical
frames.  `day` being the date prefix of `minute` makes the rollup's
finer `[day, minute]` grain coincide with the scan's `[minute]` grain. -/
theorem equiv_minute (store : List Event) (q : Query) (hwf : WellFormedStore store)
    (hc : CanonicalMinute store q) :
    ∃ f g, executeQueryResult store q = .ok f ∧ executeScan store q = .ok g ∧
      FrameEquiv f g := by
  obtain ⟨hsel, hg, hmem, hrecm, hstore⟩ := hc
  obtain ⟨sel, ws, g, ob⟩ := q
  simp only [Query.select] at hsel
  simp only [Query.where_] at hmem hrecm
  simp only [Query.group_by] at hg
  subst hsel; subst hg
  have hisE : (impression_rows store).isEmpty = false := by
    cases h : impression_rows store with
    | nil => exact absurd h hstore
    | cons _ _ => rfl
  have htypes1 : (determinePartitions ws).1 = [PredVal.s (Value.str "impression")] :=
    determinePartitions_types "impression" ws hmem (fun w hw => by
      rcases minuteRecognizedB_cases (hrecm w hw) with rfl | ⟨d, rfl⟩
      · exact Or.inl rfl
      · exact Or.inr (show ("day" : String) ≠ "type" by decide))
  have hscan := executeScan_canonical store
    ⟨[.col "minute", .agg "SUM" "bid_price"], ws, ["minute"], ob⟩
    "SUM" "bid_price" (AggExpr.sum "bid_price" "sum(bid_price)")
    (impression_rows store) _ rfl (by decide) (by decide)
    (by rw [htypes1]; exact loadedEvents_single store "impression")
    hstore
    (show (["minute"] : List String) ≠ [] by decide)
    (show ∀ c ∈ (["minute"] : List String), c ∈ eventCols by decide)
    (fun w hw => minuteRecognizedB_col (hrecm w hw))
    (fun w hw => minuteRecognizedB_scan (hrecm w hw))
    (by decide)
    (show ((["minute"] : List String) ++ ["sum(bid_price)"]).Nodup by decide)
    rfl
  have hagg := groupByAgg_builder ["day", "minute", "bid_price"]
    (impression_rows store) ["day", "minute"] [.sum "bid_price" "sum_bid_price"]
    ⟨by decide, by decide, by decide⟩
  dsimp only [List.map_cons, List.map_nil, AggExpr.outName, List.cons_append,
    List.nil_append] at hagg hscan
  have hroute : route ⟨[.col "minute", .agg "SUM" "bid_price"], ws,
      ["minute"], ob⟩ = some Shape.minuteRevenue := by
    show matched_shape [.col "minute", .agg "SUM" "bid_price"] ws ["minute"] =
      some Shape.minuteRevenue
    have h1 : matches_daily_revenue [.col "minute", .agg "SUM" "bid_price"] ws
        ["minute"] = false := by
      simp [matches_daily_revenue]
    have h2 : matches_publisher_day_revenue
        [.col "minute", .agg "SUM" "bid_price"] ws ["minute"] = false := by
      simp [matches_publisher_day_revenue]
    have h3 : matches_country_purchases [.col "minute", .agg "SUM" "bid_price"]
        ws ["minute"] = false := by
      simp [matches_country_purchases]
    have h4 : matches_advertiser_type [.col "minute", .agg "SUM" "bid_price"]
        ws ["minute"] = false := by
      simp [matches_advertiser_type]
    have h5 : matches_minute_revenue [.col "minute", .agg "SUM" "bid_price"]
        ws ["minute"] = true := by
      unfold matches_minute_revenue typeEqFilter
      simp only [Bool.and_eq_true, List.any_eq_true]
      exact ⟨⟨⟨by decide, by decide⟩, by decide⟩, ⟨typeEqImp, hmem, by decide⟩⟩
    unfold matched_shape
    rw [h1, h2, h3, h4, h5]
    simp
  have hPq : ∀ e ∈ impression_rows store,
      (ws.all fun w => canonPredSem w e) =
      ws.all (fun w => minuteStepSem w
        (["day", "minute"].zip (keyOf ["day", "minute"] e.row) ++
          [("sum_bid_price", aggEval (((impression_rows store).filter
              (fun e2 => keyOf ["day", "minute"] e2.row ==
                keyOf ["day", "minute"] e.row)).map Event.row)
            (AggExpr.sum "bid_price" "sum_bid_price"))])) := by
    intro e he
    refine list_all_congr ws _ _ fun w hw => ?_
    rcases minuteRecognizedB_cases (hrecm w hw) with rfl | ⟨d, rfl⟩
    · have ht := typeRows_type e he
      show (e.type == "impression") = true
      simp [ht]
    · show (e.day == d) = cmpEqV (getCol
        (["day", "minute"].zip (keyOf ["day", "minute"] e.row) ++
          [("sum_bid_price", aggEval (((impression_rows store).filter
              (fun e2 => keyOf ["day", "minute"] e2.row ==
                keyOf ["day", "minute"] e.row)).map Event.row)
            (AggExpr.sum "bid_price" "sum_bid_price"))]) "day") (.date d)
      rw [getCol_zip_key ["day", "minute"] e.row _ "day" (by decide),
        getCol_event_day, cmpEqV_date]
  have hinj : ∀ x ∈ (impression_rows store).map
        (fun e => keyOf ["day", "minute"] e.row),
      ∀ y ∈ (impression_rows store).map
        (fun e => keyOf ["day", "minute"] e.row),
      List.drop 1 x = List.drop 1 y → x = y := by
    intro x hx y hy hxy
    obtain ⟨e1, he1, rfl⟩ := List.mem_map.mp hx
    obtain ⟨e2, he2, rfl⟩ := List.mem_map.mp hy
    have hm : e1.minute = e2.minute := by
      have h1 : List.drop 1 (keyOf ["day", "minute"] e1.row) =
          [Value.str e1.minute] := rfl
      have h2 : List.drop 1 (keyOf ["day", "minute"] e2.row) =
          [Value.str e2.minute] := rfl
      rw [h1, h2] at hxy
      exact Value.str.inj (List.head_eq_of_cons_eq hxy)
    have hd : e1.day = e2.day := by
      rw [hwf e1 (mem_typeRows he1).1, hwf e2 (mem_typeRows he2).1, hm]
    show [getCol e1.row "day", getCol e1.row "minute"] =
      [getCol e2.row "day", getCol e2.row "minute"]
    rw [getCol_event_day, getCol_event_day, getCol_event_minute,
      getCol_event_minute, hm, hd]
  have hK1 : dedupFirst (((impression_rows store).filter
      (fun e => ws.all fun w => canonPredSem w e)).map
        (fun e => keyOf ["minute"] e.row)) =
      ((dedupFirst ((impression_rows store).map
          (fun e => keyOf ["day", "minute"] e.row))).filter
        ((fun r => ws.all fun w => minuteStepSem w r) ∘ (fun k =>
          ["day", "minute"].zip k ++
            [("sum_bid_price", aggEval (((impression_rows store).filter
                (fun e => keyOf ["day", "minute"] e.row == k)).map Event.row)
              (AggExpr.sum "bid_price" "sum_bid_price"))]))).map
        (List.drop 1) := by
    calc dedupFirst (((impression_rows store).filter
          (fun e => ws.all fun w => canonPredSem w e)).map
            (fun e => keyOf ["minute"] e.row))
        = dedupFirst (((impression_rows store).filter
            (((fun r => ws.all fun w => minuteStepSem w r) ∘ (fun k =>
              ["day", "minute"].zip k ++
                [("sum_bid_price", aggEval (((impression_rows store).filter
                    (fun e => keyOf ["day", "minute"] e.row == k)).map Event.row)
                  (AggExpr.sum "bid_price" "sum_bid_price"))])) ∘
              (fun e => keyOf ["day", "minute"] e.row))).map
              (fun e => keyOf ["minute"] e.row)) :=
          congrArg dedupFirst (congrArg
            (List.map (fun e => keyOf ["minute"] e.row))
            (List.filter_congr fun e he => hPq e he))
      _ = dedupFirst ((((impression_rows store).filter
            (((fun r => ws.all fun w => minuteStepSem w r) ∘ (fun k =>
              ["day", "minute"].zip k ++
                [("sum_bid_price", aggEval (((impression_rows store).filter
                    (fun e => keyOf ["day", "minute"] e.row == k)).map Event.row)
                  (AggExpr.sum "bid_price" "sum_bid_price"))])) ∘
              (fun e => keyOf ["day", "minute"] e.row))).map
              (fun e => keyOf ["day", "minute"] e.row)).map (List.drop 1)) := by
          rw [List.map_map]
          exact congrArg dedupFirst (List.map_congr_left fun e _ => rfl)
      _ = dedupFirst ((((impression_rows store).map
            (fun e => keyOf ["day", "minute"] e.row)).filter
            ((fun r => ws.all fun w => minuteStepSem w r) ∘ (fun k =>
              ["day", "minute"].zip k ++
                [("sum_bid_price", aggEval (((impression_rows store).filter
                    (fun e => keyOf ["day", "minute"] e.row == k)).map Event.row)
                  (AggExpr.sum "bid_price" "sum_bid_price"))]))).map
            (List.drop 1)) := by
          rw [List.filter_map]
      _ = (dedupFirst (((impression_rows store).map
            (fun e => keyOf ["day", "minute"] e.row)).filter
            ((fun r => ws.all fun w => minuteStepSem w r) ∘ (fun k =>
              ["day", "minute"].zip k ++
                [("sum_bid_price", aggEval (((impression_rows store).filter
                    (fun e => keyOf ["day", "minute"] e.row == k)).map Event.row)
                  (AggExpr.sum "bid_price" "sum_bid_price"))])))).map
            (List.drop 1) :=
          dedupFirst_map_on (List.drop 1) _ (fun x hx y hy =>
            hinj x (List.mem_of_mem_filter hx) y (List.mem_of_mem_filter hy))
      _ = ((dedupFirst ((impression_rows store).map
            (fun e => keyOf ["day", "minute"] e.row))).filter
          ((fun r => ws.all fun w => minuteStepSem w r) ∘ (fun k =>
            ["day", "minute"].zip k ++
              [("sum_bid_price", aggEval (((impression_rows store).filter
                  (fun e => keyOf ["day", "minute"] e.row == k)).map Event.row)
                (AggExpr.sum "bid_price" "sum_bid_price"))]))).map
          (List.drop 1) := by
          rw [dedupFirst_filter]
  have hptwise : ∀ k ∈ (dedupFirst ((impression_rows store).map
        (fun e => keyOf ["day", "minute"] e.row))).filter
      ((fun r => ws.all fun w => minuteStepSem w r) ∘ (fun k =>
        ["day", "minute"].zip k ++
          [("sum_bid_price", aggEval (((impression_rows store).filter
              (fun e => keyOf ["day", "minute"] e.row == k)).map Event.row)
            (AggExpr.sum "bid_price" "sum_bid_price"))])),
      ((projectRow ["minute", "sum(bid_price)"] ∘
          renameKey "sum_bid_price" "sum(bid_price)") ∘ (fun k =>
        ["day", "minute"].zip k ++
          [("sum_bid_price", aggEval (((impression_rows store).filter
              (fun e => keyOf ["day", "minute"] e.row == k)).map Event.row)
            (AggExpr.sum "bid_price" "sum_bid_price"))])) k =
      ((fun κ => ["minute"].zip κ ++
          [("sum(bid_price)", aggEval ((((impression_rows store).filter
              (fun e => ws.all fun w => canonPredSem w e)).filter
              (fun e => keyOf ["minute"] e.row == κ)).map Event.row)
            (AggExpr.sum "bid_price" "sum(bid_price)"))]) ∘ (List.drop 1)) k := by
    intro k hk
    have hkP := (List.mem_filter.mp hk).2
    obtain ⟨e0, he0, hke⟩ := List.mem_map.mp
      ((mem_dedupFirst _ _).mp (List.mem_filter.mp hk).1)
    rw [← hke] at hkP ⊢
    have hx : keyOf ["day", "minute"] e0.row =
        [Value.date e0.day, Value.str e0.minute] := rfl
    rw [hx] at hkP ⊢
    have hgrp : ((impression_rows store).filter
        (fun e => ws.all fun w => canonPredSem w e)).filter
        (fun e => keyOf ["minute"] e.row == [Value.str e0.minute]) =
        (impression_rows store).filter (fun e =>
          keyOf ["day", "minute"] e.row ==
            [Value.date e0.day, Value.str e0.minute]) := by
      rw [List.filter_filter]
      refine List.filter_congr fun e he => ?_
      by_cases hm : e.minute = e0.minute
      · have hday : e.day = e0.day := by
          rw [hwf e (mem_typeRows he).1, hwf e0 (mem_typeRows he0).1, hm]
        have hbkey : keyOf ["day", "minute"] e.row =
            [Value.date e0.day, Value.str e0.minute] := by
          show [getCol e.row "day", getCol e.row "minute"] = _
          rw [getCol_event_day, getCol_event_minute, hm, hday]
        have hmkey : keyOf ["minute"] e.row = [Value.str e0.minute] := by
          show [getCol e.row "minute"] = _
          rw [getCol_event_minute, hm]
        have hQ : (ws.all fun w => canonPredSem w e) = true := by
          rw [hPq e he, hbkey]
          exact hkP
        simp [hbkey, hmkey, hQ]
      · have hbkey : (keyOf ["day", "minute"] e.row ==
            [Value.date e0.day, Value.str e0.minute]) = false := by
          show ([getCol e.row "day", getCol e.row "minute"] == _) = false
          rw [getCol_event_minute]
          simp [hm]
        have hmkey : (keyOf ["minute"] e.row == [Value.str e0.minute]) = false := by
          show ([getCol e.row "minute"] == _) = false
          rw [getCol_event_minute]
          simp [hm]
        simp [hbkey, hmkey]
    rw [Function.comp_apply, Function.comp_apply, Function.comp_apply]
    rw [show List.drop 1 [Value.date e0.day, Value.str e0.minute] =
      [Value.str e0.minute] from rfl]
    rw [hgrp]
    rw [show aggEval (((impression_rows store).filter (fun e =>
        keyOf ["day", "minute"] e.row ==
          [Value.date e0.day, Value.str e0.minute])).map Event.row)
        (AggExpr.sum "bid_price" "sum_bid_price") =
      aggEval (((impression_rows store).filter (fun e =>
        keyOf ["day", "minute"] e.row ==
          [Value.date e0.day, Value.str e0.minute])).map Event.row)
        (AggExpr.sum "bid_price" "sum(bid_price)") from rfl]
    simp [renameKey, projectRow, getCol, List.lookup]
  have hequal : executeQueryResult store
      ⟨[.col "minute", .agg "SUM" "bid_price"], ws, ["minute"], ob⟩ =
      executeScan store
        ⟨[.col "minute", .agg "SUM" "bid_price"], ws, ["minute"], ob⟩ := by
    rw [hscan]
    simp only [executeQueryResult, hroute]
    show (load_aggregate store .minuteRevenue >>= fun df =>
      ws.foldlM minuteFilterStep df >>= fun df =>
      df.rename "sum_bid_price" "sum(bid_price)" >>= fun df =>
      df.select ["minute", "sum(bid_price)"] >>= fun df =>
      Except.ok (if ob.isEmpty then df else applyOrderBy df ob)) = _
    rw [show load_aggregate store Shape.minuteRevenue =
        minute_revenue_agg store from by
      simp only [load_aggregate, hisE, Bool.false_eq_true, if_false]]
    rw [show minute_revenue_agg store = groupByAgg
      (builderFrame (impression_rows store) ["day", "minute", "bid_price"])
      ["day", "minute"] [.sum "bid_price" "sum_bid_price"] from rfl]
    rw [hagg, exceptBind_ok, foldlM_minuteFilter ws _ hrecm, exceptBind_ok,
      filterRows_mk, List.filter_map, rename_mk, exceptBind_ok]
    rw [show List.map (fun c => if c = "sum_bid_price" then "sum(bid_price)"
        else c) ["day", "minute", "sum_bid_price"] =
      ["day", "minute", "sum(bid_price)"] from rfl]
    rw [select_mk, exceptBind_ok]
    refine congrArg (fun fr =>
      Except.ok (if ob.isEmpty then fr else applyOrderBy fr ob)) ?_
    refine congrArg (Frame.mk _) ?_
    rw [List.map_map, List.map_map, hK1, List.map_map]
    exact List.map_congr_left hptwise
    all_goals decide
  exact ⟨_, _, hequal.trans hscan, hscan, rfl, List.Perm.refl _⟩

/-- `group_by` on an explicit frame. -/
theorem groupByAgg_mk (cols : List String) (rows : List Row) (G : List String)
    (aggs : List AggExpr)
    (h : (∀ c ∈ G, c ∈ cols) ∧
      (∀ a ∈ aggs, ∀ c ∈ a.colNeeded.toList, c ∈ cols) ∧
      (G ++ aggs.map AggExpr.outName).Nodup) :
    groupByAgg ⟨cols, rows⟩ G aggs =
      .ok ⟨G ++ aggs.map AggExpr.outName,
        (dedupFirst (rows.map (keyOf G))).map (fun k =>
          G.zip k ++ aggs.map (fun a =>
            (a.outName, aggEval (rows.filter (fun r => keyOf G r == k)) a)))⟩ := by
  show (if (∀ c ∈ G, c ∈ cols) ∧
      (∀ a ∈ aggs, ∀ c ∈ a.colNeeded.toList, c ∈ cols) ∧
      (G ++ aggs.map AggExpr.outName).Nodup then
        (Except.ok ⟨G ++ aggs.map AggExpr.outName,
          (dedupFirst (rows.map (keyOf G))).map (fun k =>
            G.zip k ++ aggs.map (fun a =>
              (a.outName, aggEval (rows.filter (fun r => keyOf G r == k)) a)))⟩ :
          Except String Frame)
      else .error "group_by: column not found or duplicated") = _
  rw [if_pos h]

theorem filterMap_some_eq_map {α β : Type} (f : α → β) (l : List α) :
    l.filterMap (fun a => some (f a)) = l.map f := by
  induction l with
  | nil => rfl
  | cons a l ih => simp [List.filterMap_cons, ih]

/-- Regrouping the publisher rollup by a coarser key: the fiber-by-fiber
sums add up to the direct sum over the events of the coarse group. -/
theorem pub_sum_fibers (evs : List Event) (g : List String)
    (Q : Event → Bool) (P : List Value → Bool) (κ : List Value)
    (hQP : ∀ e ∈ evs, Q e = P (keyOf ["publisher_id", "day", "country"] e.row))
    (hsub : ∀ c ∈ g, c ∈ (["publisher_id", "day", "country"] : List String)) :
    ((((dedupFirst (evs.map
          (fun e => keyOf ["publisher_id", "day", "country"] e.row))).filter
        P).filter (fun k =>
          keyOf g (["publisher_id", "day", "country"].zip k) == κ)).map
      (fun k => ((evs.filter (fun e =>
          keyOf ["publisher_id", "day", "country"] e.row == k)).filterMap
        (fun e => toQ (getCol e.row "bid_price"))).sum)).sum =
    (((evs.filter Q).filter (fun e => keyOf g e.row == κ)).filterMap
      (fun e => toQ (getCol e.row "bid_price"))).sum := by
  have hCg : ∀ e : Event,
      keyOf g (["publisher_id", "day", "country"].zip
        (keyOf ["publisher_id", "day", "country"] e.row)) = keyOf g e.row := by
    intro e
    rw [zip_keyOf]
    exact keyOf_projectRow g _ e.row hsub
  have hnd : (((dedupFirst (evs.map
        (fun e => keyOf ["publisher_id", "day", "country"] e.row))).filter
      P).filter (fun k =>
        keyOf g (["publisher_id", "day", "country"].zip k) == κ)).Nodup :=
    ((nodup_dedupFirst _).filter _).filter _
  have hall : ∀ e ∈ (evs.filter Q).filter (fun e => keyOf g e.row == κ),
      keyOf ["publisher_id", "day", "country"] e.row ∈
        (((dedupFirst (evs.map
            (fun e => keyOf ["publisher_id", "day", "country"] e.row))).filter
          P).filter (fun k =>
            keyOf g (["publisher_id", "day", "country"].zip k) == κ)) := by
    intro e he
    have he1 := List.mem_filter.mp he
    have he2 := List.mem_filter.mp he1.1
    refine List.mem_filter.mpr ⟨List.mem_filter.mpr
      ⟨(mem_dedupFirst _ _).mpr (List.mem_map_of_mem _ he2.1), ?_⟩, ?_⟩
    · rw [← hQP e he2.1]
      exact he2.2
    · rw [hCg e]
      exact he1.2
  have hsum := sum_over_keys (fun e => keyOf ["publisher_id", "day", "country"] e.row)
    (fun e => toQ (getCol e.row "bid_price"))
    (((dedupFirst (evs.map
        (fun e => keyOf ["publisher_id", "day", "country"] e.row))).filter
      P).filter (fun k =>
        keyOf g (["publisher_id", "day", "country"].zip k) == κ))
    ((evs.filter Q).filter (fun e => keyOf g e.row == κ)) hnd hall
  rw [← hsum]
  refine congrArg List.sum (List.map_congr_left fun k hk => ?_)
  have hk1 := List.mem_filter.mp hk
  have hk2 := List.mem_filter.mp hk1.1
  have hgrp : ((evs.filter Q).filter (fun e => keyOf g e.row == κ)).filter
      (fun e => keyOf ["publisher_id", "day", "country"] e.row == k) =
      evs.filter (fun e =>
        keyOf ["publisher_id", "day", "country"] e.row == k) := by
    rw [List.filter_filter, List.filter_filter]
    refine List.filter_congr fun e he => ?_
    by_cases hbk : keyOf ["publisher_id", "day", "country"] e.row = k
    · have hQe : Q e = true := by
        rw [hQP e he, hbk]
        exact (List.mem_filter.mp hk1.1).2
      have hge : (keyOf g e.row == κ) = true := by
        rw [← hCg e, hbk]
        exact hk1.2
      simp [hbk, hQe, hge]
    · have hbk2 : (keyOf ["publisher_id", "day", "country"] e.row == k) = false := by
        simpa using hbk
      rw [hbk2]
      simp
  exact congrArg (fun L => (List.filterMap
    (fun e => toQ (getCol e.row "bid_price")) L).sum) hgrp.symm

theorem aggEval_sum_events (l : List Event) (c n : String) :
    aggEval (l.map Event.row) (.sum c n) =
      .num ((l.filterMap (fun e => toQ (getCol e.row c))).sum) := by
  show Value.num _ = Value.num _
  refine congrArg Value.num (congrArg List.sum ?_)
  rw [List.filterMap_map]
  exact filterMap_ext l _ _ fun e he => rfl

/-- Routing equivalence for the canonical PublisherRevenue shape: the
rollup-regrouped result equals the scan result up to the ordering the
scan applies at the end. -/
theorem equiv_publisher (store : List Event) (q : Query)
    (hc : CanonicalPublisher store q) :
    ∃ f g, executeQueryResult store q = .ok f ∧ executeScan store q = .ok g ∧
      FrameEquiv f g := by
  obtain ⟨hsel, hpub, hgnd, hsub, hmem, hrecall, hstore⟩ := hc
  obtain ⟨sel, ws, g, ob⟩ := q
  simp only [Query.select, Query.group_by] at hsel
  simp only [Query.where_] at hmem hrecall
  simp only [Query.group_by] at hpub hgnd hsub
  subst hsel
  have hisE : (impression_rows store).isEmpty = false := by
    cases h : impression_rows store with
    | nil => exact absurd h hstore
    | cons _ _ => rfl
  have hgne : g ≠ [] := by
    rintro rfl
    exact absurd hpub (List.not_mem_nil _)
  have hgev : ∀ c ∈ g, c ∈ eventCols := by
    intro c hcg
    have h3 := hsub c hcg
    have hall : ∀ c ∈ (["publisher_id", "day", "country"] : List String),
        c ∈ eventCols := by decide
    exact hall c h3
  have hsbne : ∀ c ∈ g, c ≠ "sum(bid_price)" := by
    intro c hcg heq
    have h3 := hsub c hcg
    rw [heq] at h3
    exact absurd h3 (by decide)
  have hsbne2 : ∀ c ∈ g, c ≠ "sum_bid_price" := by
    intro c hcg heq
    have h3 := hsub c hcg
    rw [heq] at h3
    exact absurd h3 (by decide)
  have hnodup : (g ++ ["sum(bid_price)"]).Nodup := by
    rw [List.nodup_append]
    exact ⟨hgnd, List.nodup_singleton _, fun a ha hb => by
      rw [List.mem_singleton.mp hb] at ha
      exact absurd (hsub _ ha) (by decide)⟩
  have hnodup2 : (g ++ ["sum_bid_price"]).Nodup := by
    rw [List.nodup_append]
    exact ⟨hgnd, List.nodup_singleton _, fun a ha hb => by
      rw [List.mem_singleton.mp hb] at ha
      exact absurd (hsub _ ha) (by decide)⟩
  have htypes1 : (determinePartitions ws).1 = [PredVal.s (Value.str "impression")] :=
    determinePartitions_types "impression" ws hmem (fun w hw => by
      rcases pubRecognizedB_cases (hrecall w hw) with rfl | ⟨v, rfl⟩ | ⟨d, rfl⟩ |
        ⟨lo, hi, rfl⟩
      · exact Or.inl rfl
      · exact Or.inr (show ("country" : String) ≠ "type" by decide)
      · exact Or.inr (show ("day" : String) ≠ "type" by decide)
      · exact Or.inr (show ("day" : String) ≠ "type" by decide))
  have hscan := executeScan_canonical store
    ⟨g.map SelectItem.col ++ [.agg "SUM" "bid_price"], ws, g, ob⟩
    "SUM" "bid_price" (AggExpr.sum "bid_price" "sum(bid_price)")
    (impression_rows store) _ rfl (by decide) (by decide)
    (by rw [htypes1]; exact loadedEvents_single store "impression")
    hstore hgne hgev
    (fun w hw => pubRecognizedB_col (hrecall w hw))
    (fun w hw => pubRecognizedB_scan (hrecall w hw))
    (by decide) hnodup rfl
  have hagg := groupByAgg_builder ["publisher_id", "day", "country", "bid_price"]
    (impression_rows store) ["publisher_id", "day", "country"]
    [.sum "bid_price" "sum_bid_price"] ⟨by decide, by decide, by decide⟩
  dsimp only [List.map_cons, List.map_nil, AggExpr.outName, List.cons_append,
    List.nil_append] at hagg hscan
  have hroute : route ⟨g.map SelectItem.col ++ [.agg "SUM" "bid_price"], ws,
      g, ob⟩ = some Shape.publisher := by
    show matched_shape (g.map SelectItem.col ++ [.agg "SUM" "bid_price"]) ws g =
      some Shape.publisher
    have hd : matches_daily_revenue
        (g.map SelectItem.col ++ [.agg "SUM" "bid_price"]) ws g = false := by
      have hgne2 : (g == ["day"]) = false := by
        simp only [beq_eq_false_iff_ne, ne_eq]
        rintro rfl
        exact absurd hpub (by decide)
      unfold matches_daily_revenue
      rw [hgne2]
      simp
    have hp : matches_publisher_day_revenue
        (g.map SelectItem.col ++ [.agg "SUM" "bid_price"]) ws g = true := by
      unfold matches_publisher_day_revenue typeEqFilter
      simp only [Bool.and_eq_true, List.contains_iff_exists_mem_beq,
        List.any_eq_true, beq_iff_eq]
      exact ⟨⟨⟨⟨"publisher_id", hpub, rfl⟩,
        ⟨SelectItem.col "publisher_id",
          List.mem_append_left _ (List.mem_map_of_mem _ hpub), rfl⟩⟩,
        ⟨SelectItem.agg "SUM" "bid_price",
          List.mem_append_right _ (List.mem_cons_self _ _), rfl⟩⟩,
        ⟨typeEqImp, hmem, by decide⟩⟩
    unfold matched_shape
    rw [hd, hp]
    simp
  have hPq : ∀ e ∈ impression_rows store,
      (ws.all fun w => canonPredSem w e) =
      ws.all (fun w => pubStepSem w
        (["publisher_id", "day", "country"].zip
            (keyOf ["publisher_id", "day", "country"] e.row) ++
          [("sum_bid_price", aggEval (((impression_rows store).filter
              (fun e2 => keyOf ["publisher_id", "day", "country"] e2.row ==
                keyOf ["publisher_id", "day", "country"] e.row)).map Event.row)
            (AggExpr.sum "bid_price" "sum_bid_price"))])) := by
    intro e he
    refine list_all_congr ws _ _ fun w hw => ?_
    rcases pubRecognizedB_cases (hrecall w hw) with rfl | ⟨v, rfl⟩ | ⟨d, rfl⟩ |
      ⟨lo, hi, rfl⟩
    · have ht := typeRows_type e he
      show (e.type == "impression") = true
      simp [ht]
    · show (e.country == v) = cmpEqV (getCol
        (["publisher_id", "day", "country"].zip
            (keyOf ["publisher_id", "day", "country"] e.row) ++
          [("sum_bid_price", aggEval (((impression_rows store).filter
              (fun e2 => keyOf ["publisher_id", "day", "country"] e2.row ==
                keyOf ["publisher_id", "day", "country"] e.row)).map Event.row)
            (AggExpr.sum "bid_price" "sum_bid_price"))]) "country") (.str v)
      rw [getCol_zip_key ["publisher_id", "day", "country"] e.row _ "country"
        (by decide), getCol_event_country, cmpEqV_str]
    · show (e.day == d) = cmpEqV (getCol
        (["publisher_id", "day", "country"].zip
            (keyOf ["publisher_id", "day", "country"] e.row) ++
          [("sum_bid_price", aggEval (((impression_rows store).filter
              (fun e2 => keyOf ["publisher_id", "day", "country"] e2.row ==
                keyOf ["publisher_id", "day", "country"] e.row)).map Event.row)
            (AggExpr.sum "bid_price" "sum_bid_price"))]) "day") (.date d)
      rw [getCol_zip_key ["publisher_id", "day", "country"] e.row _ "day"
        (by decide), getCol_event_day, cmpEqV_date]
    · show (strLE lo e.day && strLE e.day hi) =
        (cmpLeV (.date lo) (getCol
          (["publisher_id", "day", "country"].zip
              (keyOf ["publisher_id", "day", "country"] e.row) ++
            [("sum_bid_price", aggEval (((impression_rows store).filter
                (fun e2 => keyOf ["publisher_id", "day", "country"] e2.row ==
                  keyOf ["publisher_id", "day", "country"] e.row)).map Event.row)
              (AggExpr.sum "bid_price" "sum_bid_price"))]) "day") &&
         cmpLeV (getCol
          (["publisher_id", "day", "country"].zip
              (keyOf ["publisher_id", "day", "country"] e.row) ++
            [("sum_bid_price", aggEval (((impression_rows store).filter
                (fun e2 => keyOf ["publisher_id", "day", "country"] e2.row ==
                  keyOf ["publisher_id", "day", "country"] e.row)).map Event.row)
              (AggExpr.sum "bid_price" "sum_bid_price"))]) "day") (.date hi))
      rw [getCol_zip_key ["publisher_id", "day", "country"] e.row _ "day"
        (by decide), getCol_event_day, cmpLeV_date, cmpLeV_date]
  have hCg : ∀ e : Event,
      keyOf g (["publisher_id", "day", "country"].zip
        (keyOf ["publisher_id", "day", "country"] e.row)) = keyOf g e.row := by
    intro e
    rw [zip_keyOf]
    exact keyOf_projectRow g _ e.row hsub
  have hLfilt : (impression_rows store).filter
      (fun e => ws.all fun w => canonPredSem w e) =
      (impression_rows store).filter (((fun r => ws.all fun w => pubStepSem w r) ∘ (fun k => ["publisher_id", "day", "country"].zip k ++
      [("sum_bid_price", aggEval (((impression_rows store).filter
          (fun e => keyOf ["publisher_id", "day", "country"] e.row == k)).map Event.row)
        (AggExpr.sum "bid_price" "sum_bid_price"))])) ∘
        (fun e => keyOf ["publisher_id", "day", "country"] e.row)) :=
    List.filter_congr fun e he => hPq e he
  have hKK : dedupFirst (((impression_rows store).filter (fun e => ws.all fun w => canonPredSem w e)).map (fun e => keyOf g e.row)) =
      dedupFirst (((dedupFirst ((impression_rows store).map
      (fun e => keyOf ["publisher_id", "day", "country"] e.row))).filter
      ((fun r => ws.all fun w => pubStepSem w r) ∘ (fun k => ["publisher_id", "day", "country"].zip k ++
      [("sum_bid_price", aggEval (((impression_rows store).filter
          (fun e => keyOf ["publisher_id", "day", "country"] e.row == k)).map Event.row)
        (AggExpr.sum "bid_price" "sum_bid_price"))]))).map (fun k => keyOf g (["publisher_id", "day", "country"].zip k))) := by
    rw [dedupFirst_filter, dedupFirst_map_dedupFirst, List.filter_map,
      List.map_map, ← hLfilt]
    exact congrArg dedupFirst (List.map_congr_left fun e he => (hCg e).symm)
  have hK3 : dedupFirst ((((dedupFirst ((impression_rows store).map
      (fun e => keyOf ["publisher_id", "day", "country"] e.row))).filter
      ((fun r => ws.all fun w => pubStepSem w r) ∘ (fun k => ["publisher_id", "day", "country"].zip k ++
      [("sum_bid_price", aggEval (((impression_rows store).filter
          (fun e => keyOf ["publisher_id", "day", "country"] e.row == k)).map Event.row)
        (AggExpr.sum "bid_price" "sum_bid_price"))]))).map (fun k => ["publisher_id", "day", "country"].zip k ++
      [("sum_bid_price", aggEval (((impression_rows store).filter
          (fun e => keyOf ["publisher_id", "day", "country"] e.row == k)).map Event.row)
        (AggExpr.sum "bid_price" "sum_bid_price"))])).map (keyOf g)) =
      dedupFirst (((dedupFirst ((impression_rows store).map
      (fun e => keyOf ["publisher_id", "day", "country"] e.row))).filter
      ((fun r => ws.all fun w => pubStepSem w r) ∘ (fun k => ["publisher_id", "day", "country"].zip k ++
      [("sum_bid_price", aggEval (((impression_rows store).filter
          (fun e => keyOf ["publisher_id", "day", "country"] e.row == k)).map Event.row)
        (AggExpr.sum "bid_price" "sum_bid_price"))]))).map (fun k => keyOf g (["publisher_id", "day", "country"].zip k))) := by
    rw [List.map_map]
    refine congrArg dedupFirst (List.map_congr_left fun k hk => ?_)
    obtain ⟨e0, he0, hke⟩ := List.mem_map.mp
      ((mem_dedupFirst _ _).mp (List.mem_filter.mp hk).1)
    rw [← hke]
    show keyOf g (["publisher_id", "day", "country"].zip
        (keyOf ["publisher_id", "day", "country"] e0.row) ++
        [("sum_bid_price", aggEval (((impression_rows store).filter
            (fun e => keyOf ["publisher_id", "day", "country"] e.row ==
              keyOf ["publisher_id", "day", "country"] e0.row)).map Event.row)
          (AggExpr.sum "bid_price" "sum_bid_price"))]) =
      keyOf g (["publisher_id", "day", "country"].zip
        (keyOf ["publisher_id", "day", "country"] e0.row))
    rw [keyOf_zip_key g ["publisher_id", "day", "country"] e0.row _ hsub, hCg e0]
  have hptw : ∀ κ ∈ dedupFirst (((impression_rows store).filter (fun e => ws.all fun w => canonPredSem w e)).map (fun e => keyOf g e.row)),
      ((projectRow (g ++ ["sum(bid_price)"]) ∘
        renameKey "sum_bid_price" "sum(bid_price)") ∘ (fun k =>
      g.zip k ++ [("sum_bid_price", aggEval ((((dedupFirst ((impression_rows store).map
      (fun e => keyOf ["publisher_id", "day", "country"] e.row))).filter
      ((fun r => ws.all fun w => pubStepSem w r) ∘ (fun k => ["publisher_id", "day", "country"].zip k ++
      [("sum_bid_price", aggEval (((impression_rows store).filter
          (fun e => keyOf ["publisher_id", "day", "country"] e.row == k)).map Event.row)
        (AggExpr.sum "bid_price" "sum_bid_price"))]))).map (fun k => ["publisher_id", "day", "country"].zip k ++
      [("sum_bid_price", aggEval (((impression_rows store).filter
          (fun e => keyOf ["publisher_id", "day", "country"] e.row == k)).map Event.row)
        (AggExpr.sum "bid_price" "sum_bid_price"))])).filter
        (fun r => keyOf g r == k)) (AggExpr.sum "sum_bid_price" "sum_bid_price"))])) κ =
      (fun κ =>
      g.zip κ ++ [("sum(bid_price)", aggEval ((((impression_rows store).filter (fun e => ws.all fun w => canonPredSem w e)).filter
        (fun e => keyOf g e.row == κ)).map Event.row)
        (AggExpr.sum "bid_price" "sum(bid_price)"))]) κ := by
    intro κ hκ
    obtain ⟨e0, he0, hκe⟩ := List.mem_map.mp ((mem_dedupFirst _ _).mp hκ)
    have hκlen : g.length ≤ κ.length :=
      le_of_eq (by rw [← hκe]; exact (keyOf_length g e0.row).symm)
    have hXC : (((dedupFirst ((impression_rows store).map
      (fun e => keyOf ["publisher_id", "day", "country"] e.row))).filter
      ((fun r => ws.all fun w => pubStepSem w r) ∘ (fun k => ["publisher_id", "day", "country"].zip k ++
      [("sum_bid_price", aggEval (((impression_rows store).filter
          (fun e => keyOf ["publisher_id", "day", "country"] e.row == k)).map Event.row)
        (AggExpr.sum "bid_price" "sum_bid_price"))]))).map (fun k => ["publisher_id", "day", "country"].zip k ++
      [("sum_bid_price", aggEval (((impression_rows store).filter
          (fun e => keyOf ["publisher_id", "day", "country"] e.row == k)).map Event.row)
        (AggExpr.sum "bid_price" "sum_bid_price"))])).filter (fun r => keyOf g r == κ) =
        (((dedupFirst ((impression_rows store).map
      (fun e => keyOf ["publisher_id", "day", "country"] e.row))).filter
      ((fun r => ws.all fun w => pubStepSem w r) ∘ (fun k => ["publisher_id", "day", "country"].zip k ++
      [("sum_bid_price", aggEval (((impression_rows store).filter
          (fun e => keyOf ["publisher_id", "day", "country"] e.row == k)).map Event.row)
        (AggExpr.sum "bid_price" "sum_bid_price"))]))).filter (fun k => keyOf g (["publisher_id", "day", "country"].zip k) ==
          κ)).map (fun k => ["publisher_id", "day", "country"].zip k ++
      [("sum_bid_price", aggEval (((impression_rows store).filter
          (fun e => keyOf ["publisher_id", "day", "country"] e.row == k)).map Event.row)
        (AggExpr.sum "bid_price" "sum_bid_price"))]) := by
      rw [List.filter_map]
      refine congrArg (List.map (fun k => ["publisher_id", "day", "country"].zip k ++
      [("sum_bid_price", aggEval (((impression_rows store).filter
          (fun e => keyOf ["publisher_id", "day", "country"] e.row == k)).map Event.row)
        (AggExpr.sum "bid_price" "sum_bid_price"))])) (List.filter_congr fun k hk => ?_)
      obtain ⟨e1, he1, hke⟩ := List.mem_map.mp
        ((mem_dedupFirst _ _).mp (List.mem_filter.mp hk).1)
      rw [← hke]
      show (keyOf g (["publisher_id", "day", "country"].zip
          (keyOf ["publisher_id", "day", "country"] e1.row) ++
          [("sum_bid_price", aggEval (((impression_rows store).filter
              (fun e => keyOf ["publisher_id", "day", "country"] e.row ==
                keyOf ["publisher_id", "day", "country"] e1.row)).map Event.row)
            (AggExpr.sum "bid_price" "sum_bid_price"))]) == κ) =
        (keyOf g (["publisher_id", "day", "country"].zip
          (keyOf ["publisher_id", "day", "country"] e1.row)) == κ)
      rw [keyOf_zip_key g ["publisher_id", "day", "country"] e1.row _ hsub, hCg e1]
    have hext : ∀ k ∈ ((dedupFirst ((impression_rows store).map
      (fun e => keyOf ["publisher_id", "day", "country"] e.row))).filter
      ((fun r => ws.all fun w => pubStepSem w r) ∘ (fun k => ["publisher_id", "day", "country"].zip k ++
      [("sum_bid_price", aggEval (((impression_rows store).filter
          (fun e => keyOf ["publisher_id", "day", "country"] e.row == k)).map Event.row)
        (AggExpr.sum "bid_price" "sum_bid_price"))]))).filter
        (fun k => keyOf g (["publisher_id", "day", "country"].zip k) == κ),
        ((fun r => toQ (getCol r "sum_bid_price")) ∘ (fun k => ["publisher_id", "day", "country"].zip k ++
      [("sum_bid_price", aggEval (((impression_rows store).filter
          (fun e => keyOf ["publisher_id", "day", "country"] e.row == k)).map Event.row)
        (AggExpr.sum "bid_price" "sum_bid_price"))])) k =
        some (((impression_rows store).filter
          (fun e => keyOf ["publisher_id", "day", "country"] e.row == k)).filterMap
          (fun e => toQ (getCol e.row "bid_price"))).sum := by
      intro k hk
      show toQ (getCol (["publisher_id", "day", "country"].zip k ++
          [("sum_bid_price", aggEval (((impression_rows store).filter
              (fun e => keyOf ["publisher_id", "day", "country"] e.row == k)).map
                Event.row)
            (AggExpr.sum "bid_price" "sum_bid_price"))]) "sum_bid_price") = _
      rw [getCol_zip_skip ["publisher_id", "day", "country"] k _ "sum_bid_price"
        (by decide)]
      rw [show getCol [("sum_bid_price", aggEval (((impression_rows store).filter
          (fun e => keyOf ["publisher_id", "day", "country"] e.row == k)).map
            Event.row)
          (AggExpr.sum "bid_price" "sum_bid_price"))] "sum_bid_price" =
        aggEval (((impression_rows store).filter
          (fun e => keyOf ["publisher_id", "day", "country"] e.row == k)).map
            Event.row)
          (AggExpr.sum "bid_price" "sum_bid_price") from rfl]
      rw [aggEval_sum_events]
      rfl
    have hval : aggEval ((((dedupFirst ((impression_rows store).map
      (fun e => keyOf ["publisher_id", "day", "country"] e.row))).filter
      ((fun r => ws.all fun w => pubStepSem w r) ∘ (fun k => ["publisher_id", "day", "country"].zip k ++
      [("sum_bid_price", aggEval (((impression_rows store).filter
          (fun e => keyOf ["publisher_id", "day", "country"] e.row == k)).map Event.row)
        (AggExpr.sum "bid_price" "sum_bid_price"))]))).map (fun k => ["publisher_id", "day", "country"].zip k ++
      [("sum_bid_price", aggEval (((impression_rows store).filter
          (fun e => keyOf ["publisher_id", "day", "country"] e.row == k)).map Event.row)
        (AggExpr.sum "bid_price" "sum_bid_price"))])).filter (fun r => keyOf g r == κ))
        (AggExpr.sum "sum_bid_price" "sum_bid_price") =
        aggEval ((((impression_rows store).filter (fun e => ws.all fun w => canonPredSem w e)).filter (fun e => keyOf g e.row == κ)).map Event.row)
        (AggExpr.sum "bid_price" "sum(bid_price)") := by
      rw [hXC, aggEval_sum_events]
      show Value.num _ = Value.num _
      refine congrArg Value.num ?_
      rw [List.filterMap_map, filterMap_ext _ _ _ hext, filterMap_some_eq_map]
      exact pub_sum_fibers (impression_rows store) g
        (fun e => ws.all fun w => canonPredSem w e) ((fun r => ws.all fun w => pubStepSem w r) ∘ (fun k => ["publisher_id", "day", "country"].zip k ++
      [("sum_bid_price", aggEval (((impression_rows store).filter
          (fun e => keyOf ["publisher_id", "day", "country"] e.row == k)).map Event.row)
        (AggExpr.sum "bid_price" "sum_bid_price"))]))
        κ (fun e he => hPq e he) hsub
    show projectRow (g ++ ["sum(bid_price)"])
        (renameKey "sum_bid_price" "sum(bid_price)"
          (g.zip κ ++ [("sum_bid_price", aggEval ((((dedupFirst ((impression_rows store).map
      (fun e => keyOf ["publisher_id", "day", "country"] e.row))).filter
      ((fun r => ws.all fun w => pubStepSem w r) ∘ (fun k => ["publisher_id", "day", "country"].zip k ++
      [("sum_bid_price", aggEval (((impression_rows store).filter
          (fun e => keyOf ["publisher_id", "day", "country"] e.row == k)).map Event.row)
        (AggExpr.sum "bid_price" "sum_bid_price"))]))).map (fun k => ["publisher_id", "day", "country"].zip k ++
      [("sum_bid_price", aggEval (((impression_rows store).filter
          (fun e => keyOf ["publisher_id", "day", "country"] e.row == k)).map Event.row)
        (AggExpr.sum "bid_price" "sum_bid_price"))])).filter
            (fun r => keyOf g r == κ))
            (AggExpr.sum "sum_bid_price" "sum_bid_price"))])) =
      g.zip κ ++ [("sum(bid_price)", aggEval ((((impression_rows store).filter (fun e => ws.all fun w => canonPredSem w e)).filter
        (fun e => keyOf g e.row == κ)).map Event.row)
        (AggExpr.sum "bid_price" "sum(bid_price)"))]
    rw [renameKey_append_last "sum_bid_price" "sum(bid_price)" (g.zip κ) _
      (fun p hp => hsbne2 p.1 (List.of_mem_zip hp).1)]
    rw [hval]
    refine projectRow_self _ _ ?_ hnodup
    rw [List.map_append, List.map_fst_zip g κ hκlen]
    rfl
  have hgmap : List.map (fun c => if c = "sum_bid_price" then "sum(bid_price)"
      else c) g = g := by
    have h1 : List.map (fun c => if c = "sum_bid_price" then "sum(bid_price)"
        else c) g = List.map id g :=
      List.map_congr_left fun c hc => by rw [if_neg (hsbne2 c hc)]; rfl
    rw [h1, List.map_id]
  have hroll : executeQueryResult store
      ⟨g.map SelectItem.col ++ [.agg "SUM" "bid_price"], ws, g, ob⟩ =
      .ok ⟨g ++ ["sum(bid_price)"], (List.map (projectRow (g ++ ["sum(bid_price)"]))
    (List.map (renameKey "sum_bid_price" "sum(bid_price)") ((dedupFirst ((((dedupFirst ((impression_rows store).map
      (fun e => keyOf ["publisher_id", "day", "country"] e.row))).filter
      ((fun r => ws.all fun w => pubStepSem w r) ∘ (fun k => ["publisher_id", "day", "country"].zip k ++
      [("sum_bid_price", aggEval (((impression_rows store).filter
          (fun e => keyOf ["publisher_id", "day", "country"] e.row == k)).map Event.row)
        (AggExpr.sum "bid_price" "sum_bid_price"))]))).map (fun k => ["publisher_id", "day", "country"].zip k ++
      [("sum_bid_price", aggEval (((impression_rows store).filter
          (fun e => keyOf ["publisher_id", "day", "country"] e.row == k)).map Event.row)
        (AggExpr.sum "bid_price" "sum_bid_price"))])).map (keyOf g))).map (fun k =>
      g.zip k ++ [("sum_bid_price", aggEval ((((dedupFirst ((impression_rows store).map
      (fun e => keyOf ["publisher_id", "day", "country"] e.row))).filter
      ((fun r => ws.all fun w => pubStepSem w r) ∘ (fun k => ["publisher_id", "day", "country"].zip k ++
      [("sum_bid_price", aggEval (((impression_rows store).filter
          (fun e => keyOf ["publisher_id", "day", "country"] e.row == k)).map Event.row)
        (AggExpr.sum "bid_price" "sum_bid_price"))]))).map (fun k => ["publisher_id", "day", "country"].zip k ++
      [("sum_bid_price", aggEval (((impression_rows store).filter
          (fun e => keyOf ["publisher_id", "day", "country"] e.row == k)).map Event.row)
        (AggExpr.sum "bid_price" "sum_bid_price"))])).filter
        (fun r => keyOf g r == k)) (AggExpr.sum "sum_bid_price" "sum_bid_price"))]))))⟩ := by
    simp only [executeQueryResult, hroute]
    show (load_aggregate store .publisher >>= fun df =>
      ws.foldlM publisherFilterStep df >>= fun df =>
      groupByAgg df g [.sum "sum_bid_price" "sum_bid_price"] >>= fun df =>
      df.rename "sum_bid_price" "sum(bid_price)" >>= fun df =>
      df.select (g ++ ["sum(bid_price)"])) = _
    rw [show load_aggregate store Shape.publisher =
      groupByAgg (builderFrame (impression_rows store)
        ["publisher_id", "day", "country", "bid_price"])
        ["publisher_id", "day", "country"] [.sum "bid_price" "sum_bid_price"] from by
      simp only [load_aggregate, hisE, Bool.false_eq_true, if_false]
      rfl]
    rw [hagg, exceptBind_ok]
    rw [foldlM_pubFilter ws _ hrecall, exceptBind_ok]
    rw [filterRows_mk, List.filter_map]
    rw [groupByAgg_mk ["publisher_id", "day", "country", "sum_bid_price"] _ g
      [.sum "sum_bid_price" "sum_bid_price"]
      ⟨fun c hc => (show ∀ x ∈ (["publisher_id", "day", "country"] : List String),
          x ∈ (["publisher_id", "day", "country", "sum_bid_price"] : List String)
          by decide) c (hsub c hc), by decide, hnodup2⟩, exceptBind_ok]
    dsimp only [List.map_cons, List.map_nil, AggExpr.outName]
    rw [rename_mk (g ++ ["sum_bid_price"]) _ "sum_bid_price" "sum(bid_price)"
      (List.mem_append_right _ (List.mem_cons_self _ _)), exceptBind_ok]
    rw [List.map_append, hgmap, show List.map (fun c =>
      if c = "sum_bid_price" then "sum(bid_price)" else c) ["sum_bid_price"] =
      ["sum(bid_price)"] from rfl]
    rw [select_mk (g ++ ["sum(bid_price)"]) _ (g ++ ["sum(bid_price)"])
      (fun c hc => hc) hnodup]
  have hrows2 : (List.map (projectRow (g ++ ["sum(bid_price)"]))
    (List.map (renameKey "sum_bid_price" "sum(bid_price)") ((dedupFirst ((((dedupFirst ((impression_rows store).map
      (fun e => keyOf ["publisher_id", "day", "country"] e.row))).filter
      ((fun r => ws.all fun w => pubStepSem w r) ∘ (fun k => ["publisher_id", "day", "country"].zip k ++
      [("sum_bid_price", aggEval (((impression_rows store).filter
          (fun e => keyOf ["publisher_id", "day", "country"] e.row == k)).map Event.row)
        (AggExpr.sum "bid_price" "sum_bid_price"))]))).map (fun k => ["publisher_id", "day", "country"].zip k ++
      [("sum_bid_price", aggEval (((impression_rows store).filter
          (fun e => keyOf ["publisher_id", "day", "country"] e.row == k)).map Event.row)
        (AggExpr.sum "bid_price" "sum_bid_price"))])).map (keyOf g))).map (fun k =>
      g.zip k ++ [("sum_bid_price", aggEval ((((dedupFirst ((impression_rows store).map
      (fun e => keyOf ["publisher_id", "day", "country"] e.row))).filter
      ((fun r => ws.all fun w => pubStepSem w r) ∘ (fun k => ["publisher_id", "day", "country"].zip k ++
      [("sum_bid_price", aggEval (((impression_rows store).filter
          (fun e => keyOf ["publisher_id", "day", "country"] e.row == k)).map Event.row)
        (AggExpr.sum "bid_price" "sum_bid_price"))]))).map (fun k => ["publisher_id", "day", "country"].zip k ++
      [("sum_bid_price", aggEval (((impression_rows store).filter
          (fun e => keyOf ["publisher_id", "day", "country"] e.row == k)).map Event.row)
        (AggExpr.sum "bid_price" "sum_bid_price"))])).filter
        (fun r => keyOf g r == k)) (AggExpr.sum "sum_bid_price" "sum_bid_price"))])))) = ((dedupFirst (((impression_rows store).filter (fun e => ws.all fun w => canonPredSem w e)).map (fun e => keyOf g e.row))).map (fun κ =>
      g.zip κ ++ [("sum(bid_price)", aggEval ((((impression_rows store).filter (fun e => ws.all fun w => canonPredSem w e)).filter
        (fun e => keyOf g e.row == κ)).map Event.row)
        (AggExpr.sum "bid_price" "sum(bid_price)"))])) := by
    rw [List.map_map, List.map_map, hK3, ← hKK]
    exact List.map_congr_left hptw
  refine ⟨_, _, hroll, hscan, ?_, ?_⟩
  · cases hob : ob.isEmpty with
    | true => rw [if_pos rfl]
    | false => rw [if_neg (by decide), applyOrderBy_cols]
  · rw [hrows2]
    cases hob : ob.isEmpty with
    | true => rw [if_pos rfl]
    | false =>
        rw [if_neg (by decide)]
        exact (applyOrderBy_rows_perm ⟨g ++ ["sum(bid_price)"],
          ((dedupFirst (((impression_rows store).filter (fun e => ws.all fun w => canonPredSem w e)).map (fun e => keyOf g e.row))).map (fun κ =>
      g.zip κ ++ [("sum(bid_price)", aggEval ((((impression_rows store).filter (fun e => ws.all fun w => canonPredSem w e)).filter
        (fun e => keyOf g e.row == κ)).map Event.row)
        (AggExpr.sum "bid_price" "sum(bid_price)"))]))⟩ ob).symm

/-! ### Claim C1: routing equivalence -/

/-- C1 counterexample.  A query of the publisher rollup shape whose
`where` list carries the extra filter `publisher_id eq 7` is still
routed to the rollup; the rollup path silently drops that filter (its
filter loop only handles `type` / `country eq` / `day eq` /
`day between`), while the scan path applies it.  On a two-impression
store with publisher ids 10 and 11 the rollup-routed result keeps both
groups and the scan result is empty, so the two paths disagree even
modulo row order. -/
theorem routing_equivalence_counterexample :
    ∃ f g,
      executeQueryResult
        [⟨0, "impression", "a1", 1, 10, none, 1, none, "US",
          "2024-01-01", "2024-W01", "2024-01-01 00", "2024-01-01 00:00"⟩,
         ⟨1, "impression", "a2", 1, 11, none, 2, none, "DE",
          "2024-01-01", "2024-W01", "2024-01-01 00", "2024-01-01 00:00"⟩]
        ⟨[SelectItem.col "publisher_id", SelectItem.agg "SUM" "bid_price"],
         [typeEqImp, ⟨"publisher_id", "eq", PredVal.s (Value.int 7)⟩],
         ["publisher_id"], []⟩ = .ok f ∧
      executeScan
        [⟨0, "impression", "a1", 1, 10, none, 1, none, "US",
          "2024-01-01", "2024-W01", "2024-01-01 00", "2024-01-01 00:00"⟩,
         ⟨1, "impression", "a2", 1, 11, none, 2, none, "DE",
          "2024-01-01", "2024-W01", "2024-01-01 00", "2024-01-01 00:00"⟩]
        ⟨[SelectItem.col "publisher_id", SelectItem.agg "SUM" "bid_price"],
         [typeEqImp, ⟨"publisher_id", "eq", PredVal.s (Value.int 7)⟩],
         ["publisher_id"], []⟩ = .ok g ∧
      ¬ FrameEquiv f g := by
  obtain ⟨f, hf, hflen⟩ : ∃ f,
      executeQueryResult
        [⟨0, "impression", "a1", 1, 10, none, 1, none, "US",
          "2024-01-01", "2024-W01", "2024-01-01 00", "2024-01-01 00:00"⟩,
         ⟨1, "impression", "a2", 1, 11, none, 2, none, "DE",
          "2024-01-01", "2024-W01", "2024-01-01 00", "2024-01-01 00:00"⟩]
        ⟨[SelectItem.col "publisher_id", SelectItem.agg "SUM" "bid_price"],
         [typeEqImp, ⟨"publisher_id", "eq", PredVal.s (Value.int 7)⟩],
         ["publisher_id"], []⟩ = .ok f ∧ f.rows.length = 2 := by
    have hroute : route
        (⟨[SelectItem.col "publisher_id", SelectItem.agg "SUM" "bid_price"],
         [typeEqImp, ⟨"publisher_id", "eq", PredVal.s (Value.int 7)⟩],
         ["publisher_id"], []⟩ : Query) = some Shape.publisher := by decide
    simp only [executeQueryResult, hroute]
    show ∃ f, (load_aggregate
        ([⟨0, "impression", "a1", 1, 10, none, 1, none, "US",
          "2024-01-01", "2024-W01", "2024-01-01 00", "2024-01-01 00:00"⟩,
         ⟨1, "impression", "a2", 1, 11, none, 2, none, "DE",
          "2024-01-01", "2024-W01", "2024-01-01 00", "2024-01-01 00:00"⟩] : List Event) .publisher >>= fun df =>
      List.foldlM publisherFilterStep df
        [typeEqImp, ⟨"publisher_id", "eq", PredVal.s (Value.int 7)⟩] >>= fun df =>
      groupByAgg df ["publisher_id"]
        [AggExpr.sum "sum_bid_price" "sum_bid_price"] >>= fun df =>
      df.rename "sum_bid_price" "sum(bid_price)" >>= fun df =>
      df.select (["publisher_id"] ++ ["sum(bid_price)"])) = Except.ok f ∧
      f.rows.length = 2
    rw [show load_aggregate
        ([⟨0, "impression", "a1", 1, 10, none, 1, none, "US",
          "2024-01-01", "2024-W01", "2024-01-01 00", "2024-01-01 00:00"⟩,
         ⟨1, "impression", "a2", 1, 11, none, 2, none, "DE",
          "2024-01-01", "2024-W01", "2024-01-01 00", "2024-01-01 00:00"⟩] : List Event) Shape.publisher =
      Except.ok (⟨["publisher_id", "day", "country", "sum_bid_price"],
        [[("publisher_id", Value.int 10), ("day", Value.date "2024-01-01"),
           ("country", Value.str "US"), ("sum_bid_price", Value.num 0)],
          [("publisher_id", Value.int 11), ("day", Value.date "2024-01-01"),
           ("country", Value.str "DE"), ("sum_bid_price", Value.num 0)]]⟩ : Frame) from by decide, exceptBind_ok]
    rw [show List.foldlM publisherFilterStep
        (⟨["publisher_id", "day", "country", "sum_bid_price"],
          [[("publisher_id", Value.int 10), ("day", Value.date "2024-01-01"),
           ("country", Value.str "US"), ("sum_bid_price", Value.num 0)],
          [("publisher_id", Value.int 11), ("day", Value.date "2024-01-01"),
           ("country", Value.str "DE"), ("sum_bid_price", Value.num 0)]]⟩ : Frame)
        [typeEqImp, ⟨"publisher_id", "eq", PredVal.s (Value.int 7)⟩] =
      Except.ok (⟨["publisher_id", "day", "country", "sum_bid_price"],
        [[("publisher_id", Value.int 10), ("day", Value.date "2024-01-01"),
           ("country", Value.str "US"), ("sum_bid_price", Value.num 0)],
          [("publisher_id", Value.int 11), ("day", Value.date "2024-01-01"),
           ("country", Value.str "DE"), ("sum_bid_price", Value.num 0)]]⟩ : Frame) from by decide, exceptBind_ok]
    rw [groupByAgg_mk ["publisher_id", "day", "country", "sum_bid_price"]
      [[("publisher_id", Value.int 10), ("day", Value.date "2024-01-01"),
           ("country", Value.str "US"), ("sum_bid_price", Value.num 0)],
          [("publisher_id", Value.int 11), ("day", Value.date "2024-01-01"),
           ("country", Value.str "DE"), ("sum_bid_price", Value.num 0)]]
      ["publisher_id"] [AggExpr.sum "sum_bid_price" "sum_bid_price"]
      ⟨by decide, by decide, by decide⟩, exceptBind_ok]
    dsimp only [List.map_cons, List.map_nil, AggExpr.outName, List.cons_append,
      List.nil_append]
    rw [rename_mk ["publisher_id", "sum_bid_price"] _ "sum_bid_price"
      "sum(bid_price)" (by decide), exceptBind_ok]
    rw [show List.map (fun c => if c = "sum_bid_price" then "sum(bid_price)"
      else c) ["publisher_id", "sum_bid_price"] =
      ["publisher_id", "sum(bid_price)"] from by decide]
    rw [select_mk ["publisher_id", "sum(bid_price)"] _
      ["publisher_id", "sum(bid_price)"] (fun c hc => hc) (by decide)]
    refine ⟨_, rfl, ?_⟩
    simp only [List.length_map]
    decide
  refine ⟨f, ⟨["publisher_id", "sum(bid_price)"], []⟩, hf, by decide, ?_⟩
  intro h
  have hlen := h.2.length_eq
  rw [hflen] at hlen
  exact absurd hlen (by decide)

/-- C1 (amended): for every query in the canonical form of one of the
five rollup shapes (select = the group columns followed by the shape's
aggregate, group columns within the rollup key, and every filter in the
set the rollup path actually applies), over a well-formed store on
which the shape's rollup file exists, the rollup-routed path and the
scan path succeed and return the same result modulo row order. -/
theorem routing_equivalence (store : List Event) (q : Query)
    (hwf : WellFormedStore store)
    (hc : CanonicalDaily store q ∨ CanonicalPublisher store q ∨
      CanonicalCountry store q ∨ CanonicalAdvertiser store q ∨
      CanonicalMinute store q) :
    ∃ f g, executeQueryResult store q = .ok f ∧ executeScan store q = .ok g ∧
      FrameEquiv f g := by
  rcases hc with h | h | h | h | h
  · exact equiv_daily store q h
  · exact equiv_publisher store q h
  · exact equiv_country store q h
  · exact equiv_advertiser store q h
  · exact equiv_minute store q hwf h

/-- Witness for C1: the canonical DailyRevenue query on a one-impression
well-formed store. -/
theorem routing_equivalence_witness :
    WellFormedStore
      [⟨0, "impression", "a1", 1, 10, some 2, 1, none, "US",
        "2024-01-01", "2024-W01", "2024-01-01 00", "2024-01-01 00:00"⟩] ∧
    CanonicalDaily
      [⟨0, "impression", "a1", 1, 10, some 2, 1, none, "US",
        "2024-01-01", "2024-W01", "2024-01-01 00", "2024-01-01 00:00"⟩]
      ⟨[SelectItem.col "day", SelectItem.agg "SUM" "bid_price"],
       [typeEqImp], ["day"], []⟩ ∧
    (∃ f g, executeQueryResult
        [⟨0, "impression", "a1", 1, 10, some 2, 1, none, "US",
          "2024-01-01", "2024-W01", "2024-01-01 00", "2024-01-01 00:00"⟩]
        ⟨[SelectItem.col "day", SelectItem.agg "SUM" "bid_price"],
         [typeEqImp], ["day"], []⟩ = .ok f ∧
      executeScan
        [⟨0, "impression", "a1", 1, 10, some 2, 1, none, "US",
          "2024-01-01", "2024-W01", "2024-01-01 00", "2024-01-01 00:00"⟩]
        ⟨[SelectItem.col "day", SelectItem.agg "SUM" "bid_price"],
         [typeEqImp], ["day"], []⟩ = .ok g ∧
      FrameEquiv f g) :=
  ⟨by unfold WellFormedStore; decide, by unfold CanonicalDaily; decide,
   routing_equivalence _ _ (by unfold WellFormedStore; decide)
     (Or.inl (by unfold CanonicalDaily; decide))⟩
